import Mathlib

/-!
# MTH9815 bond trading system: order book, algo engines, inquiries, bond notation

A shallow embedding of `marketDataService.hpp`, `algoExecutionService.hpp`,
`algoStreamingService.hpp`, `executionOrder.hpp`, `executionService.hpp`,
`tradeBookingService.hpp`, `positionService.hpp`, `priceStream.hpp`,
`pricingService.hpp`, `guiService.hpp`, `inquiryService.hpp`, `utilities.hpp`,
`products.hpp` and the listener wiring of `main.cpp`.

Conventions of the embedding.

* A C++ `double` or `float` value is the rational number it denotes (`ℚ`); there is
  no NaN and no infinity. Where the source computes on such values in the execution
  engine and the bond notation, the result is rounded to the nearest
  `double` (`toDouble`, 53 significant bits) or `float` (`toFloat`, 24 bits), ties to
  even; a result beyond the largest finite value is not modelled. The pricing and
  streaming services, whose arithmetic is specified as exact, compute on the
  rationals.
* A C++ `long` or `int` value is an `Int`. In the depth aggregation and in the
  position service a sum or difference of `long` quantities is wrapped to 64 bits
  (`wrapLong`): signed overflow is undefined behaviour in C++ and the wrap is what the
  two's complement machine yields. Counters that advance by one per call, the sum of
  the two quantities of an execution order and the clock arithmetic of the GUI service
  are not wrapped. `stoi` and `stol` check the range of `int` and `long`, and the
  conversion `int(x)` of a `float` outside the range of `int` yields `INT_MIN`.
* A `std::string` that is parsed or built character by character is the list of its
  characters (`List Char`); identifiers are `String`.
* `std::unordered_map<K, V>` is modelled by an association list with unique keys
  (`UMap`). Where the source iterates over such a map, the iteration order is a
  parameter (`IterOrder`), since the standard leaves it unspecified.
* A call whose behaviour is undefined (indexing an empty vector, dereferencing
  `end()`, default-constructing a `Bond`) or that throws (`unordered_map::at` on an
  absent key, `stoi` without digits) returns `none`. Where the difference between
  the two matters, the call has a second definition returning an `Outcome`, which
  tells a thrown exception from undefined behaviour.
* The base class `Service<K, V>` (`soa.hpp`) holds the ordered collection
  `listeners_`; a listener is identified by a number and a fanout is recorded as
  the list of `(listener, value)` calls of `ProcessAdd`, in call order.
* The clock `GetMillisecond()` is a parameter of the call that reads it, and a write
  to a file is the line written.
* The cascade of listener calls that `main.cpp` wires from market data to positions
  is a state (`Pipeline`) holding the services on that path; each `ProcessAdd` call
  of a fanout is delivered to the listener it names, in call order.
-/

namespace MTH9815

/-! ## products.hpp -/

/-- Mirror of `enum ProductType { IRSWAP, BOND }`. -/
inductive ProductType where
  | IRSWAP
  | BOND
deriving DecidableEq

/-- Mirror of `enum BondIdType { CUSIP, ISIN }`. -/
inductive BondIdType where
  | CUSIP
  | ISIN
deriving DecidableEq

/-- Calendar date `boost::gregorian::date` as year, month, day. -/
structure Date where
  year : Nat
  month : Nat
  day : Nat
deriving DecidableEq

/-- Class `Bond : Product`; `productId` and `productType` are the fields of the
base class `Product`, read by `GetProductId` and `GetProductType`. -/
structure Bond where
  productId : String
  productType : ProductType
  bondIdType : BondIdType
  ticker : String
  coupon : ℚ
  maturityDate : Date
deriving DecidableEq

/-- Method `Product::GetProductId`. -/
def Bond.GetProductId (b : Bond) : String := b.productId

/-! ## soa.hpp: listeners and keyed stores -/

/-- Identity of a registered `ServiceListener` object. -/
abbrev ListenerId := Nat

/-- Association-list model of `std::unordered_map<K, V>`. -/
abbrev UMap (K V : Type) := List (K × V)

/-- Lookup, as `unordered_map::find` (`none` stands for `end()`). -/
def UMap.find {K V : Type} [DecidableEq K] : UMap K V → K → Option V
  | [], _ => none
  | (k', v) :: m, k => if k' = k then some v else UMap.find m k

/-- Insert-or-replace, as `insert_or_assign(k, v)` and `m[k] = v`. -/
def UMap.assign {K V : Type} [DecidableEq K] : UMap K V → K → V → UMap K V
  | [], k, v => [(k, v)]
  | (k', v') :: m, k, v => if k' = k then (k', v) :: m else (k', v') :: UMap.assign m k v

/-- Synchronous fanout `for (auto& l : listeners_) l->ProcessAdd(v)`: the calls made. -/
def fanout {V : Type} (listeners : List ListenerId) (v : V) : List (ListenerId × V) :=
  listeners.map (fun l => (l, v))

/-- An iteration order of `unordered_map<double, long>`: the entries are visited
once each, in an order the standard library chooses. -/
structure IterOrder where
  enumerate : List (ℚ × Int) → List (ℚ × Int)
  perm : ∀ l, (enumerate l).Perm l

/-- The iteration order that visits the entries in order of first insertion. -/
def IterOrder.insertion : IterOrder := ⟨fun l => l, fun l => List.Perm.refl l⟩

/-- The iteration order that visits the entries in reverse order of insertion. -/
def IterOrder.reversed : IterOrder := ⟨fun l => l.reverse, fun l => List.reverse_perm l⟩

/-! ## Machine numbers -/

/-- The value a `long` holds after an arithmetic result `z`: the two's complement
wrap to 64 bits. -/
def wrapLong (z : Int) : Int := (z + 2 ^ 63) % 2 ^ 64 - 2 ^ 63

/-- The integer lies in the range of `long`. -/
def InLong (z : Int) : Prop := -2 ^ 63 ≤ z ∧ z < 2 ^ 63

/-- The nearest integer, a tie going to the even neighbour. -/
def roundHalfEven (q : ℚ) : Int :=
  let f := ⌊q⌋
  if q - f < 1 / 2 then f
  else if 1 / 2 < q - f then f + 1
  else if f % 2 = 0 then f else f + 1

/-- Number of binary digits of `n`; `fuel` bounds the recursion and `n` suffices. -/
def bitLength : Nat → Nat → Nat
  | 0, _ => 0
  | fuel + 1, n => if n = 0 then 0 else bitLength fuel (n / 2) + 1

/-- The binary exponent of a non-zero rational: the `e` with `2^e ≤ |q| < 2^(e+1)`. -/
def binaryExponent (q : ℚ) : Int :=
  let a : Int := (bitLength q.num.natAbs q.num.natAbs : Int) - (bitLength q.den q.den : Int)
  if (2 : ℚ) ^ a ≤ |q| then a else a - 1

/-- Rounding to the nearest binary floating-point value with `prec` significant bits,
ties to even; `emin` is the exponent of the last place of the subnormal values. -/
def roundBinary (prec : Nat) (emin : Int) (q : ℚ) : ℚ :=
  if q = 0 then 0
  else
    let e := max (binaryExponent q - ((prec : Int) - 1)) emin
    (roundHalfEven (q / 2 ^ e) : ℚ) * 2 ^ e

/-- Rounding to `double` (IEEE 754 binary64). -/
def toDouble (q : ℚ) : ℚ := roundBinary 53 (-1074) q

/-- Rounding to `float` (IEEE 754 binary32). -/
def toFloat (q : ℚ) : ℚ := roundBinary 24 (-149) q

/-! ## marketDataService.hpp -/

/-- Mirror of `enum PricingSide { BID, OFFER }`. -/
inductive PricingSide where
  | BID
  | OFFER
deriving DecidableEq

/-- Class `Order`. -/
structure Order where
  price : ℚ
  quantity : Int
  side : PricingSide
deriving DecidableEq

/-- Class `BidOffer`. -/
structure BidOffer where
  bidOrder : Order
  offerOrder : Order
deriving DecidableEq

/-- Class `OrderBook<Bond>`. -/
structure OrderBook where
  product : Bond
  bidStack : List Order
  offerStack : List Order
deriving DecidableEq

/-- The first loop of `GetBidOffer` over `bidStack[1..]`; the state is
`(*highest_bid_order, highest_bid_price)`. -/
def scanHighest : List Order → Order × ℚ → Order × ℚ
  | [], st => st
  | o :: rest, (best, bestPrice) =>
    if o.price > bestPrice then scanHighest rest (o, o.price)
    else scanHighest rest (best, bestPrice)

/-- The second loop of `GetBidOffer` over `offerStack[1..]`; the state is
`(*lowest_offer_order, lowest_offer_price)`. -/
def scanLowest : List Order → Order × ℚ → Order × ℚ
  | [], st => st
  | o :: rest, (best, bestPrice) =>
    if o.price < bestPrice then scanLowest rest (o, o.price)
    else scanLowest rest (best, bestPrice)

/-- Method `OrderBook<T>::GetBidOffer`. Reading `bidStack[0]` or `offerStack[0]`
of an empty vector is undefined: `none`. -/
def OrderBook.GetBidOffer (b : OrderBook) : Option BidOffer :=
  match b.bidStack, b.offerStack with
  | b0 :: bs, o0 :: os =>
    some ⟨(scanHighest bs (b0, b0.price)).1, (scanLowest os (o0, o0.price)).1⟩
  | _, _ => none

/-- Class `MarketDataService<Bond>`. -/
structure MarketDataService where
  order_books_ : UMap String OrderBook
  listeners_ : List ListenerId
  book_depth_ : Int

/-- Constructor `MarketDataService()`. -/
def MarketDataService.new : MarketDataService := ⟨[], [], 10⟩

/-- Modelled from the spec: `Service::AddListener` of the absent `soa.hpp`, to
which `MarketDataService::AddListener` delegates, appends to the ordered
collection `listeners_`. -/
def MarketDataService.AddListener (s : MarketDataService) (l : ListenerId) : MarketDataService :=
  { s with listeners_ := s.listeners_ ++ [l] }

/-- Method `MarketDataService::GetData`: `order_books_.at(product_id)`. -/
def MarketDataService.GetData (s : MarketDataService) (product_id : String) : Option OrderBook :=
  s.order_books_.find product_id

/-- Method `MarketDataService::OnMessage`: the new state and the `ProcessAdd` calls. -/
def MarketDataService.OnMessage (s : MarketDataService) (book : OrderBook) :
    MarketDataService × List (ListenerId × OrderBook) :=
  let product_id := book.product.GetProductId
  ({ s with order_books_ := s.order_books_.assign product_id book }, fanout s.listeners_ book)

/-- Method `MarketDataService::GetBestBidOffer`:
`order_books_.find(productId)->second.GetBidOffer()`. -/
def MarketDataService.GetBestBidOffer (s : MarketDataService) (productId : String) :
    Option BidOffer :=
  match s.order_books_.find productId with
  | none => none
  | some book => book.GetBidOffer

/-- The first loop of `AggregateStack`, filling `order_map`; the `+=` is an addition
of `long` values. -/
def aggregateLoop : List Order → UMap ℚ Int → UMap ℚ Int
  | [], order_map => order_map
  | order :: rest, order_map =>
    match order_map.find order.price with
    | none => aggregateLoop rest (order_map.assign order.price order.quantity)
    | some q => aggregateLoop rest (order_map.assign order.price (wrapLong (q + order.quantity)))

/-- Method `MarketDataService::AggregateStack`; `ord` is the iteration order of
`order_map` in the second loop. -/
def AggregateStack (ord : IterOrder) (original_stack : List Order) : List Order :=
  (ord.enumerate (aggregateLoop original_stack [])).map
    (fun e => Order.mk e.1 e.2 PricingSide.BID)

/-- Method `MarketDataService::AggregateDepth`: the new state and the returned book.
Each `order_books_.at(productId)` throws when the key is absent. -/
def MarketDataService.AggregateDepth (ord : IterOrder) (s : MarketDataService)
    (productId : String) : Option (MarketDataService × OrderBook) :=
  match s.order_books_.find productId with
  | none => none
  | some book =>
    let aggregated_bid_stack := AggregateStack ord book.bidStack
    let aggregated_offer_stack := AggregateStack ord book.offerStack
    let aggregated_order_book : OrderBook :=
      ⟨book.product, aggregated_bid_stack, aggregated_offer_stack⟩
    let s' : MarketDataService :=
      { s with order_books_ := s.order_books_.assign productId aggregated_order_book }
    match s'.order_books_.find productId with
    | none => none
    | some stored => some (s', stored)

/-- A book with price ties on both sides: two bids at the top price 100 and two
offers at the lowest price 201/2. -/
def tiedBook : OrderBook :=
  ⟨⟨"BONDNO1", ProductType.BOND, BondIdType.CUSIP, "US2Y", 0, ⟨2025, 11, 30⟩⟩,
    [⟨99, 100, PricingSide.BID⟩, ⟨100, 200, PricingSide.BID⟩, ⟨100, 300, PricingSide.BID⟩],
    [⟨101, 1, PricingSide.OFFER⟩, ⟨201 / 2, 2, PricingSide.OFFER⟩,
      ⟨201 / 2, 3, PricingSide.OFFER⟩]⟩

/-- Total quantity of the orders of a stack at price `p`. -/
def quantityAt (stack : List Order) (p : ℚ) : Int :=
  ((stack.filter (fun o => o.price = p)).map (fun o => o.quantity)).sum

/-- The quantity `AggregateStack` accumulates for the price `p`, with `acc` the entry
of `order_map` so far: the first order at `p` is stored as it is and every further one
is added by `+=` on `long`. -/
def levelQuantity : List Order → ℚ → Option Int → Option Int
  | [], _, acc => acc
  | o :: rest, p, acc =>
    if o.price = p then
      match acc with
      | none => levelQuantity rest p (some o.quantity)
      | some q => levelQuantity rest p (some (wrapLong (q + o.quantity)))
    else levelQuantity rest p acc

/-- The stack `agg` is a price-level aggregation of `orig`: for each price occurring
in `orig` it holds exactly one order at that price, whose quantity is the total
quantity of `orig` at that price whenever that total lies in the range of `long`, and
it holds no order at any other price. -/
def AggregatedFrom (orig agg : List Order) : Prop :=
  (∀ p : ℚ, (∃ o ∈ orig, o.price = p) →
    ∃ a : Order, agg.filter (fun x => x.price = p) = [a] ∧
      (InLong (quantityAt orig p) → a.quantity = quantityAt orig p)) ∧
  (∀ a ∈ agg, ∃ o ∈ orig, o.price = a.price)

/-- A book of "BONDNO1" with two bids of 2^62 at the price 100 and one offer. -/
def overflowBook : OrderBook :=
  ⟨⟨"BONDNO1", ProductType.BOND, BondIdType.CUSIP, "US2Y", 0, ⟨2025, 11, 30⟩⟩,
    [⟨100, 2 ^ 62, PricingSide.BID⟩, ⟨100, 2 ^ 62, PricingSide.BID⟩],
    [⟨101, 1, PricingSide.OFFER⟩]⟩

/-- A service that has received the tied book. -/
def tiedService : MarketDataService := (MarketDataService.new.OnMessage tiedBook).1

/-! ## executionOrder.hpp -/

/-- Mirror of `enum OrderType { FOK, IOC, MARKET, LIMIT, STOP }`. -/
inductive OrderType where
  | FOK
  | IOC
  | MARKET
  | LIMIT
  | STOP
deriving DecidableEq

/-- Mirror of `enum Market { BROKERTEC, ESPEED, CME }`. -/
inductive Market where
  | BROKERTEC
  | ESPEED
  | CME
deriving DecidableEq

/-- Conversion of a `double` to `long`: truncation toward zero. -/
def truncToLong (q : ℚ) : Int := Int.tdiv q.num q.den

/-- Class `ExecutionOrder<Bond>`; the two quantities are stored as `double`. -/
structure ExecutionOrder where
  product_ : Bond
  side_ : PricingSide
  orderId_ : String
  orderType_ : OrderType
  price_ : ℚ
  visibleQuantity_ : ℚ
  hiddenQuantity_ : ℚ
  parentOrderId_ : String
  isChildOrder_ : Bool
deriving DecidableEq

/-- Method `ExecutionOrder::GetVisibleQuantity` (returns `long`). -/
def ExecutionOrder.GetVisibleQuantity (o : ExecutionOrder) : Int := truncToLong o.visibleQuantity_

/-- Method `ExecutionOrder::GetHiddenQuantity` (returns `long`). -/
def ExecutionOrder.GetHiddenQuantity (o : ExecutionOrder) : Int := truncToLong o.hiddenQuantity_

/-! ## algoExecutionService.hpp -/

/-- Class `AlgoExecutionOrder<Bond>`; `order_` is the pointed-to execution order. -/
structure AlgoExecutionOrder where
  order_ : ExecutionOrder
  market_ : Market
deriving DecidableEq

/-- The ten-argument constructor of `AlgoExecutionOrder`. -/
def AlgoExecutionOrder.new (product : Bond) (side : PricingSide) (orderId : String)
    (orderType : OrderType) (price visibleQuantity hiddenQuantity : ℚ) (parentOrderId : String)
    (isChildOrder : Bool) (market : Market) : AlgoExecutionOrder :=
  ⟨⟨product, side, orderId, orderType, price, visibleQuantity, hiddenQuantity, parentOrderId,
    isChildOrder⟩, market⟩

/-- Class `AlgoExecutionService<Bond>`. -/
structure AlgoExecutionService where
  algo_execution_orders_ : UMap String AlgoExecutionOrder
  listeners_ : List ListenerId
  spread_ : ℚ
  execution_count_ : Int
deriving DecidableEq

/-- Constructor `AlgoExecutionService()`: `spread_(1. / 128.), execution_count_(0)`. -/
def AlgoExecutionService.new : AlgoExecutionService := ⟨[], [], 1 / 128, 0⟩

/-- Modelled from the spec: `Service::AddListener` of the absent `soa.hpp`, to
which `AlgoExecutionService::AddListener` delegates, appends to the ordered
collection `listeners_`. -/
def AlgoExecutionService.AddListener (s : AlgoExecutionService) (l : ListenerId) :
    AlgoExecutionService :=
  { s with listeners_ := s.listeners_ ++ [l] }

/-- A freshly constructed service on which the listeners `ls` were registered in order. -/
def AlgoExecutionService.fresh (ls : List ListenerId) : AlgoExecutionService :=
  ls.foldl AlgoExecutionService.AddListener AlgoExecutionService.new

/-- Method `AlgoExecutionService::AlgoExecute`: the new state and the `ProcessAdd`
calls made on the listeners. The difference `offer_price - bid_price` is a `double`
subtraction, the `long` quantity is converted to the `double` parameter of the
constructor, and `execution_count_ % 2` is the truncating remainder. -/
def AlgoExecutionService.AlgoExecute (s : AlgoExecutionService) (order_book : OrderBook)
    (market : Market) : Option (AlgoExecutionService × List (ListenerId × AlgoExecutionOrder)) :=
  let product := order_book.product
  match order_book.GetBidOffer with
  | none => none
  | some bid_offer =>
    let bid_order := bid_offer.bidOrder
    let bid_price := bid_order.price
    let bid_quantity := bid_order.quantity
    let offer_order := bid_offer.offerOrder
    let offer_price := offer_order.price
    let offer_quantity := offer_order.quantity
    if toDouble (offer_price - bid_price) ≤ s.spread_ then
      let chosen : ℚ × Int × PricingSide :=
        if Int.tmod s.execution_count_ 2 ≠ 0 then (offer_price, offer_quantity, PricingSide.OFFER)
        else (bid_price, bid_quantity, PricingSide.BID)
      let s' : AlgoExecutionService := { s with execution_count_ := s.execution_count_ + 1 }
      let algo_execution_order := AlgoExecutionOrder.new product chosen.2.2 "" OrderType.MARKET
        chosen.1 (toDouble (chosen.2.1 : ℚ)) 0 "" false market
      some (s', fanout s'.listeners_ algo_execution_order)
    else some (s, [])

/-- Method `MarketDataToAlgoExecutionListener::ProcessAdd`: `AlgoExecute(data)` with
the default argument `market = BROKERTEC`. -/
def MarketDataToAlgoExecutionListener.ProcessAdd (service_ : AlgoExecutionService)
    (data : OrderBook) : Option (AlgoExecutionService × List (ListenerId × AlgoExecutionOrder)) :=
  service_.AlgoExecute data Market.BROKERTEC

/-- A sequence of `AlgoExecute` calls: the final state and, per call, the
`ProcessAdd` calls it made. -/
def AlgoExecutionService.run :
    AlgoExecutionService → List (OrderBook × Market) →
      Option (AlgoExecutionService × List (List (ListenerId × AlgoExecutionOrder)))
  | s, [] => some (s, [])
  | s, (book, market) :: rest =>
    match s.AlgoExecute book market with
    | none => none
    | some (s', calls) =>
      match AlgoExecutionService.run s' rest with
      | none => none
      | some (s'', outs) => some (s'', calls :: outs)

/-- The book's best bid/offer exists and its spread, as `AlgoExecute` computes it, is at
most 1/128. -/
def OrderBook.crossable (b : OrderBook) : Bool :=
  match b.GetBidOffer with
  | none => false
  | some bo => decide (toDouble (bo.offerOrder.price - bo.bidOrder.price) ≤ 1 / 128)

/-- Number of crossable books among a list of calls. -/
def crossableCount (cs : List (OrderBook × Market)) : Nat :=
  (cs.filter (fun c => c.1.crossable)).length

/-- A one-level book of product `id` with bid `bid` and offer `offer`. -/
def quoteBook (id : String) (bid offer : ℚ) : OrderBook :=
  ⟨⟨id, ProductType.BOND, BondIdType.CUSIP, "", 0, ⟨2025, 11, 30⟩⟩,
    [⟨bid, 1000000, PricingSide.BID⟩], [⟨offer, 2000000, PricingSide.OFFER⟩]⟩

/-- A one-level book of "BONDNO1" whose bid is `-2^-70` and whose offer is 1/128: both
are `double` values, their difference `1/128 + 2^-70` is not. -/
def roundedBook : OrderBook := quoteBook "BONDNO1" (-(1 / 2 ^ 70)) (1 / 128)

/-- A one-level book of "BONDNO1" at the price 100 on both sides, each for the quantity
2^53 + 1, which is not a `double` value. -/
def bigBook : OrderBook :=
  ⟨⟨"BONDNO1", ProductType.BOND, BondIdType.CUSIP, "", 0, ⟨2025, 11, 30⟩⟩,
    [⟨100, 2 ^ 53 + 1, PricingSide.BID⟩], [⟨100, 2 ^ 53 + 1, PricingSide.OFFER⟩]⟩

/-! ## pricingService.hpp, priceStream.hpp, algoStreamingService.hpp -/

/-- Class `Price<Bond>`. -/
structure Price where
  product : Bond
  mid : ℚ
  bidOfferSpread : ℚ
deriving DecidableEq

/-- Class `PriceStreamOrder`. -/
structure PriceStreamOrder where
  price : ℚ
  visibleQuantity : Int
  hiddenQuantity : Int
  side : PricingSide
deriving DecidableEq

/-- Class `PriceStream<Bond>`. -/
structure PriceStream where
  product : Bond
  bidOrder : PriceStreamOrder
  offerOrder : PriceStreamOrder
deriving DecidableEq

/-- Class `AlgoStream<Bond>`; `price_stream_` is the pointed-to price stream. -/
structure AlgoStream where
  price_stream_ : PriceStream
deriving DecidableEq

/-- The three-argument constructor of `AlgoStream`. -/
def AlgoStream.new (product : Bond) (bid_order offer_order : PriceStreamOrder) : AlgoStream :=
  ⟨⟨product, bid_order, offer_order⟩⟩

/-- Class `AlgoStreamingService<Bond>`. -/
structure AlgoStreamingService where
  algo_streams_ : UMap String AlgoStream
  listeners_ : List ListenerId
  count_ : Int
deriving DecidableEq

/-- Constructor `AlgoStreamingService()`: `count_ = 0`. -/
def AlgoStreamingService.new : AlgoStreamingService := ⟨[], [], 0⟩

/-- Modelled from the spec: `Service::AddListener` of the absent `soa.hpp`, to
which `AlgoStreamingService::AddListener` delegates, appends to the ordered
collection `listeners_`. -/
def AlgoStreamingService.AddListener (s : AlgoStreamingService) (l : ListenerId) :
    AlgoStreamingService :=
  { s with listeners_ := s.listeners_ ++ [l] }

/-- A freshly constructed service on which the listeners `ls` were registered in order. -/
def AlgoStreamingService.fresh (ls : List ListenerId) : AlgoStreamingService :=
  ls.foldl AlgoStreamingService.AddListener AlgoStreamingService.new

/-- Method `AlgoStreamingService::AlgoPublishPrice`: the new state and the
`ProcessAdd` calls made on the listeners. -/
def AlgoStreamingService.AlgoPublishPrice (s : AlgoStreamingService) (price : Price) :
    AlgoStreamingService × List (ListenerId × AlgoStream) :=
  let product := price.product
  let product_id := product.GetProductId
  let mid := price.mid
  let spread := price.bidOfferSpread
  let bid_price := mid - spread / 2
  let offer_price := mid + spread / 2
  let visible_quantity : Int := (Int.tmod s.count_ 2 + 1) * 1000000
  let count' := s.count_ + 1
  let hidden_quantity : Int := visible_quantity * 2
  let bid_order : PriceStreamOrder := ⟨bid_price, visible_quantity, hidden_quantity, PricingSide.BID⟩
  let offer_order : PriceStreamOrder :=
    ⟨offer_price, visible_quantity, hidden_quantity, PricingSide.OFFER⟩
  let algo_stream := AlgoStream.new product bid_order offer_order
  let s' : AlgoStreamingService :=
    ⟨s.algo_streams_.assign product_id algo_stream, s.listeners_, count'⟩
  (s', fanout s'.listeners_ algo_stream)

/-- Method `PricingToAlgoStreamingListener::ProcessAdd`. -/
def PricingToAlgoStreamingListener.ProcessAdd (service_ : AlgoStreamingService) (data : Price) :
    AlgoStreamingService × List (ListenerId × AlgoStream) :=
  service_.AlgoPublishPrice data

/-- A sequence of `AlgoPublishPrice` calls: the final state and, per call, the
`ProcessAdd` calls it made. -/
def AlgoStreamingService.run :
    AlgoStreamingService → List Price → AlgoStreamingService × List (List (ListenerId × AlgoStream))
  | s, [] => (s, [])
  | s, price :: rest =>
    let r := AlgoStreamingService.run (s.AlgoPublishPrice price).1 rest
    (r.1, (s.AlgoPublishPrice price).2 :: r.2)

/-- A price of product `id` with the given mid and bid/offer spread. -/
def midPrice (id : String) (mid spread : ℚ) : Price :=
  ⟨⟨id, ProductType.BOND, BondIdType.CUSIP, "", 0, ⟨2025, 11, 30⟩⟩, mid, spread⟩


/-! ## utilities.hpp and the string functions it calls -/

/-- Predicate `isspace` of the C locale. -/
def isspace (c : Char) : Bool :=
  c = ' ' || c = '\t' || c = '\n' || c = Char.ofNat 11 || c = Char.ofNat 12 || c = '\r'

/-- Predicate `isdigit`. -/
def isdigit (c : Char) : Bool := decide ('0' ≤ c ∧ c ≤ '9')

/-- Value of the longest prefix of decimal digits, continuing from `v`. -/
def digitsValue : List Char → Nat → Nat
  | [], v => v
  | c :: cs, v => if isdigit c then digitsValue cs (10 * v + (c.toNat - 48)) else v

/-- The digits part of `stoi`: at least one digit is required (`invalid_argument`
otherwise). -/
def stoiDigits : List Char → Option Int
  | [] => none
  | c :: cs => if isdigit c then some (digitsValue (c :: cs) 0 : Nat) else none

/-- The conversion behind `std::stoi` and `std::stol` (base 10): leading white space
is skipped, a sign is accepted, the longest run of digits is converted and the rest is
ignored; `none` when there is no digit (`invalid_argument`). -/
def strtol : List Char → Option Int
  | [] => none
  | c :: cs =>
    if isspace c then strtol cs
    else if c = '-' then (stoiDigits cs).map (fun v => -v)
    else if c = '+' then stoiDigits cs
    else stoiDigits (c :: cs)

/-- Function `std::stoi`: the converted value when it lies in the range of `int`;
otherwise `out_of_range` is thrown (`none`). -/
def stoi (s : List Char) : Option Int :=
  match strtol s with
  | some v => if -2 ^ 31 ≤ v ∧ v < 2 ^ 31 then some v else none
  | none => none

/-- Function `std::stol`: the converted value when it lies in the range of `long`;
otherwise `out_of_range` is thrown (`none`). -/
def stol (s : List Char) : Option Int :=
  match strtol s with
  | some v => if -2 ^ 63 ≤ v ∧ v < 2 ^ 63 then some v else none
  | none => none

/-- Function `std::to_string(int)`. -/
def to_string (n : Int) : List Char :=
  if n < 0 then '-' :: Nat.toDigits 10 n.natAbs else Nat.toDigits 10 n.natAbs

/-- Method `std::string::find(char)`: the index of the first occurrence (`none` is `npos`). -/
def findChar (c : Char) : List Char → Option Nat
  | [] => none
  | d :: ds => if d = c then some 0 else (findChar c ds).map (fun i => i + 1)

/-- Method `std::string::substr(pos, n)`; throws `out_of_range` when `pos > size()`. -/
def substr (s : List Char) (pos n : Nat) : Option (List Char) :=
  if pos ≤ s.length then some ((s.drop pos).take n) else none

/-- Read `s[i]` on a `const std::string`: the character at index `i`, the terminator
`'\0'` at `i = size()`, undefined beyond. -/
def charAt (s : List Char) (i : Nat) : Option Char :=
  match s[i]? with
  | some c => some c
  | none => if i = s.length then some (Char.ofNat 0) else none

/-- The body of `ConvertPrice(const string&)` after `find`: `handle` is
`str_price.substr(0, delimiter_pos)`, `fracPos` is `delimiter_pos + 1` and `lastPos`
is `delimiter_pos + 3`. The accumulator `res` is a `float`; each `res += x` adds the
`double` value `x` in `double` arithmetic and narrows the sum to `float`. -/
def ConvertPriceAt (str_price handle : List Char) (fracPos lastPos : Nat) : Option ℚ := do
  let h ← stoi handle
  let res : ℚ := toFloat (h : ℚ)
  let frac ← substr str_price fracPos 2
  let xy ← stoi frac
  let res : ℚ := toFloat (toDouble (res + toDouble ((xy : ℚ) / 32)))
  let last_char ← charAt str_price lastPos
  if last_char = '+' then
    some (toFloat (toDouble (res + toDouble (1 / 64))))
  else
    some (toFloat (toDouble
      (res + toDouble ((((last_char.toNat : Int) - 48 : Int) : ℚ) / 256))))

/-- Function `ConvertPrice(const string&)`, bond notation to number. When the string
has no `'-'`, `delimiter_pos` is `npos`: `substr(0, npos)` is the whole string and
`delimiter_pos + 1`, `delimiter_pos + 3` wrap around to 0 and 2. -/
def ConvertPrice (str_price : List Char) : Option ℚ :=
  match findChar '-' str_price with
  | some delimiter_pos =>
    ConvertPriceAt str_price (str_price.take delimiter_pos) (delimiter_pos + 1) (delimiter_pos + 3)
  | none => ConvertPriceAt str_price str_price 0 2

/-- Conversion `int(x)` of a `float`: truncation toward zero. A value outside the
range of `int` has no defined conversion; the result of the machine's conversion
instruction, `INT_MIN`, is taken. -/
def truncToInt (q : ℚ) : Int :=
  if -2 ^ 31 ≤ truncToLong q ∧ truncToLong q < 2 ^ 31 then truncToLong q else -2 ^ 31

/-- Function `ConvertPrice(float)`, number to bond notation. The argument is narrowed
to the `float` parameter; `f_price -= integer` is a `float` subtraction of the
converted `int`, and `f_price *= 32.` multiplies in `double` and narrows to `float`. -/
def ConvertPriceText (f_price : ℚ) : List Char :=
  let f_price := toFloat f_price
  let integer := truncToInt f_price
  let res := to_string integer ++ ['-']
  let f_price := toFloat (f_price - toFloat (integer : ℚ))
  let f_price := toFloat (toDouble (f_price * 32))
  let integer := truncToInt f_price
  let res := if integer < 10 then res ++ ['0'] else res
  let res := res ++ to_string integer
  let f_price := toFloat (f_price - toFloat (integer : ℚ))
  let f_price := toFloat (toDouble (f_price * 8))
  let integer := truncToInt f_price
  if integer = 4 then res ++ ['+'] else res ++ to_string integer

/-- The value `not_a_date_time` of a default-constructed `boost::gregorian::date`. -/
def Date.not_a_date_time : Date := ⟨0, 0, 0⟩

/-- Table `kBondMapCusip`. -/
def kBondMapCusip : List (String × (Int × Date)) :=
  [("BONDNO1", (2, ⟨2025, 11, 30⟩)),
   ("BONDNO2", (3, ⟨2026, 11, 15⟩)),
   ("BONDNO3", (5, ⟨2028, 11, 30⟩)),
   ("BONDNO4", (7, ⟨2030, 11, 30⟩)),
   ("BONDNO5", (10, ⟨2033, 11, 15⟩)),
   ("BONDNO6", (20, ⟨2043, 11, 30⟩)),
   ("BONDNO7", (30, ⟨2053, 11, 15⟩))]

/-- Read `kBondMapCusip[cusip]`: an absent key yields the value-initialised pair. -/
def kBondMapCusipAt (cusip : String) : Int × Date :=
  match UMap.find kBondMapCusip cusip with
  | some v => v
  | none => (0, Date.not_a_date_time)

/-- Function `FetchBond(const string& cusip)`. -/
def FetchBond (cusip : String) : Bond :=
  ⟨cusip, ProductType.BOND, BondIdType.CUSIP,
    String.mk ("US".toList ++ to_string (kBondMapCusipAt cusip).1 ++ "Y".toList), 0,
    (kBondMapCusipAt cusip).2⟩

/-- The loop `while (getline(stream, entry, delim))` collecting the entries: `cur` is
the entry being read, in reverse. At the end of the input a non-empty entry is
delivered and an empty one is not. -/
def getlineSplit (delim : Char) : List Char → List Char → List (List Char)
  | [], cur => if cur = [] then [] else [cur.reverse]
  | c :: cs, cur =>
    if c = delim then cur.reverse :: getlineSplit delim cs []
    else getlineSplit delim cs (c :: cur)

/-- Local state of `MarketDataConnector::Subscribe` together with the service and the
trace: the books passed to `OnMessage` and the `ProcessAdd` calls, in order. -/
structure SubscribeState where
  service_ : MarketDataService
  bid_stack : List Order
  offer_stack : List Order
  order_count : Nat
  published : List OrderBook
  calls : List (ListenerId × OrderBook)

/-- One iteration of the loop of `MarketDataConnector::Subscribe` on the line `line`.
Reading a missing entry of `line_entries` is undefined, `stol` and `stoi` may throw:
`none`. `order_count` is `unsigned`, compared with the `int` `read_lines`. -/
def MarketDataConnector.step (read_lines : Int) (st : SubscribeState) (line : List Char) :
    Option SubscribeState := do
  let line_entries := getlineSplit ',' line []
  let product_id ← line_entries[0]?
  let price ← (← line_entries[1]?) |> ConvertPrice
  let quantity ← (← line_entries[2]?) |> stol
  let side := if (← line_entries[3]?) = "BID".toList then PricingSide.BID else PricingSide.OFFER
  let order : Order := ⟨price, quantity, side⟩
  let bid_stack := if side = PricingSide.BID then st.bid_stack ++ [order] else st.bid_stack
  let offer_stack := if side = PricingSide.BID then st.offer_stack else st.offer_stack ++ [order]
  let order_count := (st.order_count + 1) % 4294967296
  if (order_count : Int) = read_lines % 4294967296 then
    let product := FetchBond (String.mk product_id)
    let orderbook : OrderBook := ⟨product, bid_stack, offer_stack⟩
    let r := st.service_.OnMessage orderbook
    some ⟨r.1, [], [], 0, st.published ++ [orderbook], st.calls ++ r.2⟩
  else
    some ⟨st.service_, bid_stack, offer_stack, order_count, st.published, st.calls⟩

/-- The loop of `MarketDataConnector::Subscribe` over the lines of the stream. -/
def MarketDataConnector.loop (read_lines : Int) :
    List (List Char) → SubscribeState → Option SubscribeState
  | [], st => some st
  | line :: rest, st =>
    match MarketDataConnector.step read_lines st line with
    | none => none
    | some st' => MarketDataConnector.loop read_lines rest st'

/-- Method `MarketDataConnector::Subscribe`; `data` is the stream as the list of its
lines. Returns the service, the books passed to `OnMessage` and the `ProcessAdd`
calls made, in order. -/
def MarketDataConnector.Subscribe (service_ : MarketDataService) (data : List (List Char)) :
    Option (MarketDataService × List OrderBook × List (ListenerId × OrderBook)) :=
  let book_depth := service_.book_depth_
  let read_lines := book_depth * 2
  (MarketDataConnector.loop read_lines data ⟨service_, [], [], 0, [], []⟩).map
    (fun st => (st.service_, st.published, st.calls))

/-- A market-data line `productId,price,quantity,side`. -/
def marketDataLine (productId price quantity side : String) : List Char :=
  (productId ++ "," ++ price ++ "," ++ quantity ++ "," ++ side).toList

/-- Twenty lines for "BONDNO1": ten BID lines at 99-00 and ten OFFER lines at 99-08,
alternating, each of quantity 100. -/
def twentyLines : List (List Char) :=
  (List.replicate 10 [marketDataLine "BONDNO1" "99-00" "100" "BID",
    marketDataLine "BONDNO1" "99-08" "100" "OFFER"]).flatten

/-- Class `PricingService<Bond>`. -/
structure PricingService where
  prices_ : UMap String Price
  listeners_ : List ListenerId
deriving DecidableEq

/-- Constructor `PricingService()`. -/
def PricingService.new : PricingService := ⟨[], []⟩

/-- Modelled from the spec: `Service::AddListener` of the absent `soa.hpp`, to
which `PricingService::AddListener` delegates, appends to the ordered collection
`listeners_`. -/
def PricingService.AddListener (s : PricingService) (l : ListenerId) : PricingService :=
  { s with listeners_ := s.listeners_ ++ [l] }

/-- Method `PricingService::GetData`: `prices_[product_id]`. For an absent key
`operator[]` default-constructs a `Price<Bond>`, which runs `Bond()`, that is
`Product(0, BOND)`: a `std::string` built from a null pointer, undefined. -/
def PricingService.GetData (s : PricingService) (product_id : String) :
    Option (PricingService × Price) :=
  match s.prices_.find product_id with
  | some p => some (s, p)
  | none => none

/-- Method `PricingService::OnMessage`: `product_id` is computed and not used, the
listeners are notified. -/
def PricingService.OnMessage (s : PricingService) (data : Price) :
    PricingService × List (ListenerId × Price) :=
  let _product_id := data.product.GetProductId
  (s, fanout s.listeners_ data)

/-! ## inquiryService.hpp -/

/-- Mirror of `enum Side { BUY, SELL }` (tradeBookingService.hpp). -/
inductive Side where
  | BUY
  | SELL
deriving DecidableEq

/-- Mirror of `enum InquiryState { RECEIVED, QUOTED, DONE, REJECTED, CUSTOMER_REJECTED }`. -/
inductive InquiryState where
  | RECEIVED
  | QUOTED
  | DONE
  | REJECTED
  | CUSTOMER_REJECTED
deriving DecidableEq

/-- Class `Inquiry<Bond>`. -/
structure Inquiry where
  inquiryId : String
  product : Bond
  side : Side
  quantity : Int
  price : ℚ
  state : InquiryState
deriving DecidableEq

/-- Method `Inquiry::SetState`. -/
def Inquiry.SetState (i : Inquiry) (new_state : InquiryState) : Inquiry :=
  { i with state := new_state }

/-- Class `InquiryService<Bond>`. -/
structure InquiryService where
  inquiries_ : UMap String Inquiry
  listeners_ : List ListenerId
deriving DecidableEq

/-- Constructor `InquiryService()`. -/
def InquiryService.new : InquiryService := ⟨[], []⟩

/-- Modelled from the spec: `Service::AddListener` of the absent `soa.hpp`, to
which `InquiryService::AddListener` delegates, appends to the ordered collection
`listeners_`. -/
def InquiryService.AddListener (s : InquiryService) (l : ListenerId) : InquiryService :=
  { s with listeners_ := s.listeners_ ++ [l] }

/-- Result of a call that takes the inquiry by reference: the service, the inquiry
as the caller sees it afterwards, and the `ProcessAdd` calls made. -/
abbrev InquiryResult := InquiryService × Inquiry × List (ListenerId × Inquiry)

/-- Method `InquiryConnector::Subscribe(Inquiry<T>&)`: `service_->OnMessage(data)`;
`onMessage` is the service's `OnMessage`. -/
def InquiryConnector.Subscribe (onMessage : InquiryService → Inquiry → Option InquiryResult)
    (service_ : InquiryService) (data : Inquiry) : Option InquiryResult :=
  onMessage service_ data

/-- Method `InquiryConnector::Publish`. -/
def InquiryConnector.Publish (onMessage : InquiryService → Inquiry → Option InquiryResult)
    (service_ : InquiryService) (data : Inquiry) : Option InquiryResult :=
  let state := data.state
  if state = InquiryState.RECEIVED then
    InquiryConnector.Subscribe onMessage service_ (data.SetState InquiryState.QUOTED)
  else some (service_, data, [])

/-- Method `InquiryService::OnMessage`. The method calls itself through the
connector; `fuel` bounds the depth of these nested calls (`none` when exhausted). -/
def InquiryService.OnMessage : Nat → InquiryService → Inquiry → Option InquiryResult
  | 0, _, _ => none
  | fuel + 1, s, data =>
    let state := data.state
    let inquiry_id := data.inquiryId
    match state with
    | InquiryState.RECEIVED =>
      let s1 : InquiryService := ⟨s.inquiries_.assign inquiry_id data, s.listeners_⟩
      InquiryConnector.Publish (InquiryService.OnMessage fuel) s1 data
    | InquiryState.QUOTED =>
      let data1 := data.SetState InquiryState.DONE
      let s1 : InquiryService := ⟨s.inquiries_.assign inquiry_id data1, s.listeners_⟩
      some (s1, data1, fanout s1.listeners_ data1)
    | _ => some (s, data, [])

/-- Method `InquiryService::RejectInquiry`: the new state and the `ProcessAdd` calls
made (the method has no listener loop). `inquiries_[inquiryId]` on an absent key
default-constructs an `Inquiry<Bond>`, which runs `Bond()`: undefined. -/
def InquiryService.RejectInquiry (s : InquiryService) (inquiryId : String) :
    Option (InquiryService × List (ListenerId × Inquiry)) :=
  match s.inquiries_.find inquiryId with
  | none => none
  | some inquiry =>
    some (⟨s.inquiries_.assign inquiryId (inquiry.SetState InquiryState.REJECTED),
      s.listeners_⟩, [])

/-- State stored under an inquiry id, if any. -/
def InquiryService.storedState (s : InquiryService) (inquiryId : String) : Option InquiryState :=
  (s.inquiries_.find inquiryId).map (fun i => i.state)

/-- An inquiry "INQ1" on "BONDNO1" (BUY 1,000,000 at 100) in the given state. -/
def sampleInquiry (state : InquiryState) : Inquiry :=
  ⟨"INQ1", FetchBond "BONDNO1", Side.BUY, 1000000, 100, state⟩

/-- A service with listener 1 that received the sample inquiry (RECEIVED) and then
rejected it. -/
def rejectedService : Option InquiryService := do
  let r ← (InquiryService.new.AddListener 1).OnMessage 2 (sampleInquiry InquiryState.RECEIVED)
  let r2 ← r.1.RejectInquiry "INQ1"
  pure r2.1

/-! ## Outcomes of calls that can fail -/

/-- What a call yields: a value, a thrown exception (`unordered_map::at` on an absent
key throws `std::out_of_range`), or undefined behaviour (an unchecked read such as
`v[0]` on an empty vector or `*end()`), for which the source has no check and signals
nothing. -/
inductive Outcome (α : Type) where
  | value (a : α)
  | throws
  | undefined
deriving DecidableEq

/-- The value of an outcome, if it has one. -/
def Outcome.toOption {α : Type} : Outcome α → Option α
  | Outcome.value a => some a
  | Outcome.throws => none
  | Outcome.undefined => none

/-- Method `OrderBook<T>::GetBidOffer`, with the kind of outcome: `bidStack[0]` and
`offerStack[0]` are read through `vector::operator[]`, which is unchecked. -/
def OrderBook.GetBidOfferOutcome (b : OrderBook) : Outcome BidOffer :=
  match b.bidStack, b.offerStack with
  | b0 :: bs, o0 :: os =>
    Outcome.value ⟨(scanHighest bs (b0, b0.price)).1, (scanLowest os (o0, o0.price)).1⟩
  | _, _ => Outcome.undefined

/-- Method `MarketDataService::GetBestBidOffer`, with the kind of outcome:
`order_books_.find(productId)->second` dereferences `end()` for an absent key. -/
def MarketDataService.GetBestBidOfferOutcome (s : MarketDataService) (productId : String) :
    Outcome BidOffer :=
  match s.order_books_.find productId with
  | none => Outcome.undefined
  | some book => book.GetBidOfferOutcome

/-- Read `m.at(key)`: the stored value, or `std::out_of_range`. The map is not
modified. -/
def UMap.atKey {K V : Type} [DecidableEq K] (m : UMap K V) (key : K) : Outcome V :=
  match UMap.find m key with
  | some v => Outcome.value v
  | none => Outcome.throws

/-- Method `MarketDataService::GetData` as a call: the state afterwards and the
outcome of `order_books_.at(product_id)`. -/
def MarketDataService.GetDataCall (s : MarketDataService) (product_id : String) :
    MarketDataService × Outcome OrderBook :=
  (s, UMap.atKey s.order_books_ product_id)

/-! ## executionService.hpp -/

/-- Class `ExecutionService<Bond>`. -/
structure ExecutionService where
  execution_orders_ : UMap String ExecutionOrder
  listeners_ : List ListenerId
deriving DecidableEq

/-- Constructor `ExecutionService()`. -/
def ExecutionService.new : ExecutionService := ⟨[], []⟩

/-- Modelled from the spec: `Service::AddListener` of the absent `soa.hpp`, to
which `ExecutionService::AddListener` delegates, appends to the ordered collection
`listeners_`. -/
def ExecutionService.AddListener (s : ExecutionService) (l : ListenerId) : ExecutionService :=
  { s with listeners_ := s.listeners_ ++ [l] }

/-- Method `ExecutionService::GetData`: the state afterwards and the outcome of
`execution_orders_.at(product_id)`. -/
def ExecutionService.GetData (s : ExecutionService) (product_id : String) :
    ExecutionService × Outcome ExecutionOrder :=
  (s, UMap.atKey s.execution_orders_ product_id)

/-- Method `ExecutionService::OnMessage`: the new state and the `ProcessAdd` calls. -/
def ExecutionService.OnMessage (s : ExecutionService) (data : ExecutionOrder) :
    ExecutionService × List (ListenerId × ExecutionOrder) :=
  let product_id := data.product_.GetProductId
  (⟨s.execution_orders_.assign product_id data, s.listeners_⟩, fanout s.listeners_ data)

/-! ## tradeBookingService.hpp -/

/-- Class `Trade<Bond>`. -/
structure Trade where
  product : Bond
  tradeId : String
  price : ℚ
  book : String
  quantity : Int
  side : Side
deriving DecidableEq

/-- Class `TradeBookingService<Bond>`. -/
structure TradeBookingService where
  trades_ : UMap String Trade
  listeners_ : List ListenerId
deriving DecidableEq

/-- Constructor `TradeBookingService()`. -/
def TradeBookingService.new : TradeBookingService := ⟨[], []⟩

/-- Modelled from the spec: `Service::AddListener` of the absent `soa.hpp`, to
which `TradeBookingService::AddListener` delegates, appends to the ordered
collection `listeners_`. -/
def TradeBookingService.AddListener (s : TradeBookingService) (l : ListenerId) :
    TradeBookingService :=
  { s with listeners_ := s.listeners_ ++ [l] }

/-- Method `TradeBookingService::GetData`: the state afterwards and the outcome of
`trades_.at(product_id)`. -/
def TradeBookingService.GetData (s : TradeBookingService) (product_id : String) :
    TradeBookingService × Outcome Trade :=
  (s, UMap.atKey s.trades_ product_id)

/-- Method `TradeBookingService::OnMessage`: the new state and the `ProcessAdd` calls. -/
def TradeBookingService.OnMessage (s : TradeBookingService) (data : Trade) :
    TradeBookingService × List (ListenerId × Trade) :=
  let trade_id := data.tradeId
  (⟨s.trades_.assign trade_id data, s.listeners_⟩, fanout s.listeners_ data)

/-- A market order on "BONDNO1". -/
def sampleOrder : ExecutionOrder :=
  ⟨FetchBond "BONDNO1", PricingSide.BID, "", OrderType.MARKET, 100, 1000000, 0, "", false⟩

/-- A trade "T1" on "BONDNO1". -/
def sampleTrade : Trade := ⟨FetchBond "BONDNO1", "T1", 100, "TRSY1", 1000000, Side.BUY⟩

/-! ## guiService.hpp -/

/-- Method `Price::ToString`. -/
def Price.ToString (p : Price) : List (List Char) :=
  [p.product.GetProductId.toList, ConvertPriceText p.mid, ConvertPriceText p.bidOfferSpread]

/-- Class `GUIService<Bond>`. -/
structure GUIService where
  guis_ : UMap String Price
  listeners_ : List ListenerId
  throttle_ : Int
  millisec_ : Int
deriving DecidableEq

/-- Constructor `GUIService()`: `throttle_(300), millisec_(0)`. -/
def GUIService.new : GUIService := ⟨[], [], 300, 0⟩

/-- The loop `while (millisec_now < millisec) millisec_now += 1000;` of
`GUIConnector::Publish`: the value of `millisec_now` when the loop exits. -/
def GUIConnector.catchUp (millisec millisec_now : Int) : Int :=
  if millisec_now < millisec then GUIConnector.catchUp millisec (millisec_now + 1000)
  else millisec_now
termination_by (millisec - millisec_now).toNat
decreasing_by omega

/-- Method `GUIConnector::Publish`; `clock` is the value `GetMillisecond()` returns.
The result is the service and the lines appended to `gui.txt`. -/
def GUIConnector.Publish (service_ : GUIService) (clock : Int) (data : Price) :
    GUIService × List (List Char) :=
  let throttle := service_.throttle_
  let millisec := service_.millisec_
  let millisec_now := clock
  let millisec_now := GUIConnector.catchUp millisec millisec_now
  if millisec_now - millisec ≥ throttle then
    ({ service_ with millisec_ := millisec_now },
      [',' :: (data.ToString.map (fun s => s ++ [','])).flatten])
  else (service_, [])

/-- Method `GUIService::OnMessage`. -/
def GUIService.OnMessage (s : GUIService) (clock : Int) (data : Price) :
    GUIService × List (List Char) :=
  let product_id := data.product.GetProductId
  GUIConnector.Publish { s with guis_ := s.guis_.assign product_id data } clock data

/-! ## utilities.hpp: reference tables by maturity -/

/-- Table `kBondMapMaturity`. -/
def kBondMapMaturity : List (Int × (String × Date)) :=
  [(2, ("BONDNO1", ⟨2025, 11, 30⟩)),
   (3, ("BONDNO2", ⟨2026, 11, 15⟩)),
   (5, ("BONDNO3", ⟨2028, 11, 30⟩)),
   (7, ("BONDNO4", ⟨2030, 11, 30⟩)),
   (10, ("BONDNO5", ⟨2033, 11, 15⟩)),
   (20, ("BONDNO6", ⟨2043, 11, 30⟩)),
   (30, ("BONDNO7", ⟨2053, 11, 15⟩))]

/-- Read `kBondMapMaturity[maturity]`: an absent key yields the value-initialised
pair. -/
def kBondMapMaturityAt (maturity : Int) : String × Date :=
  match UMap.find kBondMapMaturity maturity with
  | some v => v
  | none => ("", Date.not_a_date_time)

/-- Function `FetchCusip(int maturity)`. -/
def FetchCusip (maturity : Int) : String := (kBondMapMaturityAt maturity).1

/-- Function `FetchBond(int maturity)`. -/
def FetchBondByMaturity (maturity : Int) : Bond :=
  ⟨(kBondMapMaturityAt maturity).1, ProductType.BOND, BondIdType.CUSIP,
    String.mk ("US".toList ++ to_string maturity ++ "Y".toList), 0,
    (kBondMapMaturityAt maturity).2⟩

/-! ## marketDataService.hpp: the parsed line -/

/-- The part "Parse data into Order" of the loop body of
`MarketDataConnector::Subscribe`: the product id and the order of a line, `none`
where the loop body fails (a missing entry, a price or quantity that does not parse). -/
def MarketDataConnector.parseLine (line : List Char) : Option (List Char × Order) := do
  let line_entries := getlineSplit ',' line []
  let product_id ← line_entries[0]?
  let price ← (← line_entries[1]?) |> ConvertPrice
  let quantity ← (← line_entries[2]?) |> stol
  let side := if (← line_entries[3]?) = "BID".toList then PricingSide.BID else PricingSide.OFFER
  pure (product_id, ⟨price, quantity, side⟩)

/-- The order book `Subscribe` builds from a complete group of lines: the product of
the last line, the BID orders in input order and the other orders in input order. -/
def MarketDataConnector.bookOf (chunk : List (List Char)) : OrderBook :=
  ⟨FetchBond (String.mk
      (((chunk.filterMap MarketDataConnector.parseLine).getLast?.map Prod.fst).getD [])),
    ((chunk.filterMap MarketDataConnector.parseLine).map Prod.snd).filter
      (fun o => o.side = PricingSide.BID),
    ((chunk.filterMap MarketDataConnector.parseLine).map Prod.snd).filter
      (fun o => ¬ o.side = PricingSide.BID)⟩

/-! ## pricingService.hpp: the connector -/

/-- One iteration of the loop of `PricingConnector::Subscribe` on the line `line`:
the service, the prices passed to `OnMessage` and the `ProcessAdd` calls so far. -/
def PricingConnector.step (st : PricingService × List Price × List (ListenerId × Price))
    (line : List Char) : Option (PricingService × List Price × List (ListenerId × Price)) := do
  let line_entries := getlineSplit ',' line []
  let product_id ← line_entries[0]?
  let bid_price ← (← line_entries[1]?) |> ConvertPrice
  let offer_price ← (← line_entries[2]?) |> ConvertPrice
  let mid_price := (bid_price + offer_price) / 2
  let spread := offer_price - bid_price
  let product := FetchBond (String.mk product_id)
  let price : Price := ⟨product, mid_price, spread⟩
  let r := st.1.OnMessage price
  some (r.1, st.2.1 ++ [price], st.2.2 ++ r.2)

/-- Method `PricingConnector::Subscribe`; `data` is the stream as the list of its
lines. Returns the service, the prices passed to `OnMessage` and the `ProcessAdd`
calls made, in order. -/
def PricingConnector.Subscribe (service_ : PricingService) (data : List (List Char)) :
    Option (PricingService × List Price × List (ListenerId × Price)) :=
  data.foldlM PricingConnector.step (service_, [], [])

/-! ## inquiryService.hpp: sequences of calls -/

/-- A call on an `InquiryService`. -/
inductive InquiryCall where
  | onMessage (data : Inquiry)
  | rejectInquiry (inquiryId : String)
deriving DecidableEq

/-- A sequence of `OnMessage` and `RejectInquiry` calls: the final service and all
`ProcessAdd` calls made, in order; `none` when a call has no defined result. -/
def InquiryService.run : InquiryService → List InquiryCall →
    Option (InquiryService × List (ListenerId × Inquiry))
  | s, [] => some (s, [])
  | s, InquiryCall.onMessage data :: rest =>
    match s.OnMessage 2 data with
    | none => none
    | some r =>
      match InquiryService.run r.1 rest with
      | none => none
      | some r' => some (r'.1, r.2.2 ++ r'.2)
  | s, InquiryCall.rejectInquiry inquiryId :: rest =>
    match s.RejectInquiry inquiryId with
    | none => none
    | some r =>
      match InquiryService.run r.1 rest with
      | none => none
      | some r' => some (r'.1, r.2 ++ r'.2)

/-- A sequence of five calls on an empty service with one listener. -/
def sampleCalls : List InquiryCall :=
  [InquiryCall.onMessage (sampleInquiry InquiryState.RECEIVED),
    InquiryCall.onMessage ⟨"INQ2", FetchBond "BONDNO2", Side.SELL, 5, 99, InquiryState.QUOTED⟩,
    InquiryCall.rejectInquiry "INQ1",
    InquiryCall.onMessage
      ⟨"INQ3", FetchBond "BONDNO3", Side.SELL, 7, 98, InquiryState.CUSTOMER_REJECTED⟩,
    InquiryCall.onMessage (sampleInquiry InquiryState.REJECTED)]

/-! ## algoExecutionService.hpp: the keyed store -/

/-- Method `AlgoExecutionService::OnMessage`: `insert_or_assign` under the product
id of the order, then the fanout. It is the only method that writes
`algo_execution_orders_`, the map that `GetData` reads. -/
def AlgoExecutionService.OnMessage (s : AlgoExecutionService) (data : AlgoExecutionOrder) :
    AlgoExecutionService × List (ListenerId × AlgoExecutionOrder) :=
  let product_id := data.order_.product_.GetProductId
  ({ s with algo_execution_orders_ := s.algo_execution_orders_.assign product_id data },
    fanout s.listeners_ data)

/-- A service with listeners 1 and 2 that has stored one order through `OnMessage`
and has crossed once since. -/
def storedAlgoService : AlgoExecutionService :=
  let s := ((AlgoExecutionService.fresh [1, 2]).OnMessage
    (AlgoExecutionOrder.new (quoteBook "BONDNO1" 100 101).product PricingSide.BID ""
      OrderType.MARKET 100 1000000 0 "" false Market.CME)).1
  { s with execution_count_ := 1 }

/-! ## Default construction and `operator[]` -/

/-- Constructor `std::string(const char*)`: the characters the pointer refers to;
a null pointer (`none`) is outside the constructor's precondition: undefined. -/
def stringOfPointer (s : Option String) : Outcome String :=
  match s with
  | some str => Outcome.value str
  | none => Outcome.undefined

/-- Constructor `Bond()`: `Bond::Bond() : Product(0, BOND)` initialises the
`std::string` parameter `_productId` of `Product` from the literal `0`, the null
pointer; the other members are value-initialised. -/
def Bond.default : Outcome Bond :=
  match stringOfPointer none with
  | Outcome.value productId =>
    Outcome.value ⟨productId, ProductType.BOND, BondIdType.CUSIP, "", 0, Date.not_a_date_time⟩
  | Outcome.throws => Outcome.throws
  | Outcome.undefined => Outcome.undefined

/-- Constructor `Inquiry()` (defaulted), as run by `inquiries_[key]` for a new key:
the members are value-initialised, `product` through `Bond()`. -/
def Inquiry.default : Outcome Inquiry :=
  match Bond.default with
  | Outcome.value product =>
    Outcome.value ⟨"", product, Side.BUY, 0, 0, InquiryState.RECEIVED⟩
  | Outcome.throws => Outcome.throws
  | Outcome.undefined => Outcome.undefined

/-- Read `m[key]` of `unordered_map::operator[]`: the stored value, or else a
default-constructed value `dflt` that is inserted under `key` first. The result is
the map afterwards and the value referred to. -/
def UMap.index {K V : Type} [DecidableEq K] (m : UMap K V) (key : K) (dflt : Outcome V) :
    Outcome (UMap K V × V) :=
  match UMap.find m key with
  | some v => Outcome.value (m, v)
  | none =>
    match dflt with
    | Outcome.value d => Outcome.value (UMap.assign m key d, d)
    | Outcome.throws => Outcome.throws
    | Outcome.undefined => Outcome.undefined

/-- Method `InquiryService::GetData`: `return this->inquiries_[key]`. The result
is the service afterwards and the inquiry referred to. -/
def InquiryService.GetData (s : InquiryService) (key : String) :
    Outcome (InquiryService × Inquiry) :=
  match UMap.index s.inquiries_ key Inquiry.default with
  | Outcome.value r => Outcome.value (⟨r.1, s.listeners_⟩, r.2)
  | Outcome.throws => Outcome.throws
  | Outcome.undefined => Outcome.undefined

/-- Method `InquiryService::RejectInquiry`, with the kind of outcome:
`this->inquiries_[inquiryId].SetState(REJECTED)`. -/
def InquiryService.RejectInquiryOutcome (s : InquiryService) (inquiryId : String) :
    Outcome InquiryService :=
  match UMap.index s.inquiries_ inquiryId Inquiry.default with
  | Outcome.value r =>
    Outcome.value ⟨UMap.assign r.1 inquiryId (r.2.SetState InquiryState.REJECTED), s.listeners_⟩
  | Outcome.throws => Outcome.throws
  | Outcome.undefined => Outcome.undefined

/-- A service that stores the sample inquiry "INQ1" in state DONE. -/
def doneService : InquiryService :=
  ⟨[("INQ1", sampleInquiry InquiryState.DONE)], [1]⟩

/-! ## executionService.hpp: execution and the inbound listener -/

/-- Method `ExecutionService::ExecuteOrder`: `execution_orders_[_productId] = order`,
then the fanout; `market` is not used. When the key is absent, `operator[]` first
default-constructs an `ExecutionOrder<Bond>`, which runs `Bond()`: undefined. -/
def ExecutionService.ExecuteOrder (s : ExecutionService) (order : ExecutionOrder)
    (_market : Market) : Option (ExecutionService × List (ListenerId × ExecutionOrder)) :=
  let _productId := order.product_.GetProductId
  match s.execution_orders_.find _productId with
  | none => none
  | some _ =>
    some (⟨s.execution_orders_.assign _productId order, s.listeners_⟩, fanout s.listeners_ order)

/-- Method `AlgoExecutionToExecutionListener::ProcessAdd`: `OnMessage(*execution_order)`
and then `ExecuteOrder(*execution_order)` with the default argument `market = CME`.
The result is the service afterwards and the `ProcessAdd` calls of both, in order. -/
def AlgoExecutionToExecutionListener.ProcessAdd (service_ : ExecutionService)
    (data : AlgoExecutionOrder) : Option (ExecutionService × List (ListenerId × ExecutionOrder)) :=
  let execution_order := data.order_
  let r1 := service_.OnMessage execution_order
  match r1.1.ExecuteOrder execution_order Market.CME with
  | none => none
  | some r2 => some (r2.1, r1.2 ++ r2.2)

/-! ## tradeBookingService.hpp: booking and the inbound listener -/

/-- Method `TradeBookingService::BookTrade`: the fanout alone, nothing is stored. -/
def TradeBookingService.BookTrade (s : TradeBookingService) (trade : Trade) :
    TradeBookingService × List (ListenerId × Trade) :=
  (s, fanout s.listeners_ trade)

/-- Class `ExecutionToTradeBookingListener<Bond>`: the field `count_`; the service
pointed to by `service_` is passed to the call. -/
structure ExecutionToTradeBookingListener where
  count_ : Int
deriving DecidableEq

/-- Constructor `ExecutionToTradeBookingListener(service)`: `count_(0)`. -/
def ExecutionToTradeBookingListener.new : ExecutionToTradeBookingListener := ⟨0⟩

/-- Method `ExecutionToTradeBookingListener::ProcessAdd`: the listener and the
service afterwards, and the `ProcessAdd` calls made by `OnMessage(trade)` and then
by `BookTrade(trade)`. `count_ % 3` is the truncating remainder; the `switch` has no
default, so `book` stays empty for another remainder. -/
def ExecutionToTradeBookingListener.ProcessAdd (l : ExecutionToTradeBookingListener)
    (service_ : TradeBookingService) (data : ExecutionOrder) :
    ExecutionToTradeBookingListener × TradeBookingService × List (ListenerId × Trade) :=
  let count_ := l.count_ + 1
  let product := data.product_
  let pricing_side := data.side_
  let order_id := data.orderId_
  let price := data.price_
  let visible_quantity := data.GetVisibleQuantity
  let hidden_quantity := data.GetHiddenQuantity
  let side := if pricing_side = PricingSide.BID then Side.SELL else Side.BUY
  let book : String :=
    if Int.tmod count_ 3 = 0 then "TRSY1"
    else if Int.tmod count_ 3 = 1 then "TRSY2"
    else if Int.tmod count_ 3 = 2 then "TRSY3"
    else ""
  let quantity := visible_quantity + hidden_quantity
  let trade : Trade := ⟨product, order_id, price, book, quantity, side⟩
  let r1 := service_.OnMessage trade
  let r2 := r1.1.BookTrade trade
  (⟨count_⟩, r2.1, r1.2 ++ r2.2)

/-- A sequence of `ProcessAdd` calls on the listener: the listener and the service
afterwards and, per call, the `ProcessAdd` calls it made on the service's listeners. -/
def ExecutionToTradeBookingListener.run :
    ExecutionToTradeBookingListener → TradeBookingService → List ExecutionOrder →
      ExecutionToTradeBookingListener × TradeBookingService × List (List (ListenerId × Trade))
  | l, service_, [] => (l, service_, [])
  | l, service_, data :: rest =>
    let r := l.ProcessAdd service_ data
    let r' := ExecutionToTradeBookingListener.run r.1 r.2.1 rest
    (r'.1, r'.2.1, r.2.2 :: r'.2.2)

/-- Four orders with ids "O1" to "O4", alternating BID and OFFER. -/
def fourOrders : List ExecutionOrder :=
  [⟨FetchBond "BONDNO1", PricingSide.BID, "O1", OrderType.MARKET, 100, 1000000, 0, "", false⟩,
   ⟨FetchBond "BONDNO2", PricingSide.OFFER, "O2", OrderType.MARKET, 101, 2000000, 500000, "",
     false⟩,
   ⟨FetchBond "BONDNO1", PricingSide.BID, "O3", OrderType.LIMIT, 99, 3000000, 0, "", false⟩,
   ⟨FetchBond "BONDNO3", PricingSide.OFFER, "O4", OrderType.MARKET, 102, 4000000, 0, "", false⟩]

/-! ## positionService.hpp -/

/-- Class `Position<Bond>`. The member `positions` is a `std::map<string, long>`,
kept as an association list: the one loop over it is a sum. -/
structure Position where
  product : Bond
  positions : UMap String Int
deriving DecidableEq

/-- Constructor `Position(const T&)`. -/
def Position.new (product : Bond) : Position := ⟨product, []⟩

/-- Method `try_emplace(k, v)` of a map: inserts only when the key is absent. -/
def UMap.try_emplace {K V : Type} [DecidableEq K] (m : UMap K V) (k : K) (v : V) : UMap K V :=
  match UMap.find m k with
  | some _ => m
  | none => UMap.assign m k v

/-- Method `Position::GetPosition`: `return positions[book]`, which inserts a zero
for a new book. The result is the position afterwards and the value. -/
def Position.GetPosition (p : Position) (book : String) : Position × Int :=
  match p.positions.find book with
  | some v => (p, v)
  | none => (⟨p.product, p.positions.assign book 0⟩, 0)

/-- Method `Position::AddPosition`. After `try_emplace(book, 0)` the read
`positions[book]` finds the entry (a `long` entry would be inserted as zero); `+=`
and `-=` are operations on `long`. -/
def Position.AddPosition (p : Position) (book : String) (position : Int) (side : Side) :
    Position :=
  let positions := p.positions.try_emplace book 0
  let current := (positions.find book).getD 0
  match side with
  | Side.BUY => ⟨p.product, positions.assign book (wrapLong (current + position))⟩
  | Side.SELL => ⟨p.product, positions.assign book (wrapLong (current - position))⟩

/-- Method `Position::GetAggregatePosition`: the loop `res += pos` over the map, an
addition of `long` values. -/
def Position.GetAggregatePosition (p : Position) : Int :=
  p.positions.foldl (fun res e => wrapLong (res + e.2)) 0

/-- Class `PositionService<Bond>`. -/
structure PositionService where
  positions_ : UMap String Position
  listeners_ : List ListenerId
deriving DecidableEq

/-- Constructor `PositionService()`. -/
def PositionService.new : PositionService := ⟨[], []⟩

/-- Modelled from the spec: `Service::AddListener` of the absent `soa.hpp`, to
which `PositionService::AddListener` delegates, appends to the ordered collection
`listeners_`. -/
def PositionService.AddListener (s : PositionService) (l : ListenerId) : PositionService :=
  { s with listeners_ := s.listeners_ ++ [l] }

/-- Method `PositionService::AddTrade`: the new state and the `ProcessAdd` calls.
Each `positions_[product_id]` on an absent key would default-construct a
`Position<Bond>`, which runs `Bond()`: undefined. -/
def PositionService.AddTrade (s : PositionService) (trade : Trade) :
    Option (PositionService × List (ListenerId × Position)) :=
  let product := trade.product
  let product_id := product.GetProductId
  let book := trade.book
  let quantity := trade.quantity
  let side := trade.side
  let positions1 := s.positions_.try_emplace product_id (Position.new product)
  match positions1.find product_id with
  | none => none
  | some position =>
    let positions2 := positions1.assign product_id (position.AddPosition book quantity side)
    match positions2.find product_id with
    | none => none
    | some stored => some (⟨positions2, s.listeners_⟩, fanout s.listeners_ stored)

/-- Method `TradeBookingToPositionListener::ProcessAdd`: `service_->AddTrade(data)`. -/
def TradeBookingToPositionListener.ProcessAdd (service_ : PositionService) (data : Trade) :
    Option (PositionService × List (ListenerId × Position)) :=
  service_.AddTrade data

/-- A sequence of `AddTrade` calls: the final state. -/
def PositionService.run : PositionService → List Trade → Option PositionService
  | s, [] => some s
  | s, trade :: rest =>
    match s.AddTrade trade with
    | none => none
    | some r => PositionService.run r.1 rest

/-- The aggregate position held for a product: `GetAggregatePosition` of the stored
position, and zero while no position is stored for the product. -/
def PositionService.aggregateOf (s : PositionService) (product_id : String) : Int :=
  match s.positions_.find product_id with
  | none => 0
  | some p => p.GetAggregatePosition

/-- Total quantity of the trades of side `side` in the product `product_id`. -/
def tradedQuantity (trades : List Trade) (product_id : String) (side : Side) : Int :=
  ((trades.filter (fun t => t.product.GetProductId = product_id ∧ t.side = side)).map
    (fun t => t.quantity)).sum

/-- Total quantity of the trades of side `side` in the product `product_id` that are
booked to `book`. -/
def tradedQuantityIn (trades : List Trade) (product_id book : String) (side : Side) : Int :=
  tradedQuantity (trades.filter (fun t => t.book = book)) product_id side

/-- Five trades in two products and three books. -/
def fiveTrades : List Trade :=
  [⟨FetchBond "BONDNO1", "T1", 100, "TRSY1", 1000000, Side.BUY⟩,
   ⟨FetchBond "BONDNO1", "T2", 100, "TRSY2", 2000000, Side.SELL⟩,
   ⟨FetchBond "BONDNO2", "T3", 99, "TRSY1", 3000000, Side.SELL⟩,
   ⟨FetchBond "BONDNO1", "T4", 101, "TRSY1", 4000000, Side.SELL⟩,
   ⟨FetchBond "BONDNO1", "T5", 101, "TRSY3", 5000000, Side.BUY⟩]


/-! ## main.cpp: the execution pipeline -/

/-- The listener `algo_execution_service.GetInListener()`. -/
def algo_execution_in_listener : ListenerId := 1

/-- The listener `execution_service.GetInListener()`. -/
def execution_in_listener : ListenerId := 2

/-- The listener `trade_booking_service.GetInListener()`. -/
def trade_booking_in_listener : ListenerId := 3

/-- The listener `historical_execution_service.GetInListener()`. -/
def historical_execution_in_listener : ListenerId := 4

/-- The listener `position_service.GetInListener()`. -/
def position_in_listener : ListenerId := 5

/-- The listener `risk_service.GetInListener()`. -/
def risk_in_listener : ListenerId := 6

/-- The listener `historical_position_service.GetInListener()`. -/
def historical_position_in_listener : ListenerId := 7

/-- The services of `main` on the path from market data to positions, with the
`count_` of the trade booking service's inbound listener. -/
structure Pipeline where
  market_data_service : MarketDataService
  algo_execution_service : AlgoExecutionService
  execution_service : ExecutionService
  trade_booking_service : TradeBookingService
  trade_booking_listener : ExecutionToTradeBookingListener
  position_service : PositionService

/-- The services as `main` constructs and links them (the `AddListener` calls of
main.cpp on these five services, in their order). -/
def Pipeline.main : Pipeline :=
  { market_data_service := MarketDataService.new.AddListener algo_execution_in_listener
    algo_execution_service := AlgoExecutionService.new.AddListener execution_in_listener
    execution_service :=
      (ExecutionService.new.AddListener trade_booking_in_listener).AddListener
        historical_execution_in_listener
    trade_booking_service := TradeBookingService.new.AddListener position_in_listener
    trade_booking_listener := ExecutionToTradeBookingListener.new
    position_service :=
      (PositionService.new.AddListener risk_in_listener).AddListener
        historical_position_in_listener }

/-- The listener lists of the five services are those that main.cpp registers. -/
def Pipeline.Wired (p : Pipeline) : Prop :=
  p.market_data_service.listeners_ = [algo_execution_in_listener] ∧
  p.algo_execution_service.listeners_ = [execution_in_listener] ∧
  p.execution_service.listeners_ =
    [trade_booking_in_listener, historical_execution_in_listener] ∧
  p.trade_booking_service.listeners_ = [position_in_listener] ∧
  p.position_service.listeners_ = [risk_in_listener, historical_position_in_listener]

/-- Delivery of `ProcessAdd` calls one after the other; the second component
collects the trades passed to `PositionService::AddTrade`, in call order. -/
def Pipeline.deliverAll {V : Type}
    (deliver : Pipeline → ListenerId × V → Option (Pipeline × List Trade)) :
    Pipeline → List (ListenerId × V) → Option (Pipeline × List Trade)
  | p, [] => some (p, [])
  | p, c :: cs =>
    match deliver p c with
    | none => none
    | some r1 =>
      match Pipeline.deliverAll deliver r1.1 cs with
      | none => none
      | some r2 => some (r2.1, r1.2 ++ r2.2)

/-- A `ProcessAdd(trade)` call made by the trade booking service: the inbound
listener of the position service calls `AddTrade`. The calls that `AddTrade` makes
on its own listeners go to the risk service and to the historical writer, which
touch none of the services of the pipeline. -/
def Pipeline.deliverTrade (p : Pipeline) (c : ListenerId × Trade) :
    Option (Pipeline × List Trade) :=
  if c.1 = position_in_listener then
    match TradeBookingToPositionListener.ProcessAdd p.position_service c.2 with
    | none => none
    | some r => some ({ p with position_service := r.1 }, [c.2])
  else some (p, [])

/-- A `ProcessAdd(order)` call made by the execution service: the inbound listener of
the trade booking service books a trade, whose `ProcessAdd` calls are delivered in
turn; the historical writer touches no service of the pipeline. -/
def Pipeline.deliverOrder (p : Pipeline) (c : ListenerId × ExecutionOrder) :
    Option (Pipeline × List Trade) :=
  if c.1 = trade_booking_in_listener then
    let r := p.trade_booking_listener.ProcessAdd p.trade_booking_service c.2
    Pipeline.deliverAll Pipeline.deliverTrade
      { p with trade_booking_listener := r.1, trade_booking_service := r.2.1 } r.2.2
  else some (p, [])

/-- A `ProcessAdd(algo_order)` call made by the algo execution service: the inbound
listener of the execution service, whose `ProcessAdd` calls are delivered in turn. -/
def Pipeline.deliverAlgoOrder (p : Pipeline) (c : ListenerId × AlgoExecutionOrder) :
    Option (Pipeline × List Trade) :=
  if c.1 = execution_in_listener then
    match AlgoExecutionToExecutionListener.ProcessAdd p.execution_service c.2 with
    | none => none
    | some r =>
      Pipeline.deliverAll Pipeline.deliverOrder { p with execution_service := r.1 } r.2
  else some (p, [])

/-- A `ProcessAdd(book)` call made by the market data service: the inbound listener
of the algo execution service, whose `ProcessAdd` calls are delivered in turn. -/
def Pipeline.deliverBook (p : Pipeline) (c : ListenerId × OrderBook) :
    Option (Pipeline × List Trade) :=
  if c.1 = algo_execution_in_listener then
    match MarketDataToAlgoExecutionListener.ProcessAdd p.algo_execution_service c.2 with
    | none => none
    | some r =>
      Pipeline.deliverAll Pipeline.deliverAlgoOrder { p with algo_execution_service := r.1 } r.2
  else some (p, [])

/-- An order-book update, `market_data_service.OnMessage(book)`, with the cascade of
listener calls it sets off. A listener runs inside the loop of the service that
calls it and never reaches back to that service, so delivering the calls after the
service's own step gives the same states and the same order of calls. -/
def Pipeline.OnMessage (p : Pipeline) (book : OrderBook) : Option (Pipeline × List Trade) :=
  let r := p.market_data_service.OnMessage book
  Pipeline.deliverAll Pipeline.deliverBook { p with market_data_service := r.1 } r.2

/-- The signed quantity `AddTrade` adds to the aggregate position: the executed
quantity is bought when the engine crosses into the offer and sold when it crosses
into the bid. -/
def signedQuantity (side : PricingSide) (q : Int) : Int :=
  match side with
  | PricingSide.BID => -q
  | PricingSide.OFFER => q

/-! ## positionService.hpp: what a service holds -/

/-- The position held for a product in a book: `GetPosition(book)` of the stored
position, and zero while no position is stored for the product. -/
def PositionService.positionOf (s : PositionService) (product_id book : String) : Int :=
  match s.positions_.find product_id with
  | none => 0
  | some p => (p.GetPosition book).2

/-- The change `AddPosition` makes to a book: plus the quantity for BUY, minus it for
SELL. -/
def Side.signed (side : Side) (q : Int) : Int :=
  match side with
  | Side.BUY => q
  | Side.SELL => -q

/-! ## Best bid and offer -/

theorem scanHighest_split (rest : List Order) :
    ∀ (l1 l2 : List Order) (best : Order),
      (∀ x ∈ l1, x.price < best.price) → (∀ x ∈ l2, x.price ≤ best.price) →
      ∃ m1 m2, l1 ++ best :: l2 ++ rest = m1 ++ (scanHighest rest (best, best.price)).1 :: m2 ∧
        (∀ x ∈ m1, x.price < (scanHighest rest (best, best.price)).1.price) ∧
        (∀ x ∈ m2, x.price ≤ (scanHighest rest (best, best.price)).1.price) := by
  induction rest with
  | nil =>
    intro l1 l2 best h1 h2
    exact ⟨l1, l2, by simp [scanHighest], by simpa [scanHighest] using h1,
      by simpa [scanHighest] using h2⟩
  | cons o rest ih =>
    intro l1 l2 best h1 h2
    by_cases hgt : o.price > best.price
    · have hstep : scanHighest (o :: rest) (best, best.price) = scanHighest rest (o, o.price) := by
        simp [scanHighest, hgt]
      rw [hstep]
      obtain ⟨m1, m2, heq, hm1, hm2⟩ := ih (l1 ++ best :: l2) [] o
        (by
          intro x hx
          rcases List.mem_append.1 hx with hx | hx
          · exact lt_trans (h1 x hx) hgt
          · rcases List.mem_cons.1 hx with hx | hx
            · subst hx; exact hgt
            · exact lt_of_le_of_lt (h2 x hx) hgt)
        (by intro x hx; cases hx)
      exact ⟨m1, m2, by simpa using heq, hm1, hm2⟩
    · have hstep : scanHighest (o :: rest) (best, best.price) = scanHighest rest (best, best.price) := by
        simp [scanHighest, hgt]
      rw [hstep]
      obtain ⟨m1, m2, heq, hm1, hm2⟩ := ih l1 (l2 ++ [o]) best h1
        (by
          intro x hx
          rcases List.mem_append.1 hx with hx | hx
          · exact h2 x hx
          · have : x = o := by simpa using hx
            subst this; exact not_lt.1 hgt)
      exact ⟨m1, m2, by simpa using heq, hm1, hm2⟩

theorem scanLowest_split (rest : List Order) :
    ∀ (l1 l2 : List Order) (best : Order),
      (∀ x ∈ l1, best.price < x.price) → (∀ x ∈ l2, best.price ≤ x.price) →
      ∃ m1 m2, l1 ++ best :: l2 ++ rest = m1 ++ (scanLowest rest (best, best.price)).1 :: m2 ∧
        (∀ x ∈ m1, (scanLowest rest (best, best.price)).1.price < x.price) ∧
        (∀ x ∈ m2, (scanLowest rest (best, best.price)).1.price ≤ x.price) := by
  induction rest with
  | nil =>
    intro l1 l2 best h1 h2
    exact ⟨l1, l2, by simp [scanLowest], by simpa [scanLowest] using h1,
      by simpa [scanLowest] using h2⟩
  | cons o rest ih =>
    intro l1 l2 best h1 h2
    by_cases hlt : o.price < best.price
    · have hstep : scanLowest (o :: rest) (best, best.price) = scanLowest rest (o, o.price) := by
        simp [scanLowest, hlt]
      rw [hstep]
      obtain ⟨m1, m2, heq, hm1, hm2⟩ := ih (l1 ++ best :: l2) [] o
        (by
          intro x hx
          rcases List.mem_append.1 hx with hx | hx
          · exact lt_trans hlt (h1 x hx)
          · rcases List.mem_cons.1 hx with hx | hx
            · subst hx; exact hlt
            · exact lt_of_lt_of_le hlt (h2 x hx))
        (by intro x hx; cases hx)
      exact ⟨m1, m2, by simpa using heq, hm1, hm2⟩
    · have hstep : scanLowest (o :: rest) (best, best.price) = scanLowest rest (best, best.price) := by
        simp [scanLowest, hlt]
      rw [hstep]
      obtain ⟨m1, m2, heq, hm1, hm2⟩ := ih l1 (l2 ++ [o]) best h1
        (by
          intro x hx
          rcases List.mem_append.1 hx with hx | hx
          · exact h2 x hx
          · have : x = o := by simpa using hx
            subst this; exact not_lt.1 hlt)
      exact ⟨m1, m2, by simpa using heq, hm1, hm2⟩

/-- Reading a split `stack = m1 ++ r :: m2` by index: `r` sits at index `m1.length`,
the orders before it are those of `m1`, and every order is in `m1`, is `r`, or is in `m2`. -/
theorem split_index (stack m1 m2 : List Order) (r : Order) (h : stack = m1 ++ r :: m2) :
    stack[m1.length]? = some r ∧
    (∀ (j : Nat) (o : Order), j < m1.length → stack[j]? = some o → o ∈ m1) ∧
    (∀ (j : Nat) (o : Order), stack[j]? = some o → o ∈ m1 ∨ o = r ∨ o ∈ m2) := by
  subst h
  refine ⟨?_, ?_, ?_⟩
  · rw [List.getElem?_append_right (le_refl _)]
    simp
  · intro j o hj hget
    rw [List.getElem?_append_left hj] at hget
    exact List.getElem?_mem hget
  · intro j o hget
    have hmem : o ∈ m1 ++ r :: m2 := List.getElem?_mem hget
    simpa using hmem

/-- C1: for every order book with non-empty bid and offer stacks, `GetBidOffer`
returns a `BidOffer` (and so does `GetBestBidOffer` for a service storing the
book) whose bid order is the bid-stack order at the smallest index among those of
maximum price and whose offer order is the offer-stack order at the smallest index
among those of minimum price. -/
theorem GetBidOffer_first_best (b : OrderBook) (hbid : b.bidStack ≠ [])
    (hoffer : b.offerStack ≠ []) :
    ∃ bo : BidOffer, b.GetBidOffer = some bo ∧
      (∀ (s : MarketDataService) (productId : String),
        s.order_books_.find productId = some b → s.GetBestBidOffer productId = some bo) ∧
      (∃ i : Nat, b.bidStack[i]? = some bo.bidOrder ∧
        (∀ (j : Nat) (o : Order), b.bidStack[j]? = some o → o.price ≤ bo.bidOrder.price) ∧
        (∀ (j : Nat) (o : Order), j < i → b.bidStack[j]? = some o →
          o.price < bo.bidOrder.price)) ∧
      (∃ i : Nat, b.offerStack[i]? = some bo.offerOrder ∧
        (∀ (j : Nat) (o : Order), b.offerStack[j]? = some o → bo.offerOrder.price ≤ o.price) ∧
        (∀ (j : Nat) (o : Order), j < i → b.offerStack[j]? = some o →
          bo.offerOrder.price < o.price)) := by
  obtain ⟨product, bids, offers⟩ := b
  cases bids with
  | nil => exact absurd rfl hbid
  | cons b0 bs =>
    cases offers with
    | nil => exact absurd rfl hoffer
    | cons o0 os =>
      refine ⟨⟨(scanHighest bs (b0, b0.price)).1, (scanLowest os (o0, o0.price)).1⟩, rfl, ?_, ?_, ?_⟩
      · intro s productId hfind
        simp [MarketDataService.GetBestBidOffer, hfind, OrderBook.GetBidOffer]
      · obtain ⟨m1, m2, heq, hm1, hm2⟩ := scanHighest_split bs [] [] b0
          (by intro x hx; cases hx) (by intro x hx; cases hx)
        obtain ⟨hat, hbefore, hall⟩ := split_index (b0 :: bs) m1 m2 _ (by simpa using heq)
        refine ⟨m1.length, hat, ?_, ?_⟩
        · intro j o hget
          rcases hall j o hget with h | h | h
          · exact le_of_lt (hm1 o h)
          · rw [h]
          · exact hm2 o h
        · intro j o hj hget
          exact hm1 o (hbefore j o hj hget)
      · obtain ⟨m1, m2, heq, hm1, hm2⟩ := scanLowest_split os [] [] o0
          (by intro x hx; cases hx) (by intro x hx; cases hx)
        obtain ⟨hat, hbefore, hall⟩ := split_index (o0 :: os) m1 m2 _ (by simpa using heq)
        refine ⟨m1.length, hat, ?_, ?_⟩
        · intro j o hget
          rcases hall j o hget with h | h | h
          · exact le_of_lt (hm1 o h)
          · rw [h]
          · exact hm2 o h
        · intro j o hj hget
          exact hm1 o (hbefore j o hj hget)

/-- Witness for C1 on a book with ties on both sides. -/
theorem GetBidOffer_first_best_witness :
    tiedBook.bidStack ≠ [] ∧ tiedBook.offerStack ≠ [] ∧
    ∃ bo : BidOffer, tiedBook.GetBidOffer = some bo ∧
      (∀ (s : MarketDataService) (productId : String),
        s.order_books_.find productId = some tiedBook →
          s.GetBestBidOffer productId = some bo) ∧
      (∃ i : Nat, tiedBook.bidStack[i]? = some bo.bidOrder ∧
        (∀ (j : Nat) (o : Order), tiedBook.bidStack[j]? = some o →
          o.price ≤ bo.bidOrder.price) ∧
        (∀ (j : Nat) (o : Order), j < i → tiedBook.bidStack[j]? = some o →
          o.price < bo.bidOrder.price)) ∧
      (∃ i : Nat, tiedBook.offerStack[i]? = some bo.offerOrder ∧
        (∀ (j : Nat) (o : Order), tiedBook.offerStack[j]? = some o →
          bo.offerOrder.price ≤ o.price) ∧
        (∀ (j : Nat) (o : Order), j < i → tiedBook.offerStack[j]? = some o →
          bo.offerOrder.price < o.price)) :=
  ⟨by simp [tiedBook], by simp [tiedBook],
    GetBidOffer_first_best tiedBook (by simp [tiedBook]) (by simp [tiedBook])⟩

/-- On the tied book the first of the two top bids and the first of the two lowest
offers are returned. -/
theorem GetBidOffer_tiedBook :
    tiedBook.GetBidOffer =
      some ⟨⟨100, 200, PricingSide.BID⟩, ⟨201 / 2, 2, PricingSide.OFFER⟩⟩ := by
  norm_num [tiedBook, OrderBook.GetBidOffer, scanHighest, scanLowest]

/-! ## Machine arithmetic -/

/-- A value inside the range of `long` is not changed by the wrap. -/
theorem wrapLong_of_inLong (z : Int) (h : InLong z) : wrapLong z = z := by
  obtain ⟨h1, h2⟩ := h
  unfold wrapLong
  rw [Int.emod_eq_of_lt (by omega) (by omega)]
  omega

theorem wrapLong_inLong (z : Int) : InLong (wrapLong z) := by
  unfold wrapLong InLong
  have h1 := Int.emod_nonneg (z + 2 ^ 63) (by norm_num : (2 ^ 64 : Int) ≠ 0)
  have h2 := Int.emod_lt_of_pos (z + 2 ^ 63) (by norm_num : (0 : Int) < 2 ^ 64)
  constructor <;> omega

theorem wrapLong_add_left (a b : Int) : wrapLong (wrapLong a + b) = wrapLong (a + b) := by
  unfold wrapLong
  congr 1
  have : (a + 2 ^ 63) % 2 ^ 64 - 2 ^ 63 + b + 2 ^ 63 = (a + 2 ^ 63) % 2 ^ 64 + b := by ring
  rw [this, Int.emod_add_emod]
  congr 1
  ring

theorem wrapLong_add_right (a b : Int) : wrapLong (a + wrapLong b) = wrapLong (a + b) := by
  rw [add_comm, wrapLong_add_left, add_comm]

theorem wrapLong_sub_left (a b : Int) : wrapLong (wrapLong a - b) = wrapLong (a - b) := by
  rw [sub_eq_add_neg, wrapLong_add_left, ← sub_eq_add_neg]

theorem wrapLong_idem (a : Int) : wrapLong (wrapLong a) = wrapLong a :=
  wrapLong_of_inLong _ (wrapLong_inLong a)

theorem bitLength_spec (fuel : Nat) : ∀ n : Nat, n ≤ fuel →
    n < 2 ^ bitLength fuel n ∧ (n ≠ 0 → 2 ^ bitLength fuel n ≤ 2 * n) := by
  induction fuel with
  | zero =>
    intro n hn
    have : n = 0 := by omega
    subst this
    simp [bitLength]
  | succ fuel ih =>
    intro n hn
    by_cases h0 : n = 0
    · subst h0
      simp [bitLength]
    · simp only [bitLength, h0, if_false]
      obtain ⟨h1, h2⟩ := ih (n / 2) (by omega)
      constructor
      · rw [pow_succ]
        omega
      · intro _
        rw [pow_succ]
        by_cases hh : n / 2 = 0
        · have hn1 : n = 1 := by omega
          subst hn1
          simp [bitLength]
          cases fuel <;> simp [bitLength]
        · have := h2 hh
          omega

/-- The binary exponent is not above the magnitude: `2^e ≤ |q|`. -/
theorem binaryExponent_le (q : ℚ) (hq : q ≠ 0) : (2 : ℚ) ^ binaryExponent q ≤ |q| := by
  unfold binaryExponent
  simp only
  split
  · assumption
  · have hn0 : q.num.natAbs ≠ 0 := by
      simpa [Int.natAbs_eq_zero] using hq
    have hd0 : q.den ≠ 0 := q.den_nz
    obtain ⟨_, hn⟩ := bitLength_spec q.num.natAbs q.num.natAbs le_rfl
    obtain ⟨hd, _⟩ := bitLength_spec q.den q.den le_rfl
    have hn' := hn hn0
    have habs : |q| = (q.num.natAbs : ℚ) / (q.den : ℚ) := by
      conv_lhs => rw [← Rat.num_div_den q]
      rw [abs_div, Nat.cast_natAbs, Int.cast_abs]
      simp
    rw [habs]
    have hnq : ((2 : ℚ) ^ bitLength q.num.natAbs q.num.natAbs) ≤ 2 * (q.num.natAbs : ℚ) := by
      exact_mod_cast hn'
    have hdq : (q.den : ℚ) < (2 : ℚ) ^ bitLength q.den q.den := by
      exact_mod_cast hd
    have hdpos : (0 : ℚ) < (q.den : ℚ) := by exact_mod_cast Nat.pos_of_ne_zero hd0
    rw [zpow_sub₀ (by norm_num : (2 : ℚ) ≠ 0), zpow_sub₀ (by norm_num : (2 : ℚ) ≠ 0), zpow_natCast,
      zpow_natCast, zpow_one]
    rw [div_div, div_le_div_iff₀ (by positivity) hdpos]
    have hnpos : (0 : ℚ) ≤ (q.num.natAbs : ℚ) := Nat.cast_nonneg _
    calc (2 : ℚ) ^ bitLength q.num.natAbs q.num.natAbs * (q.den : ℚ)
        ≤ 2 * (q.num.natAbs : ℚ) * (q.den : ℚ) := by
          exact mul_le_mul_of_nonneg_right hnq hdpos.le
      _ ≤ (q.num.natAbs : ℚ) * (2 ^ bitLength q.den q.den * 2) := by
          nlinarith [hdq.le]

theorem roundHalfEven_intCast (z : Int) : roundHalfEven (z : ℚ) = z := by
  simp [roundHalfEven]

theorem roundHalfEven_le (y : ℚ) (N : Int) (h : y ≤ (N : ℚ)) : roundHalfEven y ≤ N := by
  rcases eq_or_lt_of_le h with heq | hlt
  · rw [heq, roundHalfEven_intCast]
  · have hf : ⌊y⌋ < N := Int.floor_lt.2 hlt
    unfold roundHalfEven
    simp only
    split
    · omega
    · split
      · omega
      · split <;> omega

/-- A value `m * 2^k` with fewer than `prec` significant bits and `k` not below the
least exponent is kept by the rounding. -/
theorem roundBinary_exact (prec : Nat) (emin : Int) (m k : Int)
    (hm : |m| < 2 ^ prec) (hk : emin ≤ k) :
    roundBinary prec emin ((m : ℚ) * 2 ^ k) = (m : ℚ) * 2 ^ k := by
  unfold roundBinary
  by_cases h0 : (m : ℚ) * 2 ^ k = 0
  · simp [h0]
  · simp only [h0, if_false]
    have h2 : (2 : ℚ) ≠ 0 := by norm_num
    have hE := binaryExponent_le _ h0
    have habs : |(m : ℚ) * 2 ^ k| < (2 : ℚ) ^ ((prec : Int) + k) := by
      rw [abs_mul, abs_of_pos (zpow_pos (by norm_num : (0 : ℚ) < 2) k), zpow_add₀ h2, zpow_natCast]
      have hmq : |(m : ℚ)| < (2 : ℚ) ^ prec := by exact_mod_cast hm
      exact mul_lt_mul_of_pos_right hmq (zpow_pos (by norm_num) k)
    have hlt : binaryExponent ((m : ℚ) * 2 ^ k) < (prec : Int) + k :=
      (zpow_lt_zpow_iff_right₀ (by norm_num : (1 : ℚ) < 2)).1 (lt_of_le_of_lt hE habs)
    have hle : max (binaryExponent ((m : ℚ) * 2 ^ k) - ((prec : Int) - 1)) emin ≤ k :=
      max_le (by omega) hk
    generalize max (binaryExponent ((m : ℚ) * 2 ^ k) - ((prec : Int) - 1)) emin = e at hle
    obtain ⟨j, hj⟩ := Int.le.dest hle
    have hk' : k = e + (j : Int) := by omega
    have hdiv : (m : ℚ) * 2 ^ k / 2 ^ e = ((m * 2 ^ j : Int) : ℚ) := by
      rw [hk', zpow_add₀ h2, zpow_natCast]
      push_cast
      field_simp
      ring
    rw [hdiv, roundHalfEven_intCast, hk', zpow_add₀ h2, zpow_natCast]
    push_cast
    ring

/-- Rounding does not pass a power of two from below. -/
theorem roundBinary_le_pow (prec : Nat) (emin : Int) (x : ℚ) (j : Int) (hprec : 1 ≤ prec)
    (hj : emin ≤ j) (hx : x ≤ (2 : ℚ) ^ j) : roundBinary prec emin x ≤ (2 : ℚ) ^ j := by
  unfold roundBinary
  by_cases h0 : x = 0
  · simp only [h0, if_true]
    exact (zpow_pos (by norm_num) j).le
  · simp only [h0, if_false]
    have h2 : (2 : ℚ) ≠ 0 := by norm_num
    have hE := binaryExponent_le x h0
    by_cases hneg : x < 0
    · have hpos : ∀ e : Int, (0 : ℚ) < (2 : ℚ) ^ e := fun e => zpow_pos (by norm_num) e
      have hdiv : x / 2 ^ (max (binaryExponent x - ((prec : Int) - 1)) emin) ≤ ((0 : Int) : ℚ) := by
        simpa using (div_nonpos_of_nonpos_of_nonneg hneg.le (hpos _).le)
      have hr := roundHalfEven_le _ 0 hdiv
      have hrq : ((roundHalfEven
          (x / 2 ^ (max (binaryExponent x - ((prec : Int) - 1)) emin)) : Int) : ℚ) ≤ 0 := by
        exact_mod_cast hr
      exact le_trans (mul_nonpos_of_nonpos_of_nonneg hrq (hpos _).le) (hpos j).le
    · have hxpos : 0 < x := lt_of_le_of_ne (not_lt.1 hneg) (Ne.symm h0)
      rw [abs_of_pos hxpos] at hE
      have hEj : binaryExponent x ≤ j :=
        (zpow_le_zpow_iff_right₀ (by norm_num : (1 : ℚ) < 2)).1 (le_trans hE hx)
      have hle : max (binaryExponent x - ((prec : Int) - 1)) emin ≤ j :=
        max_le (by omega) hj
      generalize max (binaryExponent x - ((prec : Int) - 1)) emin = e at hle
      obtain ⟨i, hi⟩ := Int.le.dest hle
      have hj' : j = e + (i : Int) := by omega
      have hepos : (0 : ℚ) < (2 : ℚ) ^ e := zpow_pos (by norm_num) e
      have hdiv : x / 2 ^ e ≤ (((2 : Int) ^ i : Int) : ℚ) := by
        rw [div_le_iff₀ hepos]
        push_cast
        rw [hj', zpow_add₀ h2, zpow_natCast] at hx
        linarith [mul_comm ((2 : ℚ) ^ e) ((2 : ℚ) ^ i)]
      have hr := roundHalfEven_le _ _ hdiv
      have hrq : ((roundHalfEven (x / 2 ^ e) : Int) : ℚ) ≤ (2 : ℚ) ^ i := by
        exact_mod_cast hr
      rw [hj', zpow_add₀ h2, zpow_natCast]
      calc ((roundHalfEven (x / 2 ^ e) : Int) : ℚ) * 2 ^ e ≤ (2 : ℚ) ^ i * 2 ^ e :=
            mul_le_mul_of_nonneg_right hrq hepos.le
        _ = 2 ^ e * 2 ^ i := by ring

theorem toDouble_exact (m k : Int) (hm : |m| < 2 ^ 53) (hk : -1074 ≤ k) :
    toDouble ((m : ℚ) * 2 ^ k) = (m : ℚ) * 2 ^ k :=
  roundBinary_exact 53 (-1074) m k hm hk

theorem toFloat_exact (m k : Int) (hm : |m| < 2 ^ 24) (hk : -149 ≤ k) :
    toFloat ((m : ℚ) * 2 ^ k) = (m : ℚ) * 2 ^ k :=
  roundBinary_exact 24 (-149) m k hm hk

/-- A `long` of magnitude at most 2^53 converts to `double` exactly. -/
theorem toDouble_intCast (z : Int) (hz : |z| ≤ 2 ^ 53) : toDouble (z : ℚ) = (z : ℚ) := by
  rcases lt_or_eq_of_le hz with hlt | heq
  · simpa using toDouble_exact z 0 hlt (by norm_num)
  · rcases abs_eq (by norm_num : (0 : Int) ≤ 2 ^ 53) |>.1 heq with h | h
    · subst h
      have := toDouble_exact 1 53 (by norm_num) (by norm_num)
      norm_num at this ⊢
      exact this
    · subst h
      have := toDouble_exact (-1) 53 (by norm_num) (by norm_num)
      norm_num at this ⊢
      exact this

/-! ## Depth aggregation -/

theorem UMap.find_assign {K V : Type} [DecidableEq K] (m : UMap K V) (k k' : K) (v : V) :
    UMap.find (UMap.assign m k v) k' = if k = k' then some v else UMap.find m k' := by
  induction m with
  | nil => simp [UMap.assign, UMap.find]
  | cons e m ih =>
    obtain ⟨a, b⟩ := e
    by_cases hak : a = k
    · subst hak
      by_cases hk : a = k' <;> simp [UMap.assign, UMap.find, hk]
    · by_cases hk : k = k'
      · subst hk
        simp [UMap.assign, UMap.find, hak, ih]
      · simp [UMap.assign, UMap.find, hak, ih, hk]

theorem UMap.mem_keys_assign {K V : Type} [DecidableEq K] (m : UMap K V) (k x : K) (v : V) :
    x ∈ (UMap.assign m k v).map Prod.fst ↔ x = k ∨ x ∈ m.map Prod.fst := by
  induction m with
  | nil => simp [UMap.assign]
  | cons e m ih =>
    obtain ⟨a, b⟩ := e
    by_cases hak : a = k
    · subst hak
      simp [UMap.assign]
    · simp only [UMap.assign, hak, if_false, List.map_cons, List.mem_cons, ih]
      tauto

theorem UMap.nodup_keys_assign {K V : Type} [DecidableEq K] (m : UMap K V) (k : K) (v : V)
    (h : (m.map Prod.fst).Nodup) : ((UMap.assign m k v).map Prod.fst).Nodup := by
  induction m with
  | nil => simp [UMap.assign]
  | cons e m ih =>
    obtain ⟨a, b⟩ := e
    have h' := List.nodup_cons.1 h
    by_cases hak : a = k
    · subst hak
      simpa [UMap.assign] using h
    · simp only [UMap.assign, hak, if_false, List.map_cons]
      refine List.nodup_cons.2 ⟨?_, ih h'.2⟩
      intro hmem
      rcases (UMap.mem_keys_assign m k a v).1 hmem with h1 | h1
      · exact hak h1
      · exact h'.1 h1

theorem UMap.filter_key {K V : Type} [DecidableEq K] (m : UMap K V) (k : K)
    (h : (m.map Prod.fst).Nodup) :
    m.filter (fun e => e.1 = k) =
      match UMap.find m k with
      | some v => [(k, v)]
      | none => [] := by
  induction m with
  | nil => simp [UMap.find]
  | cons e m ih =>
    obtain ⟨a, b⟩ := e
    have h' := List.nodup_cons.1 h
    by_cases hak : a = k
    · subst hak
      have hnone : m.filter (fun e => e.1 = a) = [] := by
        apply List.filter_eq_nil_iff.2
        intro x hx hxa
        apply h'.1
        have : x.1 = a := by simpa using hxa
        rw [← this]
        exact List.mem_map.2 ⟨x, hx, rfl⟩
      simp [UMap.find, hnone]
    · simp [UMap.find, hak, ih h'.2]

theorem quantityAt_cons (o : Order) (rest : List Order) (p : ℚ) :
    quantityAt (o :: rest) p = (if o.price = p then o.quantity else 0) + quantityAt rest p := by
  by_cases h : o.price = p <;> simp [quantityAt, List.filter_cons, h]

theorem aggregateLoop_find (stack : List Order) :
    ∀ (m : UMap ℚ Int) (p : ℚ),
      UMap.find (aggregateLoop stack m) p = levelQuantity stack p (UMap.find m p) := by
  induction stack with
  | nil =>
    intro m p
    simp [aggregateLoop, levelQuantity]
  | cons o rest ih =>
    intro m p
    cases ho : UMap.find m o.price with
    | none =>
      simp only [aggregateLoop, ho]
      rw [ih, UMap.find_assign]
      by_cases hp : o.price = p
      · subst hp
        simp [levelQuantity, ho]
      · simp [levelQuantity, hp]
    | some q0 =>
      simp only [aggregateLoop, ho]
      rw [ih, UMap.find_assign]
      by_cases hp : o.price = p
      · subst hp
        simp [levelQuantity, ho]
      · simp [levelQuantity, hp]

/-- With no order at the price the entry stays as it is. -/
theorem levelQuantity_absent (stack : List Order) (p : ℚ) (acc : Option Int)
    (h : ¬ ∃ o ∈ stack, o.price = p) : levelQuantity stack p acc = acc := by
  induction stack generalizing acc with
  | nil => rfl
  | cons o rest ih =>
    have ho : ¬ o.price = p := fun hp => h ⟨o, List.mem_cons_self _ _, hp⟩
    have hrest : ¬ ∃ x ∈ rest, x.price = p := fun ⟨x, hx, hp⟩ =>
      h ⟨x, List.mem_cons_of_mem _ hx, hp⟩
    simp only [levelQuantity, ho, if_false]
    exact ih acc hrest

/-- From an entry `q` inside the range of `long`, the accumulated quantity is the
wrapped total. -/
theorem levelQuantity_some (stack : List Order) (p : ℚ) :
    ∀ q : Int, ∃ v : Int, levelQuantity stack p (some q) = some v ∧
      wrapLong v = wrapLong (q + quantityAt stack p) ∧
      ((∃ o ∈ stack, o.price = p) → v = wrapLong (q + quantityAt stack p)) := by
  induction stack with
  | nil =>
    intro q
    exact ⟨q, rfl, by simp [quantityAt], by rintro ⟨o, ho, _⟩; cases ho⟩
  | cons o rest ih =>
    intro q
    rw [quantityAt_cons]
    by_cases hp : o.price = p
    · simp only [levelQuantity, hp, if_true]
      obtain ⟨v, hv, hw, hex⟩ := ih (wrapLong (q + o.quantity))
      have hw' : wrapLong v = wrapLong (q + (o.quantity + quantityAt rest p)) := by
        rw [hw, wrapLong_add_left, add_assoc]
      refine ⟨v, hv, hw', ?_⟩
      intro _
      by_cases hrest : ∃ x ∈ rest, x.price = p
      · rw [hex hrest, wrapLong_add_left, add_assoc]
      · rw [levelQuantity_absent rest p _ hrest] at hv
        have hv' : v = wrapLong (q + o.quantity) := by
          injection hv with hv
          exact hv.symm
        have h0 : quantityAt rest p = 0 := by
          unfold quantityAt
          have : rest.filter (fun x => x.price = p) = [] := by
            apply List.filter_eq_nil_iff.2
            intro x hx hxp
            exact hrest ⟨x, hx, by simpa using hxp⟩
          rw [this]
          rfl
        rw [hv', h0, add_zero]
    · simp only [levelQuantity, hp, if_false, zero_add]
      obtain ⟨v, hv, hw, hex⟩ := ih q
      refine ⟨v, hv, hw, ?_⟩
      rintro ⟨x, hx, hxp⟩
      rcases List.mem_cons.1 hx with h | h
      · rw [h] at hxp
        exact absurd hxp hp
      · exact hex ⟨x, h, hxp⟩

/-- The accumulated quantity of a price that occurs: it exists, and it is the total
at that price when the total lies in the range of `long`. -/
theorem levelQuantity_none (stack : List Order) (p : ℚ) (hex : ∃ o ∈ stack, o.price = p) :
    ∃ v : Int, levelQuantity stack p none = some v ∧
      (InLong (quantityAt stack p) → v = quantityAt stack p) := by
  induction stack with
  | nil =>
    obtain ⟨o, ho, _⟩ := hex
    cases ho
  | cons o rest ih =>
    rw [quantityAt_cons]
    by_cases hp : o.price = p
    · simp only [levelQuantity, hp, if_true]
      obtain ⟨v, hv, _, hex'⟩ := levelQuantity_some rest p o.quantity
      refine ⟨v, hv, ?_⟩
      intro hin
      by_cases hrest : ∃ x ∈ rest, x.price = p
      · rw [hex' hrest, wrapLong_of_inLong _ hin]
      · rw [levelQuantity_absent rest p _ hrest] at hv
        have hv' : v = o.quantity := by
          injection hv with hv
          exact hv.symm
        have h0 : quantityAt rest p = 0 := by
          unfold quantityAt
          have : rest.filter (fun x => x.price = p) = [] := by
            apply List.filter_eq_nil_iff.2
            intro x hx hxp
            exact hrest ⟨x, hx, by simpa using hxp⟩
          rw [this]
          rfl
        rw [hv', h0, add_zero]
    · simp only [levelQuantity, hp, if_false, zero_add]
      apply ih
      obtain ⟨x, hx, hxp⟩ := hex
      rcases List.mem_cons.1 hx with h | h
      · rw [h] at hxp
        exact absurd hxp hp
      · exact ⟨x, h, hxp⟩

/-- Only the orders at the price count. -/
theorem levelQuantity_filter (stack : List Order) (p : ℚ) :
    ∀ acc : Option Int,
      levelQuantity (stack.filter (fun o => o.price = p)) p acc = levelQuantity stack p acc := by
  induction stack with
  | nil => intro acc; rfl
  | cons o rest ih =>
    intro acc
    by_cases hp : o.price = p
    · cases acc with
      | none => simp [List.filter_cons, levelQuantity, hp, ih]
      | some q => simp [List.filter_cons, levelQuantity, hp, ih]
    · simp [List.filter_cons, levelQuantity, hp, ih]

theorem aggregateLoop_nodup (stack : List Order) :
    ∀ (m : UMap ℚ Int), (m.map Prod.fst).Nodup →
      ((aggregateLoop stack m).map Prod.fst).Nodup := by
  induction stack with
  | nil => intro m h; simpa [aggregateLoop] using h
  | cons o rest ih =>
    intro m h
    cases ho : UMap.find m o.price with
    | none =>
      simp only [aggregateLoop, ho]
      exact ih _ (UMap.nodup_keys_assign m _ _ h)
    | some q0 =>
      simp only [aggregateLoop, ho]
      exact ih _ (UMap.nodup_keys_assign m _ _ h)

theorem AggregateStack_filter (ord : IterOrder) (stack : List Order) (p : ℚ) :
    (AggregateStack ord stack).filter (fun o => o.price = p) =
      match levelQuantity stack p none with
      | some v => [⟨p, v, PricingSide.BID⟩]
      | none => [] := by
  have hperm : ((ord.enumerate (aggregateLoop stack [])).filter (fun e => e.1 = p)).Perm
      ((aggregateLoop stack []).filter (fun e => e.1 = p)) := (ord.perm _).filter _
  rw [UMap.filter_key _ p (aggregateLoop_nodup stack [] (by simp)), aggregateLoop_find] at hperm
  have hmap : (AggregateStack ord stack).filter (fun o => o.price = p) =
      ((ord.enumerate (aggregateLoop stack [])).filter (fun e => e.1 = p)).map
        (fun e => Order.mk e.1 e.2 PricingSide.BID) := by
    simp only [AggregateStack, List.filter_map]
    rfl
  rw [hmap]
  simp only [UMap.find] at hperm
  cases hl : levelQuantity stack p none with
  | none =>
    rw [hl] at hperm
    rw [List.perm_nil.1 hperm]
    rfl
  | some v =>
    rw [hl] at hperm
    rw [List.perm_singleton.1 hperm]
    rfl

theorem AggregateStack_mem (ord : IterOrder) (stack : List Order) (a : Order) :
    a ∈ AggregateStack ord stack ↔
      levelQuantity stack a.price none = some a.quantity ∧ a.side = PricingSide.BID := by
  have hiff : a ∈ AggregateStack ord stack ↔
      a ∈ (AggregateStack ord stack).filter (fun o => o.price = a.price) := by
    simp [List.mem_filter]
  rw [hiff, AggregateStack_filter]
  obtain ⟨price, quantity, side⟩ := a
  cases hl : levelQuantity stack price none with
  | none => simp
  | some v =>
    simp only [List.mem_singleton, Order.mk.injEq, true_and, Option.some.injEq]
    constructor
    · rintro ⟨h1, h2⟩
      exact ⟨h1.symm, h2⟩
    · rintro ⟨h1, h2⟩
      exact ⟨h1.symm, h2⟩

/-- A price has an accumulated quantity exactly when an order at it exists. -/
theorem levelQuantity_isSome (stack : List Order) (p : ℚ) :
    (∃ v, levelQuantity stack p none = some v) ↔ ∃ o ∈ stack, o.price = p := by
  constructor
  · rintro ⟨v, hv⟩
    by_contra hne
    rw [levelQuantity_absent stack p none hne] at hv
    cases hv
  · intro hex
    obtain ⟨v, hv, _⟩ := levelQuantity_none stack p hex
    exact ⟨v, hv⟩

theorem AggregateStack_nodup (ord : IterOrder) (stack : List Order) :
    (AggregateStack ord stack).Nodup := by
  have hkeys : ((ord.enumerate (aggregateLoop stack [])).map Prod.fst).Nodup :=
    ((ord.perm _).map Prod.fst).nodup_iff.2 (aggregateLoop_nodup stack [] (by simp))
  have hprice : (AggregateStack ord stack).map (fun o => o.price) =
      (ord.enumerate (aggregateLoop stack [])).map Prod.fst := by
    simp [AggregateStack, List.map_map, Function.comp_def]
  exact List.Nodup.of_map _ (hprice ▸ hkeys)

theorem AggregateStack_aggregatedFrom (ord : IterOrder) (stack : List Order) :
    AggregatedFrom stack (AggregateStack ord stack) := by
  constructor
  · intro p hp
    obtain ⟨v, hv, hin⟩ := levelQuantity_none stack p hp
    exact ⟨⟨p, v, PricingSide.BID⟩, by rw [AggregateStack_filter, hv], hin⟩
  · intro a ha
    exact (levelQuantity_isSome stack a.price).1 ⟨_, ((AggregateStack_mem ord stack a).1 ha).1⟩

theorem AggregateDepth_eq (ord : IterOrder) (s : MarketDataService) (productId : String)
    (b : OrderBook) (h : s.order_books_.find productId = some b) :
    s.AggregateDepth ord productId =
      some (⟨s.order_books_.assign productId
                (OrderBook.mk b.product (AggregateStack ord b.bidStack)
                  (AggregateStack ord b.offerStack)), s.listeners_, s.book_depth_⟩,
        OrderBook.mk b.product (AggregateStack ord b.bidStack)
          (AggregateStack ord b.offerStack)) := by
  simp [MarketDataService.AggregateDepth, h, UMap.find_assign]

/-- Counterexample to C2: with two bids of 2^62 at the price 100 the aggregated bid
stack holds the single order (100, -2^63): the sum on `long` wraps, while the sum of
the two quantities is 2^63, so no order of the stack carries the sum. -/
theorem AggregateDepth_sum_wraps :
    ((MarketDataService.new.OnMessage overflowBook).1.AggregateDepth IterOrder.insertion
        "BONDNO1").map (fun r => r.2.bidStack) =
      some [⟨100, -2 ^ 63, PricingSide.BID⟩] ∧
    quantityAt overflowBook.bidStack 100 = 2 ^ 63 ∧
    ¬ ∃ a ∈ [(⟨100, -2 ^ 63, PricingSide.BID⟩ : Order)],
      a.price = 100 ∧ a.quantity = quantityAt overflowBook.bidStack 100 := by
  refine ⟨by decide!, by decide!, ?_⟩
  rintro ⟨a, ha, _, hq⟩
  rw [List.mem_singleton.1 ha] at hq
  revert hq
  decide!

/-- C2 as amended: for every stored order book, `AggregateDepth` succeeds, returns the book it
stores under the product id, keeps the product, and each stack of that book holds
exactly one order per price of the original stack and no order at any other price;
the quantity of that order is the sum of the quantities of the original orders at the
price whenever that sum lies in the range of `long`. Books of other products are
untouched. -/
theorem AggregateDepth_levels (ord : IterOrder) (s : MarketDataService) (productId : String)
    (b : OrderBook) (h : s.order_books_.find productId = some b) :
    ∃ (s' : MarketDataService) (r : OrderBook),
      s.AggregateDepth ord productId = some (s', r) ∧
      s'.GetData productId = some r ∧
      r.product = b.product ∧
      AggregatedFrom b.bidStack r.bidStack ∧
      AggregatedFrom b.offerStack r.offerStack ∧
      (∀ k : String, k ≠ productId → s'.order_books_.find k = s.order_books_.find k) := by
  refine ⟨_, _, AggregateDepth_eq ord s productId b h, ?_, rfl, ?_, ?_, ?_⟩
  · simp [MarketDataService.GetData, UMap.find_assign]
  · exact AggregateStack_aggregatedFrom ord b.bidStack
  · exact AggregateStack_aggregatedFrom ord b.offerStack
  · intro k hk
    simp [UMap.find_assign, Ne.symm hk]

/-- Witness for C2: the tied book stored under "BONDNO1", map iterated in reverse; the
sums at its prices are 100, 500, 1 and 5. -/
theorem AggregateDepth_levels_witness :
    tiedService.order_books_.find "BONDNO1" = some tiedBook ∧
    ∃ (s' : MarketDataService) (r : OrderBook),
      tiedService.AggregateDepth IterOrder.reversed "BONDNO1" = some (s', r) ∧
      s'.GetData "BONDNO1" = some r ∧
      r.product = tiedBook.product ∧
      AggregatedFrom tiedBook.bidStack r.bidStack ∧
      AggregatedFrom tiedBook.offerStack r.offerStack ∧
      (∀ k : String, k ≠ "BONDNO1" →
        s'.order_books_.find k = tiedService.order_books_.find k) :=
  ⟨rfl, AggregateDepth_levels IterOrder.reversed tiedService "BONDNO1" tiedBook rfl⟩

/-- The aggregated bid stack of the tied book, in both iteration orders. -/
theorem AggregateStack_tiedBook :
    AggregateStack IterOrder.insertion tiedBook.bidStack =
      [⟨99, 100, PricingSide.BID⟩, ⟨100, 500, PricingSide.BID⟩] ∧
    AggregateStack IterOrder.reversed tiedBook.offerStack =
      [⟨201 / 2, 5, PricingSide.BID⟩, ⟨101, 1, PricingSide.BID⟩] := by
  constructor <;>
    decide!


theorem AggregateStack_price_iff (ord : IterOrder) (stack : List Order) (p : ℚ) :
    (∃ o ∈ AggregateStack ord stack, o.price = p) ↔ (∃ o ∈ stack, o.price = p) := by
  rw [← levelQuantity_isSome stack p]
  constructor
  · rintro ⟨a, ha, hap⟩
    rw [← hap]
    exact ⟨_, ((AggregateStack_mem ord stack a).1 ha).1⟩
  · rintro ⟨v, hv⟩
    exact ⟨⟨p, v, PricingSide.BID⟩, (AggregateStack_mem ord stack _).2 ⟨hv, rfl⟩, rfl⟩

/-- Aggregating an aggregated stack accumulates, for each price, the one quantity
that is there. -/
theorem levelQuantity_AggregateStack (ord : IterOrder) (stack : List Order) (p : ℚ) :
    levelQuantity (AggregateStack ord stack) p none = levelQuantity stack p none := by
  rw [← levelQuantity_filter, AggregateStack_filter]
  cases levelQuantity stack p none with
  | none => rfl
  | some v => simp [levelQuantity]

theorem AggregateStack_idem_mem (ord1 ord2 : IterOrder) (stack : List Order) (a : Order) :
    a ∈ AggregateStack ord2 (AggregateStack ord1 stack) ↔ a ∈ AggregateStack ord1 stack := by
  rw [AggregateStack_mem, AggregateStack_mem, levelQuantity_AggregateStack]

theorem AggregateStack_idem_perm (ord1 ord2 : IterOrder) (stack : List Order) :
    (AggregateStack ord2 (AggregateStack ord1 stack)).Perm (AggregateStack ord1 stack) :=
  (List.perm_ext_iff_of_nodup (AggregateStack_nodup ord2 _) (AggregateStack_nodup ord1 _)).2
    (fun a => AggregateStack_idem_mem ord1 ord2 stack a)

/-- C3: applying `AggregateDepth` to a stored product twice succeeds both times and
the second book has, for each stack, the same set of (price, quantity) levels as
the first (the stacks are permutations of each other), whatever the iteration
orders of the two internal maps. -/
theorem AggregateDepth_idempotent (ord1 ord2 : IterOrder) (s : MarketDataService)
    (productId : String) (b : OrderBook) (h : s.order_books_.find productId = some b) :
    ∃ (s1 s2 : MarketDataService) (r1 r2 : OrderBook),
      s.AggregateDepth ord1 productId = some (s1, r1) ∧
      s1.AggregateDepth ord2 productId = some (s2, r2) ∧
      s2.GetData productId = some r2 ∧
      r2.product = r1.product ∧
      (∀ (p : ℚ) (q : Int), (∃ o ∈ r2.bidStack, o.price = p ∧ o.quantity = q) ↔
        (∃ o ∈ r1.bidStack, o.price = p ∧ o.quantity = q)) ∧
      (∀ (p : ℚ) (q : Int), (∃ o ∈ r2.offerStack, o.price = p ∧ o.quantity = q) ↔
        (∃ o ∈ r1.offerStack, o.price = p ∧ o.quantity = q)) ∧
      r2.bidStack.Perm r1.bidStack ∧ r2.offerStack.Perm r1.offerStack := by
  have h1 := AggregateDepth_eq ord1 s productId b h
  have hfind1 : UMap.find (UMap.assign s.order_books_ productId
      (OrderBook.mk b.product (AggregateStack ord1 b.bidStack)
        (AggregateStack ord1 b.offerStack))) productId =
      some (OrderBook.mk b.product (AggregateStack ord1 b.bidStack)
        (AggregateStack ord1 b.offerStack)) := by
    simp [UMap.find_assign]
  have h2 := AggregateDepth_eq ord2 (MarketDataService.mk _ s.listeners_ s.book_depth_)
    productId _ hfind1
  refine ⟨_, _, _, _, h1, h2, ?_, rfl, ?_, ?_, ?_, ?_⟩
  · simp [MarketDataService.GetData, UMap.find_assign]
  · intro p q
    constructor
    · rintro ⟨o, ho, hp⟩
      exact ⟨o, (AggregateStack_idem_mem ord1 ord2 b.bidStack o).1 ho, hp⟩
    · rintro ⟨o, ho, hp⟩
      exact ⟨o, (AggregateStack_idem_mem ord1 ord2 b.bidStack o).2 ho, hp⟩
  · intro p q
    constructor
    · rintro ⟨o, ho, hp⟩
      exact ⟨o, (AggregateStack_idem_mem ord1 ord2 b.offerStack o).1 ho, hp⟩
    · rintro ⟨o, ho, hp⟩
      exact ⟨o, (AggregateStack_idem_mem ord1 ord2 b.offerStack o).2 ho, hp⟩
  · exact AggregateStack_idem_perm ord1 ord2 b.bidStack
  · exact AggregateStack_idem_perm ord1 ord2 b.offerStack

/-- Witness for C3: the tied book, aggregated with two different iteration orders. -/
theorem AggregateDepth_idempotent_witness :
    tiedService.order_books_.find "BONDNO1" = some tiedBook ∧
    ∃ (s1 s2 : MarketDataService) (r1 r2 : OrderBook),
      tiedService.AggregateDepth IterOrder.insertion "BONDNO1" = some (s1, r1) ∧
      s1.AggregateDepth IterOrder.reversed "BONDNO1" = some (s2, r2) ∧
      s2.GetData "BONDNO1" = some r2 ∧
      r2.product = r1.product ∧
      (∀ (p : ℚ) (q : Int), (∃ o ∈ r2.bidStack, o.price = p ∧ o.quantity = q) ↔
        (∃ o ∈ r1.bidStack, o.price = p ∧ o.quantity = q)) ∧
      (∀ (p : ℚ) (q : Int), (∃ o ∈ r2.offerStack, o.price = p ∧ o.quantity = q) ↔
        (∃ o ∈ r1.offerStack, o.price = p ∧ o.quantity = q)) ∧
      r2.bidStack.Perm r1.bidStack ∧ r2.offerStack.Perm r1.offerStack :=
  ⟨rfl, AggregateDepth_idempotent IterOrder.insertion IterOrder.reversed tiedService
    "BONDNO1" tiedBook rfl⟩


/-! ## Algorithmic execution -/

theorem algoExecution_foldl_AddListener (ls : List ListenerId) :
    ∀ s : AlgoExecutionService,
      ls.foldl AlgoExecutionService.AddListener s =
        ⟨s.algo_execution_orders_, s.listeners_ ++ ls, s.spread_, s.execution_count_⟩ := by
  induction ls with
  | nil => intro s; simp
  | cons l ls ih => intro s; simp [ih, AlgoExecutionService.AddListener]

theorem algoExecution_fresh_eq (ls : List ListenerId) :
    AlgoExecutionService.fresh ls = ⟨[], ls, 1 / 128, 0⟩ := by
  simp [AlgoExecutionService.fresh, algoExecution_foldl_AddListener,
    AlgoExecutionService.new]

theorem GetBidOffer_isSome (b : OrderBook) (hbid : b.bidStack ≠ []) (hoffer : b.offerStack ≠ []) :
    ∃ bo : BidOffer, b.GetBidOffer = some bo := by
  obtain ⟨product, bids, offers⟩ := b
  cases bids with
  | nil => exact absurd rfl hbid
  | cons b0 bs =>
    cases offers with
    | nil => exact absurd rfl hoffer
    | cons o0 os => exact ⟨_, rfl⟩

/-- The threshold 1/128 is a power of two, and rounding to `double` does not pass it
from below. -/
theorem toDouble_le_threshold (x : ℚ) (h : x ≤ 1 / 128) : toDouble x ≤ 1 / 128 := by
  have h7 : (2 : ℚ) ^ (-7 : Int) = 1 / 128 := by norm_num
  rw [← h7] at h ⊢
  exact roundBinary_le_pow 53 (-1074) x (-7) (by norm_num) (by norm_num) h

/-- The difference of two prices that are multiples of 1/256 is computed exactly when
it is below 2^45 in magnitude. -/
theorem toDouble_sub_ticks (a b : Int) (h : |b - a| < 2 ^ 53) :
    toDouble ((b : ℚ) / 256 - (a : ℚ) / 256) = (b : ℚ) / 256 - (a : ℚ) / 256 := by
  have h8 : (2 : ℚ) ^ (-8 : Int) = 1 / 256 := by norm_num
  have := toDouble_exact (b - a) (-8) h (by norm_num)
  rw [h8] at this
  have e : (b : ℚ) / 256 - (a : ℚ) / 256 = ((b - a : Int) : ℚ) * (1 / 256) := by
    push_cast
    ring
  rw [e]
  exact this

theorem AlgoExecute_cross (s : AlgoExecutionService) (book : OrderBook) (market : Market)
    (bo : BidOffer) (hbo : book.GetBidOffer = some bo)
    (hq : toDouble (bo.offerOrder.price - bo.bidOrder.price) ≤ s.spread_) :
    s.AlgoExecute book market =
      some (⟨s.algo_execution_orders_, s.listeners_, s.spread_, s.execution_count_ + 1⟩,
        fanout s.listeners_
          (if Int.tmod s.execution_count_ 2 ≠ 0 then
            AlgoExecutionOrder.new book.product PricingSide.OFFER "" OrderType.MARKET
              bo.offerOrder.price (toDouble bo.offerOrder.quantity) 0 "" false market
          else
            AlgoExecutionOrder.new book.product PricingSide.BID "" OrderType.MARKET
              bo.bidOrder.price (toDouble bo.bidOrder.quantity) 0 "" false market)) := by
  by_cases hpar : Int.tmod s.execution_count_ 2 = 0
  · simp [AlgoExecutionService.AlgoExecute, hbo, hq, hpar]
  · simp [AlgoExecutionService.AlgoExecute, hbo, hq, hpar]

theorem AlgoExecute_wide (s : AlgoExecutionService) (book : OrderBook) (market : Market)
    (bo : BidOffer) (hbo : book.GetBidOffer = some bo)
    (hq : s.spread_ < toDouble (bo.offerOrder.price - bo.bidOrder.price)) :
    s.AlgoExecute book market = some (s, []) := by
  simp [AlgoExecutionService.AlgoExecute, hbo, not_le.2 hq]

theorem fanout_listeners {V : Type} (ls : List ListenerId) (v : V) :
    (fanout ls v).map Prod.fst = ls := by
  simp [fanout, List.map_map, Function.comp_def]

theorem run_wide (cs : List (OrderBook × Market)) (s : AlgoExecutionService)
    (hcs : ∀ c ∈ cs, ∃ bo : BidOffer, c.1.GetBidOffer = some bo ∧
      s.spread_ < toDouble (bo.offerOrder.price - bo.bidOrder.price)) :
    s.run cs = some (s, List.replicate cs.length []) := by
  induction cs with
  | nil => rfl
  | cons c rest ih =>
    obtain ⟨book, market⟩ := c
    obtain ⟨bo, hbo, hq⟩ := hcs (book, market) (List.mem_cons_self _ _)
    have hrest := ih (fun c hc => hcs c (List.mem_cons_of_mem _ hc))
    simp [AlgoExecutionService.run, AlgoExecute_wide s book market bo hbo hq, hrest,
      List.replicate_succ]

/-- Counterexample to C4: the bid `-2^-70` and the offer 1/128 are `double` values and
their spread `1/128 + 2^-70` is strictly greater than 1/128, yet the `double`
subtraction gives exactly 1/128 and `AlgoExecute` sends the order to both listeners
and advances the counter. -/
theorem AlgoExecute_gate_rounds :
    roundedBook.GetBidOffer =
      some ⟨⟨-(1 / 2 ^ 70), 1000000, PricingSide.BID⟩, ⟨1 / 128, 2000000, PricingSide.OFFER⟩⟩ ∧
    (1 / 128 : ℚ) < 1 / 128 - -(1 / 2 ^ 70) ∧
    toDouble (1 / 128 - -(1 / 2 ^ 70)) = 1 / 128 ∧
    ((AlgoExecutionService.fresh [1, 2]).AlgoExecute roundedBook Market.CME).map
      (fun r => (r.1.execution_count_, r.2.map Prod.fst)) = some (1, [1, 2]) := by
  refine ⟨rfl, by norm_num, by decide!, by decide!⟩

/-- C4 as amended: on a service with the constructor's threshold 1/128, `AlgoExecute` on a book
with a best bid/offer returns; when the spread computed in `double` arithmetic (the
difference of the two prices rounded to the nearest `double`) is at most 1/128 it calls
`ProcessAdd` once on each listener in order, when the computed spread exceeds 1/128 it
calls no listener and leaves the service unchanged; so with at least one listener an
order is emitted iff the computed spread is at most 1/128. The computed spread is at
most 1/128 whenever the exact spread is, and for prices that are multiples of 1/256
less than 2^45 apart the two are equal, so there an order is emitted iff the spread is
at most 1/128. Any sequence of calls on books whose computed spread exceeds 1/128 makes
no call at all. -/
theorem AlgoExecute_gate (s : AlgoExecutionService) (book : OrderBook) (market : Market)
    (bo : BidOffer) (hs : s.spread_ = 1 / 128) (hbo : book.GetBidOffer = some bo) :
    (∃ (s' : AlgoExecutionService) (calls : List (ListenerId × AlgoExecutionOrder)),
      s.AlgoExecute book market = some (s', calls) ∧
      (toDouble (bo.offerOrder.price - bo.bidOrder.price) ≤ 1 / 128 →
        calls.map Prod.fst = s.listeners_) ∧
      (1 / 128 < toDouble (bo.offerOrder.price - bo.bidOrder.price) →
        calls = [] ∧ s' = s) ∧
      (s.listeners_ ≠ [] →
        (calls ≠ [] ↔ toDouble (bo.offerOrder.price - bo.bidOrder.price) ≤ 1 / 128)) ∧
      (bo.offerOrder.price - bo.bidOrder.price ≤ 1 / 128 →
        calls.map Prod.fst = s.listeners_) ∧
      (∀ a b : Int, bo.bidOrder.price = (a : ℚ) / 256 → bo.offerOrder.price = (b : ℚ) / 256 →
        |b - a| < 2 ^ 53 → s.listeners_ ≠ [] →
        (calls ≠ [] ↔ bo.offerOrder.price - bo.bidOrder.price ≤ 1 / 128))) ∧
    (∀ cs : List (OrderBook × Market),
      (∀ c ∈ cs, ∃ bo' : BidOffer, c.1.GetBidOffer = some bo' ∧
        1 / 128 < toDouble (bo'.offerOrder.price - bo'.bidOrder.price)) →
      s.run cs = some (s, List.replicate cs.length [])) := by
  constructor
  · by_cases hq : toDouble (bo.offerOrder.price - bo.bidOrder.price) ≤ 1 / 128
    · have hiff : ∀ calls : List (ListenerId × AlgoExecutionOrder),
          calls.map Prod.fst = s.listeners_ → s.listeners_ ≠ [] → calls ≠ [] := by
        intro calls hc hne hnil
        apply hne
        rw [← hc, hnil]
        rfl
      refine ⟨_, _, AlgoExecute_cross s book market bo hbo (hs ▸ hq), ?_, ?_, ?_, ?_, ?_⟩
      · intro _
        exact fanout_listeners _ _
      · intro hlt
        exact absurd hq (not_le.2 hlt)
      · intro hne
        exact ⟨fun _ => hq, fun _ => hiff _ (fanout_listeners _ _) hne⟩
      · intro _
        exact fanout_listeners _ _
      · intro a b ha hb hab hne
        have hexact := toDouble_sub_ticks a b hab
        rw [← ha, ← hb] at hexact
        rw [hexact] at hq
        exact ⟨fun _ => hq, fun _ => hiff _ (fanout_listeners _ _) hne⟩
    · refine ⟨_, _, AlgoExecute_wide s book market bo hbo (hs ▸ not_le.1 hq), ?_, ?_, ?_, ?_, ?_⟩
      · intro h
        exact absurd h hq
      · intro _
        exact ⟨rfl, rfl⟩
      · intro _
        exact ⟨fun h => absurd rfl h, fun h => absurd h hq⟩
      · intro h
        exact absurd (toDouble_le_threshold _ h) hq
      · intro a b ha hb hab _
        have hexact := toDouble_sub_ticks a b hab
        rw [← ha, ← hb] at hexact
        rw [hexact] at hq
        exact ⟨fun h => absurd rfl h, fun h => absurd h hq⟩
  · intro cs hcs
    apply run_wide
    intro c hc
    obtain ⟨bo', hbo', hq'⟩ := hcs c hc
    exact ⟨bo', hbo', hs ▸ hq'⟩

/-- Witness for C4: a fresh service with two listeners and a book whose spread is
exactly 1/128. -/
theorem AlgoExecute_gate_witness :
    (AlgoExecutionService.fresh [1, 2]).spread_ = 1 / 128 ∧
    (quoteBook "BONDNO1" 100 (100 + 1 / 128)).GetBidOffer =
      some ⟨⟨100, 1000000, PricingSide.BID⟩, ⟨100 + 1 / 128, 2000000, PricingSide.OFFER⟩⟩ ∧
    ((∃ (s' : AlgoExecutionService) (calls : List (ListenerId × AlgoExecutionOrder)),
      (AlgoExecutionService.fresh [1, 2]).AlgoExecute (quoteBook "BONDNO1" 100 (100 + 1 / 128))
        Market.CME = some (s', calls) ∧
      (toDouble ((100 + 1 / 128 : ℚ) - 100) ≤ 1 / 128 →
        calls.map Prod.fst = (AlgoExecutionService.fresh [1, 2]).listeners_) ∧
      (1 / 128 < toDouble ((100 + 1 / 128 : ℚ) - 100) →
        calls = [] ∧ s' = AlgoExecutionService.fresh [1, 2]) ∧
      ((AlgoExecutionService.fresh [1, 2]).listeners_ ≠ [] →
        (calls ≠ [] ↔ toDouble ((100 + 1 / 128 : ℚ) - 100) ≤ 1 / 128)) ∧
      ((100 + 1 / 128 : ℚ) - 100 ≤ 1 / 128 →
        calls.map Prod.fst = (AlgoExecutionService.fresh [1, 2]).listeners_) ∧
      (∀ a b : Int, (100 : ℚ) = (a : ℚ) / 256 → (100 + 1 / 128 : ℚ) = (b : ℚ) / 256 →
        |b - a| < 2 ^ 53 → (AlgoExecutionService.fresh [1, 2]).listeners_ ≠ [] →
        (calls ≠ [] ↔ (100 + 1 / 128 : ℚ) - 100 ≤ 1 / 128))) ∧
    (∀ cs : List (OrderBook × Market),
      (∀ c ∈ cs, ∃ bo' : BidOffer, c.1.GetBidOffer = some bo' ∧
        1 / 128 < toDouble (bo'.offerOrder.price - bo'.bidOrder.price)) →
      (AlgoExecutionService.fresh [1, 2]).run cs =
        some (AlgoExecutionService.fresh [1, 2], List.replicate cs.length []))) :=
  ⟨by simp [algoExecution_fresh_eq], rfl,
    AlgoExecute_gate (AlgoExecutionService.fresh [1, 2])
      (quoteBook "BONDNO1" 100 (100 + 1 / 128)) Market.CME
      ⟨⟨100, 1000000, PricingSide.BID⟩, ⟨100 + 1 / 128, 2000000, PricingSide.OFFER⟩⟩
      (by simp [algoExecution_fresh_eq]) rfl⟩

/-- At a spread of exactly 1/128 both listeners receive the order; one tick wider,
none does. -/
theorem AlgoExecute_threshold :
    ((AlgoExecutionService.fresh [1, 2]).AlgoExecute (quoteBook "BONDNO1" 100 (100 + 1 / 128))
      Market.CME).map Prod.snd =
        some (fanout [1, 2] (AlgoExecutionOrder.new (quoteBook "BONDNO1" 100 0).product
          PricingSide.BID "" OrderType.MARKET 100 1000000 0 "" false Market.CME)) ∧
    ((AlgoExecutionService.fresh [1, 2]).AlgoExecute (quoteBook "BONDNO1" 100 (100 + 1 / 64))
      Market.CME).map Prod.snd = some [] := by
  constructor <;> decide!

theorem tmod_two_natCast (c : Nat) : Int.tmod (c : Int) 2 ≠ 0 ↔ c % 2 ≠ 0 := by
  rw [show (2 : Int) = ((2 : Nat) : Int) from rfl, ← Int.ofNat_tmod]
  exact_mod_cast Iff.rfl

theorem crossableCount_cons (c : OrderBook × Market) (cs : List (OrderBook × Market)) :
    crossableCount (c :: cs) = (if c.1.crossable then 1 else 0) + crossableCount cs := by
  by_cases h : c.1.crossable <;> simp [crossableCount, List.filter_cons, h, Nat.add_comm]

theorem crossable_iff (book : OrderBook) (bo : BidOffer) (hbo : book.GetBidOffer = some bo) :
    book.crossable = true ↔ toDouble (bo.offerOrder.price - bo.bidOrder.price) ≤ 1 / 128 := by
  simp [OrderBook.crossable, hbo]

theorem run_alternates (cs : List (OrderBook × Market)) :
    ∀ (s : AlgoExecutionService) (c : Nat), s.spread_ = 1 / 128 → s.execution_count_ = c →
      (∀ x ∈ cs, x.1.bidStack ≠ [] ∧ x.1.offerStack ≠ []) →
      ∃ (s' : AlgoExecutionService) (outs : List (List (ListenerId × AlgoExecutionOrder))),
        s.run cs = some (s', outs) ∧ outs.length = cs.length ∧
        ∀ (i : Nat) (book : OrderBook) (market : Market) (bo : BidOffer),
          cs[i]? = some (book, market) → book.GetBidOffer = some bo →
          toDouble (bo.offerOrder.price - bo.bidOrder.price) ≤ 1 / 128 →
          outs[i]? = some (fanout s.listeners_
            (if (c + crossableCount (cs.take i)) % 2 = 0 then
              AlgoExecutionOrder.new book.product PricingSide.BID "" OrderType.MARKET
                bo.bidOrder.price (toDouble bo.bidOrder.quantity) 0 "" false market
            else
              AlgoExecutionOrder.new book.product PricingSide.OFFER "" OrderType.MARKET
                bo.offerOrder.price (toDouble bo.offerOrder.quantity) 0 "" false market)) := by
  induction cs with
  | nil =>
    intro s c _ _ _
    exact ⟨s, [], rfl, rfl, by intro i book market bo h; simp at h⟩
  | cons x rest ih =>
    intro s c hs hc hdef
    obtain ⟨b, m⟩ := x
    obtain ⟨hb1, hb2⟩ := hdef (b, m) (List.mem_cons_self _ _)
    obtain ⟨bo0, hbo0⟩ := GetBidOffer_isSome b hb1 hb2
    have hrestdef : ∀ x ∈ rest, x.1.bidStack ≠ [] ∧ x.1.offerStack ≠ [] :=
      fun x hx => hdef x (List.mem_cons_of_mem _ hx)
    by_cases hq : toDouble (bo0.offerOrder.price - bo0.bidOrder.price) ≤ 1 / 128
    · have hstep := AlgoExecute_cross s b m bo0 hbo0 (hs ▸ hq)
      have hcross : b.crossable = true := (crossable_iff b bo0 hbo0).2 hq
      obtain ⟨s', outs, hrun, hlen, hspec⟩ :=
        ih ⟨s.algo_execution_orders_, s.listeners_, s.spread_, s.execution_count_ + 1⟩ (c + 1)
          hs (by simp [hc]) hrestdef
      generalize hcalls : fanout s.listeners_ _ = calls0 at hstep
      refine ⟨s', calls0 :: outs, by simp [AlgoExecutionService.run, hstep, hrun],
        by simp [hlen], ?_⟩
      intro i book market bo hget hbo hqi
      cases i with
      | zero =>
        simp only [List.getElem?_cons_zero, Option.some.injEq, Prod.mk.injEq] at hget
        obtain ⟨rfl, rfl⟩ := hget
        have hbo' : bo0 = bo := Option.some.inj (hbo0.symm.trans hbo)
        subst hbo'
        rw [← hcalls]
        by_cases hpar : c % 2 = 0
        · have : ¬ Int.tmod s.execution_count_ 2 ≠ 0 := by
            rw [hc, tmod_two_natCast]; simpa using hpar
          simp [crossableCount, hpar, this]
        · have : Int.tmod s.execution_count_ 2 ≠ 0 := by
            rw [hc, tmod_two_natCast]; exact hpar
          simp [crossableCount, hpar, this]
      | succ j =>
        have hget' : rest[j]? = some (book, market) := by simpa using hget
        have := hspec j book market bo hget' hbo hqi
        simp only [List.getElem?_cons_succ, List.take_succ_cons, crossableCount_cons, hcross,
          if_true]
        rw [this]
        simp only [Nat.add_assoc]
    · have hstep := AlgoExecute_wide s b m bo0 hbo0 (hs ▸ not_le.1 hq)
      have hcross : b.crossable = false := by
        cases h : b.crossable with
        | false => rfl
        | true => exact absurd ((crossable_iff b bo0 hbo0).1 h) hq
      obtain ⟨s', outs, hrun, hlen, hspec⟩ := ih s c hs hc hrestdef
      refine ⟨s', [] :: outs, by simp [AlgoExecutionService.run, hstep, hrun], by simp [hlen], ?_⟩
      intro i book market bo hget hbo hqi
      cases i with
      | zero =>
        simp only [List.getElem?_cons_zero, Option.some.injEq, Prod.mk.injEq] at hget
        obtain ⟨rfl, rfl⟩ := hget
        have hbo' : bo0 = bo := Option.some.inj (hbo0.symm.trans hbo)
        subst hbo'
        exact absurd hqi hq
      | succ j =>
        have hget' : rest[j]? = some (book, market) := by simpa using hget
        have := hspec j book market bo hget' hbo hqi
        simp only [List.getElem?_cons_succ, List.take_succ_cons, crossableCount_cons, hcross,
          Bool.false_eq_true, if_false, Nat.zero_add]
        exact this

/-- Counterexample to C5: on a fresh service the first call is on a book whose spread
`1/128 + 2^-70` exceeds 1/128, so it is not a qualifying call as the claim counts them,
and the second call is on a book of spread 0; the second call, preceded by no call of
spread at most 1/128, sends side OFFER, not BID: the first call was let through by the
`double` subtraction and took the side BID. -/
theorem AlgoExecute_alternates_shifted :
    roundedBook.GetBidOffer =
      some ⟨⟨-(1 / 2 ^ 70), 1000000, PricingSide.BID⟩, ⟨1 / 128, 2000000, PricingSide.OFFER⟩⟩ ∧
    (1 / 128 : ℚ) < 1 / 128 - -(1 / 2 ^ 70) ∧
    ((AlgoExecutionService.fresh [1]).run
      [(roundedBook, Market.CME), (quoteBook "BONDNO2" 99 99, Market.CME)]).map
      (fun r => r.2.map (fun calls => calls.map (fun c => c.2.order_.side_))) =
      some [[PricingSide.BID], [PricingSide.OFFER]] := by
  refine ⟨rfl, by norm_num, by decide!⟩

/-- C5 as amended: on a freshly constructed service (listeners `ls` registered), every sequence
of `AlgoExecute` calls on books with non-empty stacks returns, and a qualifying call
(spread computed in `double` arithmetic at most 1/128) preceded by `k` such qualifying
calls sends every listener the order with side BID, the best bid's price and the best
bid's quantity converted to `double` when `k` is even, and with side OFFER, the best
offer's price and the best offer's quantity converted to `double` when `k` is odd. A
call whose exact spread is at most 1/128 qualifies, and the conversion keeps every
quantity of magnitude at most 2^53. -/
theorem AlgoExecute_alternates (ls : List ListenerId) (cs : List (OrderBook × Market))
    (hdef : ∀ x ∈ cs, x.1.bidStack ≠ [] ∧ x.1.offerStack ≠ []) :
    ∃ (s' : AlgoExecutionService) (outs : List (List (ListenerId × AlgoExecutionOrder))),
      (AlgoExecutionService.fresh ls).run cs = some (s', outs) ∧ outs.length = cs.length ∧
      (∀ (i : Nat) (book : OrderBook) (market : Market) (bo : BidOffer),
        cs[i]? = some (book, market) → book.GetBidOffer = some bo →
        toDouble (bo.offerOrder.price - bo.bidOrder.price) ≤ 1 / 128 →
        outs[i]? = some (fanout ls
          (if crossableCount (cs.take i) % 2 = 0 then
            AlgoExecutionOrder.new book.product PricingSide.BID "" OrderType.MARKET
              bo.bidOrder.price (toDouble bo.bidOrder.quantity) 0 "" false market
          else
            AlgoExecutionOrder.new book.product PricingSide.OFFER "" OrderType.MARKET
              bo.offerOrder.price (toDouble bo.offerOrder.quantity) 0 "" false market))) ∧
      (∀ x : ℚ, x ≤ 1 / 128 → toDouble x ≤ 1 / 128) ∧
      (∀ q : Int, |q| ≤ 2 ^ 53 → toDouble (q : ℚ) = (q : ℚ)) := by
  have h := run_alternates cs (AlgoExecutionService.fresh ls) 0
    (by simp [algoExecution_fresh_eq]) (by simp [algoExecution_fresh_eq]) hdef
  obtain ⟨s', outs, h1, h2, h3⟩ := h
  refine ⟨s', outs, h1, h2, ?_, toDouble_le_threshold, toDouble_intCast⟩
  simpa [algoExecution_fresh_eq] using h3

/-- Witness for C5: a qualifying call, a call on a wide book, a qualifying call. -/
theorem AlgoExecute_alternates_witness :
    (∀ x ∈ [(quoteBook "BONDNO1" 100 (100 + 1 / 128), Market.CME),
        (quoteBook "BONDNO1" 100 101, Market.CME), (quoteBook "BONDNO2" 99 99, Market.ESPEED)],
      x.1.bidStack ≠ [] ∧ x.1.offerStack ≠ []) ∧
    ∃ (s' : AlgoExecutionService) (outs : List (List (ListenerId × AlgoExecutionOrder))),
      (AlgoExecutionService.fresh [1]).run
        [(quoteBook "BONDNO1" 100 (100 + 1 / 128), Market.CME),
          (quoteBook "BONDNO1" 100 101, Market.CME),
          (quoteBook "BONDNO2" 99 99, Market.ESPEED)] = some (s', outs) ∧
      outs.length = [(quoteBook "BONDNO1" 100 (100 + 1 / 128), Market.CME),
          (quoteBook "BONDNO1" 100 101, Market.CME),
          (quoteBook "BONDNO2" 99 99, Market.ESPEED)].length ∧
      (∀ (i : Nat) (book : OrderBook) (market : Market) (bo : BidOffer),
        [(quoteBook "BONDNO1" 100 (100 + 1 / 128), Market.CME),
          (quoteBook "BONDNO1" 100 101, Market.CME),
          (quoteBook "BONDNO2" 99 99, Market.ESPEED)][i]? = some (book, market) →
        book.GetBidOffer = some bo →
        toDouble (bo.offerOrder.price - bo.bidOrder.price) ≤ 1 / 128 →
        outs[i]? = some (fanout [1]
          (if crossableCount ([(quoteBook "BONDNO1" 100 (100 + 1 / 128), Market.CME),
              (quoteBook "BONDNO1" 100 101, Market.CME),
              (quoteBook "BONDNO2" 99 99, Market.ESPEED)].take i) % 2 = 0 then
            AlgoExecutionOrder.new book.product PricingSide.BID "" OrderType.MARKET
              bo.bidOrder.price (toDouble bo.bidOrder.quantity) 0 "" false market
          else
            AlgoExecutionOrder.new book.product PricingSide.OFFER "" OrderType.MARKET
              bo.offerOrder.price (toDouble bo.offerOrder.quantity) 0 "" false market))) ∧
      (∀ x : ℚ, x ≤ 1 / 128 → toDouble x ≤ 1 / 128) ∧
      (∀ q : Int, |q| ≤ 2 ^ 53 → toDouble (q : ℚ) = (q : ℚ)) :=
  ⟨by simp [quoteBook],
    AlgoExecute_alternates [1] _ (by simp [quoteBook])⟩

/-- The sides sent on a qualifying call, a wide book and a qualifying call: BID,
nothing, OFFER. -/
theorem AlgoExecute_run_example :
    ((AlgoExecutionService.fresh [1]).run
      [(quoteBook "BONDNO1" 100 (100 + 1 / 128), Market.CME),
        (quoteBook "BONDNO1" 100 101, Market.CME),
        (quoteBook "BONDNO2" 99 99, Market.ESPEED)]).map
      (fun r => r.2.map (fun calls => calls.map (fun c => (c.2.order_.side_, c.2.order_.price_,
        c.2.order_.GetVisibleQuantity)))) =
      some [[(PricingSide.BID, 100, 1000000)], [], [(PricingSide.OFFER, 99, 2000000)]] := by
  decide!

/-- C6: the alternation counter is shared by all products of one engine. On a fresh
engine, for any two qualifying books `bookA` and `bookB` of distinct products, the
updates A, B, A send A the side BID, B the side OFFER and A the side BID again: the
same product receives the same side on its two consecutive qualifying updates. (Each
order carries the best order's quantity as converted to `double`.) -/
theorem AlgoExecute_shared_counter (ls : List ListenerId) (bookA bookB : OrderBook)
    (market : Market) (boA boB : BidOffer)
    (_hAB : bookA.product.GetProductId ≠ bookB.product.GetProductId)
    (hA : bookA.GetBidOffer = some boA) (hB : bookB.GetBidOffer = some boB)
    (hqA : boA.offerOrder.price - boA.bidOrder.price ≤ 1 / 128)
    (hqB : boB.offerOrder.price - boB.bidOrder.price ≤ 1 / 128) :
    ∃ s' : AlgoExecutionService,
      (AlgoExecutionService.fresh ls).run
        [(bookA, market), (bookB, market), (bookA, market)] =
      some (s',
        [fanout ls (AlgoExecutionOrder.new bookA.product PricingSide.BID "" OrderType.MARKET
            boA.bidOrder.price (toDouble boA.bidOrder.quantity) 0 "" false market),
          fanout ls (AlgoExecutionOrder.new bookB.product PricingSide.OFFER "" OrderType.MARKET
            boB.offerOrder.price (toDouble boB.offerOrder.quantity) 0 "" false market),
          fanout ls (AlgoExecutionOrder.new bookA.product PricingSide.BID "" OrderType.MARKET
            boA.bidOrder.price (toDouble boA.bidOrder.quantity) 0 "" false market)]) := by
  have h0 := AlgoExecute_cross ⟨[], ls, 1 / 128, 0⟩ bookA market boA hA
    (toDouble_le_threshold _ hqA)
  have h1 := AlgoExecute_cross ⟨[], ls, 1 / 128, 0 + 1⟩ bookB market boB hB
    (toDouble_le_threshold _ hqB)
  have h2 := AlgoExecute_cross ⟨[], ls, 1 / 128, 0 + 1 + 1⟩ bookA market boA hA
    (toDouble_le_threshold _ hqA)
  have e0 : Int.tmod 0 2 = 0 := by decide
  have e1 : Int.tmod (0 + 1) 2 ≠ 0 := by decide
  have e2 : Int.tmod (0 + 1 + 1) 2 = 0 := by decide
  simp only [e0, e1, e2, ne_eq, not_true_eq_false, not_false_eq_true, if_true, if_false] at h0 h1 h2
  refine ⟨⟨[], ls, 1 / 128, 0 + 1 + 1 + 1⟩, ?_⟩
  rw [algoExecution_fresh_eq]
  simp only [AlgoExecutionService.run, h0, h1, h2]

/-- Witness for C6: product "BONDNO1" (spread 1/128) and product "BONDNO2" (spread 0). -/
theorem AlgoExecute_shared_counter_witness :
    (quoteBook "BONDNO1" 100 (100 + 1 / 128)).product.GetProductId ≠
      (quoteBook "BONDNO2" 99 99).product.GetProductId ∧
    ∃ s' : AlgoExecutionService,
      (AlgoExecutionService.fresh [1]).run
        [(quoteBook "BONDNO1" 100 (100 + 1 / 128), Market.BROKERTEC),
          (quoteBook "BONDNO2" 99 99, Market.BROKERTEC),
          (quoteBook "BONDNO1" 100 (100 + 1 / 128), Market.BROKERTEC)] =
      some (s',
        [fanout [1] (AlgoExecutionOrder.new (quoteBook "BONDNO1" 100 (100 + 1 / 128)).product
            PricingSide.BID "" OrderType.MARKET 100 (toDouble ((1000000 : Int) : ℚ)) 0 "" false
            Market.BROKERTEC),
          fanout [1] (AlgoExecutionOrder.new (quoteBook "BONDNO2" 99 99).product
            PricingSide.OFFER "" OrderType.MARKET 99 (toDouble ((2000000 : Int) : ℚ)) 0 "" false
            Market.BROKERTEC),
          fanout [1] (AlgoExecutionOrder.new (quoteBook "BONDNO1" 100 (100 + 1 / 128)).product
            PricingSide.BID "" OrderType.MARKET 100 (toDouble ((1000000 : Int) : ℚ)) 0 "" false
            Market.BROKERTEC)]) :=
  ⟨by decide,
    AlgoExecute_shared_counter [1] (quoteBook "BONDNO1" 100 (100 + 1 / 128))
      (quoteBook "BONDNO2" 99 99) Market.BROKERTEC
      ⟨⟨100, 1000000, PricingSide.BID⟩, ⟨100 + 1 / 128, 2000000, PricingSide.OFFER⟩⟩
      ⟨⟨99, 1000000, PricingSide.BID⟩, ⟨99, 2000000, PricingSide.OFFER⟩⟩
      (by decide) rfl rfl (by norm_num) (by norm_num)⟩


theorem mem_fanout {V : Type} (ls : List ListenerId) (v : V) (c : ListenerId × V)
    (h : c ∈ fanout ls v) : c.2 = v := by
  simp only [fanout, List.mem_map] at h
  obtain ⟨l, _, rfl⟩ := h
  rfl

/-- Counterexample to C7: the best bid of the book has the quantity 2^53 + 1; the order
`AlgoExecute` sends has the visible quantity 2^53, since the quantity passes through a
`double` parameter. -/
theorem AlgoExecute_quantity_rounds :
    bigBook.GetBidOffer =
      some ⟨⟨100, 2 ^ 53 + 1, PricingSide.BID⟩, ⟨100, 2 ^ 53 + 1, PricingSide.OFFER⟩⟩ ∧
    ((AlgoExecutionService.fresh [1]).AlgoExecute bigBook Market.CME).map
      (fun r => r.2.map (fun c => (c.2.order_.side_, c.2.order_.GetVisibleQuantity))) =
      some [(PricingSide.BID, 2 ^ 53)] ∧
    (2 ^ 53 : Int) ≠ 2 ^ 53 + 1 := by
  refine ⟨rfl, by decide!, by decide⟩

/-- C7 as amended: `AlgoExecute(book, market)` on a book with a best bid/offer returns, and every
order it sends to a listener has the book's product, an empty order id, type MARKET,
hidden quantity 0, an empty parent order id, `isChildOrder = false` and the market
passed by the caller; its visible quantity is the quantity of the chosen best order
(the best bid for side BID, the best offer for side OFFER) converted to `double`, which
`GetVisibleQuantity` returns as that quantity whenever its magnitude is at most 2^53.
Orders triggered through `MarketDataToAlgoExecutionListener::ProcessAdd` carry the
market BROKERTEC. On a qualifying book every listener receives such an order. -/
theorem AlgoExecute_order_fields (s : AlgoExecutionService) (book : OrderBook) (market : Market)
    (bo : BidOffer) (hbo : book.GetBidOffer = some bo) :
    (∃ (s' : AlgoExecutionService) (calls : List (ListenerId × AlgoExecutionOrder)),
      s.AlgoExecute book market = some (s', calls) ∧
      (toDouble (bo.offerOrder.price - bo.bidOrder.price) ≤ s.spread_ →
        calls.map Prod.fst = s.listeners_) ∧
      ∀ c ∈ calls,
        c.2.order_.product_ = book.product ∧
        c.2.order_.orderId_ = "" ∧
        c.2.order_.orderType_ = OrderType.MARKET ∧
        c.2.order_.visibleQuantity_ =
          toDouble (if c.2.order_.side_ = PricingSide.BID then bo.bidOrder.quantity
            else bo.offerOrder.quantity : Int) ∧
        (|(if c.2.order_.side_ = PricingSide.BID then bo.bidOrder.quantity
            else bo.offerOrder.quantity)| ≤ 2 ^ 53 →
          c.2.order_.GetVisibleQuantity =
            (if c.2.order_.side_ = PricingSide.BID then bo.bidOrder.quantity
              else bo.offerOrder.quantity)) ∧
        c.2.order_.GetHiddenQuantity = 0 ∧
        c.2.order_.parentOrderId_ = "" ∧
        c.2.order_.isChildOrder_ = false ∧
        c.2.market_ = market) ∧
    (∃ (s' : AlgoExecutionService) (calls : List (ListenerId × AlgoExecutionOrder)),
      MarketDataToAlgoExecutionListener.ProcessAdd s book = some (s', calls) ∧
      ∀ c ∈ calls, c.2.market_ = Market.BROKERTEC) := by
  have hfields : ∀ market : Market,
      ∃ (s' : AlgoExecutionService) (calls : List (ListenerId × AlgoExecutionOrder)),
        s.AlgoExecute book market = some (s', calls) ∧
        (toDouble (bo.offerOrder.price - bo.bidOrder.price) ≤ s.spread_ →
          calls.map Prod.fst = s.listeners_) ∧
        ∀ c ∈ calls,
          c.2.order_.product_ = book.product ∧
          c.2.order_.orderId_ = "" ∧
          c.2.order_.orderType_ = OrderType.MARKET ∧
          c.2.order_.visibleQuantity_ =
            toDouble (if c.2.order_.side_ = PricingSide.BID then bo.bidOrder.quantity
              else bo.offerOrder.quantity : Int) ∧
          (|(if c.2.order_.side_ = PricingSide.BID then bo.bidOrder.quantity
              else bo.offerOrder.quantity)| ≤ 2 ^ 53 →
            c.2.order_.GetVisibleQuantity =
              (if c.2.order_.side_ = PricingSide.BID then bo.bidOrder.quantity
                else bo.offerOrder.quantity)) ∧
          c.2.order_.GetHiddenQuantity = 0 ∧
          c.2.order_.parentOrderId_ = "" ∧
          c.2.order_.isChildOrder_ = false ∧
          c.2.market_ = market := by
    intro market
    by_cases hq : toDouble (bo.offerOrder.price - bo.bidOrder.price) ≤ s.spread_
    · refine ⟨_, _, AlgoExecute_cross s book market bo hbo hq, fun _ => fanout_listeners _ _, ?_⟩
      intro c hc
      rw [mem_fanout _ _ c hc]
      have h0 : truncToLong (0 : ℚ) = 0 := by simp [truncToLong]
      by_cases hpar : Int.tmod s.execution_count_ 2 = 0
      · simp only [hpar, ne_eq, not_true_eq_false, if_false, AlgoExecutionOrder.new, if_true,
          ExecutionOrder.GetVisibleQuantity, ExecutionOrder.GetHiddenQuantity, h0, true_and]
        refine ⟨?_, trivial⟩
        intro hb
        rw [toDouble_intCast _ hb]
        simp [truncToLong]
      · simp only [hpar, ne_eq, not_false_eq_true, if_true, AlgoExecutionOrder.new,
          ExecutionOrder.GetVisibleQuantity, ExecutionOrder.GetHiddenQuantity, h0, true_and,
          reduceCtorEq, if_false]
        refine ⟨?_, trivial⟩
        intro hb
        rw [toDouble_intCast _ hb]
        simp [truncToLong]
    · refine ⟨_, _, AlgoExecute_wide s book market bo hbo (not_le.1 hq),
        fun h => absurd h hq, ?_⟩
      intro c hc
      cases hc
  refine ⟨hfields market, ?_⟩
  obtain ⟨s', calls, hrun, _, hall⟩ := hfields Market.BROKERTEC
  exact ⟨s', calls, hrun, fun c hc => (hall c hc).2.2.2.2.2.2.2.2⟩

/-- Witness for C7: a fresh service with two listeners, a book at spread 1/128,
market CME. -/
theorem AlgoExecute_order_fields_witness :
    (quoteBook "BONDNO1" 100 (100 + 1 / 128)).GetBidOffer =
      some ⟨⟨100, 1000000, PricingSide.BID⟩, ⟨100 + 1 / 128, 2000000, PricingSide.OFFER⟩⟩ ∧
    (∃ (s' : AlgoExecutionService) (calls : List (ListenerId × AlgoExecutionOrder)),
      (AlgoExecutionService.fresh [1, 2]).AlgoExecute (quoteBook "BONDNO1" 100 (100 + 1 / 128))
        Market.CME = some (s', calls) ∧
      (toDouble ((100 + 1 / 128 : ℚ) - 100) ≤ (AlgoExecutionService.fresh [1, 2]).spread_ →
        calls.map Prod.fst = (AlgoExecutionService.fresh [1, 2]).listeners_) ∧
      ∀ c ∈ calls,
        c.2.order_.product_ = (quoteBook "BONDNO1" 100 (100 + 1 / 128)).product ∧
        c.2.order_.orderId_ = "" ∧
        c.2.order_.orderType_ = OrderType.MARKET ∧
        c.2.order_.visibleQuantity_ =
          toDouble (if c.2.order_.side_ = PricingSide.BID then 1000000 else 2000000 : Int) ∧
        (|(if c.2.order_.side_ = PricingSide.BID then 1000000 else 2000000 : Int)| ≤ 2 ^ 53 →
          c.2.order_.GetVisibleQuantity =
            (if c.2.order_.side_ = PricingSide.BID then 1000000 else 2000000)) ∧
        c.2.order_.GetHiddenQuantity = 0 ∧
        c.2.order_.parentOrderId_ = "" ∧
        c.2.order_.isChildOrder_ = false ∧
        c.2.market_ = Market.CME) ∧
    (∃ (s' : AlgoExecutionService) (calls : List (ListenerId × AlgoExecutionOrder)),
      MarketDataToAlgoExecutionListener.ProcessAdd (AlgoExecutionService.fresh [1, 2])
        (quoteBook "BONDNO1" 100 (100 + 1 / 128)) = some (s', calls) ∧
      ∀ c ∈ calls, c.2.market_ = Market.BROKERTEC) :=
  ⟨rfl, AlgoExecute_order_fields (AlgoExecutionService.fresh [1, 2])
    (quoteBook "BONDNO1" 100 (100 + 1 / 128)) Market.CME
    ⟨⟨100, 1000000, PricingSide.BID⟩, ⟨100 + 1 / 128, 2000000, PricingSide.OFFER⟩⟩ rfl⟩

/-- The order sent through `ProcessAdd` on a fresh service with listeners 1 and 2. -/
theorem ProcessAdd_example :
    (MarketDataToAlgoExecutionListener.ProcessAdd (AlgoExecutionService.fresh [1, 2])
      (quoteBook "BONDNO1" 100 (100 + 1 / 128))).map Prod.snd =
      some (fanout [1, 2] (AlgoExecutionOrder.new (quoteBook "BONDNO1" 100 0).product
        PricingSide.BID "" OrderType.MARKET 100 1000000 0 "" false Market.BROKERTEC)) := by
  decide!



/-! ## Algorithmic streaming -/

theorem algoStreaming_foldl_AddListener (ls : List ListenerId) :
    ∀ s : AlgoStreamingService,
      ls.foldl AlgoStreamingService.AddListener s =
        ⟨s.algo_streams_, s.listeners_ ++ ls, s.count_⟩ := by
  induction ls with
  | nil => intro s; simp
  | cons l ls ih => intro s; simp [ih, AlgoStreamingService.AddListener]

theorem algoStreaming_fresh_eq (ls : List ListenerId) :
    AlgoStreamingService.fresh ls = ⟨[], ls, 0⟩ := by
  simp [AlgoStreamingService.fresh, algoStreaming_foldl_AddListener,
    AlgoStreamingService.new]

theorem tier_natCast (c : Nat) :
    (Int.tmod (c : Int) 2 + 1) * 1000000 = if c % 2 = 0 then 1000000 else 2000000 := by
  rw [show (2 : Int) = ((2 : Nat) : Int) from rfl, ← Int.ofNat_tmod]
  rcases Nat.mod_two_eq_zero_or_one c with h | h <;> simp [h]

theorem AlgoPublishPrice_eq (s : AlgoStreamingService) (price : Price) :
    s.AlgoPublishPrice price =
      (⟨s.algo_streams_.assign price.product.GetProductId
          (AlgoStream.new price.product
            ⟨price.mid - price.bidOfferSpread / 2, (Int.tmod s.count_ 2 + 1) * 1000000,
              (Int.tmod s.count_ 2 + 1) * 1000000 * 2, PricingSide.BID⟩
            ⟨price.mid + price.bidOfferSpread / 2, (Int.tmod s.count_ 2 + 1) * 1000000,
              (Int.tmod s.count_ 2 + 1) * 1000000 * 2, PricingSide.OFFER⟩),
        s.listeners_, s.count_ + 1⟩,
        fanout s.listeners_
          (AlgoStream.new price.product
            ⟨price.mid - price.bidOfferSpread / 2, (Int.tmod s.count_ 2 + 1) * 1000000,
              (Int.tmod s.count_ 2 + 1) * 1000000 * 2, PricingSide.BID⟩
            ⟨price.mid + price.bidOfferSpread / 2, (Int.tmod s.count_ 2 + 1) * 1000000,
              (Int.tmod s.count_ 2 + 1) * 1000000 * 2, PricingSide.OFFER⟩)) := rfl

theorem run_tiers (ps : List Price) :
    ∀ (s : AlgoStreamingService) (c n : Nat) (price : Price), s.count_ = c →
      ps[n]? = some price →
      (s.run ps).2[n]? = some (fanout s.listeners_
        (AlgoStream.new price.product
          ⟨price.mid - price.bidOfferSpread / 2, if (c + n) % 2 = 0 then 1000000 else 2000000,
            (if (c + n) % 2 = 0 then 1000000 else 2000000) * 2, PricingSide.BID⟩
          ⟨price.mid + price.bidOfferSpread / 2, if (c + n) % 2 = 0 then 1000000 else 2000000,
            (if (c + n) % 2 = 0 then 1000000 else 2000000) * 2, PricingSide.OFFER⟩)) ∧
      (s.run (ps.take (n + 1))).1.algo_streams_.find price.product.GetProductId =
        some (AlgoStream.new price.product
          ⟨price.mid - price.bidOfferSpread / 2, if (c + n) % 2 = 0 then 1000000 else 2000000,
            (if (c + n) % 2 = 0 then 1000000 else 2000000) * 2, PricingSide.BID⟩
          ⟨price.mid + price.bidOfferSpread / 2, if (c + n) % 2 = 0 then 1000000 else 2000000,
            (if (c + n) % 2 = 0 then 1000000 else 2000000) * 2, PricingSide.OFFER⟩) := by
  induction ps with
  | nil => intro s c n price _ h; simp at h
  | cons p rest ih =>
    intro s c n price hc hget
    cases n with
    | zero =>
      simp only [List.getElem?_cons_zero, Option.some.injEq] at hget
      subst hget
      simp only [AlgoStreamingService.run, List.take_succ_cons, List.take_zero,
        List.getElem?_cons_zero, AlgoPublishPrice_eq, hc, tier_natCast, Nat.add_zero,
        UMap.find_assign, if_true]
      trivial
    | succ m =>
      have hget' : rest[m]? = some price := by simpa using hget
      have hc' : (s.AlgoPublishPrice p).1.count_ = ((c + 1 : Nat) : Int) := by
        simp [AlgoPublishPrice_eq, hc]
      have h := ih (s.AlgoPublishPrice p).1 (c + 1) m price hc' hget'
      have hidx : c + 1 + m = c + (m + 1) := by omega
      rw [hidx] at h
      simpa [AlgoStreamingService.run, AlgoPublishPrice_eq] using h

/-- C8: on a freshly constructed service (listeners `ls` registered), for every
sequence of prices the `n`-th call of `AlgoPublishPrice` (counting from 0) stores and
sends to every listener a stream whose bid and offer orders have visible quantity
1,000,000 when `n` is even and 2,000,000 when `n` is odd, and hidden quantity twice
the visible quantity, whatever the products and price values. -/
theorem AlgoPublishPrice_tiers (ls : List ListenerId) (ps : List Price) (n : Nat) (price : Price)
    (hn : ps[n]? = some price) :
    ∃ st : AlgoStream,
      ((AlgoStreamingService.fresh ls).run ps).2[n]? = some (fanout ls st) ∧
      ((AlgoStreamingService.fresh ls).run (ps.take (n + 1))).1.algo_streams_.find
        price.product.GetProductId = some st ∧
      st.price_stream_.bidOrder.visibleQuantity = (if n % 2 = 0 then 1000000 else 2000000) ∧
      st.price_stream_.offerOrder.visibleQuantity = (if n % 2 = 0 then 1000000 else 2000000) ∧
      st.price_stream_.bidOrder.hiddenQuantity = 2 * st.price_stream_.bidOrder.visibleQuantity ∧
      st.price_stream_.offerOrder.hiddenQuantity =
        2 * st.price_stream_.offerOrder.visibleQuantity := by
  have h := run_tiers ps (AlgoStreamingService.fresh ls) 0 n price
    (by simp [algoStreaming_fresh_eq]) hn
  rw [Nat.zero_add] at h
  refine ⟨_, ?_, h.2, rfl, rfl, ?_, ?_⟩
  · simpa [algoStreaming_fresh_eq] using h.1
  · simp [AlgoStream.new, mul_comm]
  · simp [AlgoStream.new, mul_comm]

/-- Witness for C8: the second of three calls, on different products and prices. -/
theorem AlgoPublishPrice_tiers_witness :
    [midPrice "BONDNO1" 100 (1 / 64), midPrice "BONDNO2" 99 0, midPrice "BONDNO1" 101 (-1)][1]? =
      some (midPrice "BONDNO2" 99 0) ∧
    ∃ st : AlgoStream,
      ((AlgoStreamingService.fresh [1, 2]).run
        [midPrice "BONDNO1" 100 (1 / 64), midPrice "BONDNO2" 99 0,
          midPrice "BONDNO1" 101 (-1)]).2[1]? = some (fanout [1, 2] st) ∧
      ((AlgoStreamingService.fresh [1, 2]).run
        ([midPrice "BONDNO1" 100 (1 / 64), midPrice "BONDNO2" 99 0,
          midPrice "BONDNO1" 101 (-1)].take (1 + 1))).1.algo_streams_.find
        (midPrice "BONDNO2" 99 0).product.GetProductId = some st ∧
      st.price_stream_.bidOrder.visibleQuantity = (if 1 % 2 = 0 then 1000000 else 2000000) ∧
      st.price_stream_.offerOrder.visibleQuantity = (if 1 % 2 = 0 then 1000000 else 2000000) ∧
      st.price_stream_.bidOrder.hiddenQuantity = 2 * st.price_stream_.bidOrder.visibleQuantity ∧
      st.price_stream_.offerOrder.hiddenQuantity =
        2 * st.price_stream_.offerOrder.visibleQuantity :=
  ⟨rfl, AlgoPublishPrice_tiers [1, 2] _ 1 (midPrice "BONDNO2" 99 0) rfl⟩

/-- The visible and hidden quantities sent on three consecutive calls. -/
theorem AlgoPublishPrice_run_example :
    ((AlgoStreamingService.fresh [1]).run
      [midPrice "BONDNO1" 100 (1 / 64), midPrice "BONDNO2" 99 0,
        midPrice "BONDNO1" 101 (-1)]).2.map
      (fun calls => calls.map (fun c => (c.2.price_stream_.bidOrder.visibleQuantity,
        c.2.price_stream_.offerOrder.hiddenQuantity))) =
      [[(1000000, 2000000)], [(2000000, 4000000)], [(1000000, 2000000)]] := by
  simp [algoStreaming_fresh_eq, AlgoStreamingService.run, AlgoPublishPrice_eq,
    fanout, AlgoStream.new, (by decide : Int.tmod 0 2 = 0), (by decide : Int.tmod 1 2 = 1),
    (by decide : Int.tmod 2 2 = 0)]

/-- C9: for every price update with mid `m` and spread `s`, the stream that
`AlgoPublishPrice` stores and sends has bid price `m - s/2` and offer price `m + s/2`;
the two prices add up to `2 * m` and differ by `s` (exact rational arithmetic). -/
theorem AlgoPublishPrice_prices (s : AlgoStreamingService) (price : Price) :
    ∃ st : AlgoStream,
      (s.AlgoPublishPrice price).2 = fanout s.listeners_ st ∧
      (s.AlgoPublishPrice price).1.algo_streams_.find price.product.GetProductId = some st ∧
      st.price_stream_.bidOrder.price = price.mid - price.bidOfferSpread / 2 ∧
      st.price_stream_.offerOrder.price = price.mid + price.bidOfferSpread / 2 ∧
      st.price_stream_.bidOrder.price + st.price_stream_.offerOrder.price = 2 * price.mid ∧
      st.price_stream_.offerOrder.price - st.price_stream_.bidOrder.price =
        price.bidOfferSpread := by
  refine ⟨_, (congrArg Prod.snd (AlgoPublishPrice_eq s price)), ?_, rfl, rfl, ?_, ?_⟩
  · simp [AlgoPublishPrice_eq, UMap.find_assign]
  · simp only [AlgoStream.new]; ring
  · simp only [AlgoStream.new]; ring

/-- C10: `AlgoPublishPrice` has no qualification gate. For every service state and
every price (any mid, any spread) it stores one stream under the price's product id,
leaves the streams of the other products and the listeners as they were, and calls
`ProcessAdd` exactly once on each registered listener, in registration order, with
that stream, whose product is the price's product, whose bid order has side BID and
whose offer order has side OFFER. -/
theorem AlgoPublishPrice_no_gate (s : AlgoStreamingService) (price : Price) :
    ∃ st : AlgoStream,
      (s.AlgoPublishPrice price).1.algo_streams_.find price.product.GetProductId = some st ∧
      (∀ k : String, k ≠ price.product.GetProductId →
        (s.AlgoPublishPrice price).1.algo_streams_.find k = s.algo_streams_.find k) ∧
      (s.AlgoPublishPrice price).1.listeners_ = s.listeners_ ∧
      (s.AlgoPublishPrice price).2 = s.listeners_.map (fun l => (l, st)) ∧
      st.price_stream_.product = price.product ∧
      st.price_stream_.bidOrder.side = PricingSide.BID ∧
      st.price_stream_.offerOrder.side = PricingSide.OFFER ∧
      (∀ (l : ListenerId), (s.AddListener l).listeners_ = s.listeners_ ++ [l]) := by
  refine ⟨_, ?_, ?_, rfl, (congrArg Prod.snd (AlgoPublishPrice_eq s price)), rfl, rfl, rfl, ?_⟩
  · simp [AlgoPublishPrice_eq, UMap.find_assign]
  · intro k hk
    simp [AlgoPublishPrice_eq, UMap.find_assign, Ne.symm hk]
  · intro l
    rfl

/-- A zero spread and a negative spread both produce a stream for both listeners. -/
theorem AlgoPublishPrice_negative_spread_example :
    ((AlgoStreamingService.fresh [1, 2]).AlgoPublishPrice (midPrice "BONDNO2" 99 0)).2.map
      (fun c => (c.1, c.2.price_stream_.bidOrder.price, c.2.price_stream_.offerOrder.price)) =
      [(1, 99, 99), (2, 99, 99)] ∧
    ((AlgoStreamingService.fresh [1, 2]).AlgoPublishPrice (midPrice "BONDNO1" 101 (-1))).2.map
      (fun c => (c.1, c.2.price_stream_.bidOrder.price, c.2.price_stream_.offerOrder.price)) =
      [(1, 203 / 2, 201 / 2), (2, 203 / 2, 201 / 2)] := by
  constructor <;>
    norm_num [algoStreaming_fresh_eq, AlgoPublishPrice_eq, fanout, AlgoStream.new,
      midPrice]


/-! ## Inquiry workflow -/

theorem UMap.assign_assign {K V : Type} [DecidableEq K] (m : UMap K V) (k : K) (v v' : V) :
    UMap.assign (UMap.assign m k v) k v' = UMap.assign m k v' := by
  induction m with
  | nil => simp [UMap.assign]
  | cons e m ih =>
    obtain ⟨a, b⟩ := e
    by_cases hak : a = k
    · simp [UMap.assign, hak]
    · simp [UMap.assign, hak, ih]

theorem OnMessage_quoted (fuel : Nat) (s : InquiryService) (data : Inquiry)
    (h : data.state = InquiryState.QUOTED) :
    s.OnMessage (fuel + 1) data =
      some (⟨s.inquiries_.assign data.inquiryId (data.SetState InquiryState.DONE), s.listeners_⟩,
        data.SetState InquiryState.DONE, fanout s.listeners_ (data.SetState InquiryState.DONE)) := by
  simp [InquiryService.OnMessage, h]

theorem OnMessage_received (fuel : Nat) (s : InquiryService) (data : Inquiry)
    (h : data.state = InquiryState.RECEIVED) :
    s.OnMessage (fuel + 1) data =
      InquiryService.OnMessage fuel ⟨s.inquiries_.assign data.inquiryId data, s.listeners_⟩
        (data.SetState InquiryState.QUOTED) := by
  simp [InquiryService.OnMessage, InquiryConnector.Publish, InquiryConnector.Subscribe, h]

theorem OnMessage_terminal (fuel : Nat) (s : InquiryService) (data : Inquiry)
    (h1 : data.state ≠ InquiryState.RECEIVED) (h2 : data.state ≠ InquiryState.QUOTED) :
    s.OnMessage (fuel + 1) data = some (s, data, []) := by
  cases hst : data.state <;> simp_all [InquiryService.OnMessage]

theorem OnMessage_cycle (fuel : Nat) (s : InquiryService) (data : Inquiry)
    (h : data.state = InquiryState.RECEIVED ∨ data.state = InquiryState.QUOTED) :
    s.OnMessage (fuel + 2) data =
      some (⟨s.inquiries_.assign data.inquiryId (data.SetState InquiryState.DONE), s.listeners_⟩,
        data.SetState InquiryState.DONE, fanout s.listeners_ (data.SetState InquiryState.DONE)) := by
  rcases h with h | h
  · rw [OnMessage_received (fuel + 1) s data h, OnMessage_quoted fuel _ _ rfl]
    simp [Inquiry.SetState, UMap.assign_assign]
  · exact OnMessage_quoted (fuel + 1) s data h

/-- C11: for every inquiry in state RECEIVED or QUOTED, `OnMessage` (with room for the
one nested call through the connector) returns, leaves the inquiry stored under its
inquiry id in state DONE with its other fields unchanged, leaves the other stored
inquiries untouched, and calls `ProcessAdd` exactly once on each listener, in
registration order, with that DONE inquiry. A RECEIVED inquiry is stored, set to
QUOTED by `InquiryConnector::Publish` and re-delivered to `OnMessage` within the
same call. -/
theorem OnMessage_received_or_quoted_done (s : InquiryService) (data : Inquiry) (fuel : Nat)
    (hfuel : 2 ≤ fuel)
    (hstate : data.state = InquiryState.RECEIVED ∨ data.state = InquiryState.QUOTED) :
    (∃ (s' : InquiryService) (calls : List (ListenerId × Inquiry)),
      s.OnMessage fuel data = some (s', data.SetState InquiryState.DONE, calls) ∧
      s'.inquiries_.find data.inquiryId = some (data.SetState InquiryState.DONE) ∧
      (data.SetState InquiryState.DONE).state = InquiryState.DONE ∧
      data.SetState InquiryState.DONE =
        ⟨data.inquiryId, data.product, data.side, data.quantity, data.price,
          InquiryState.DONE⟩ ∧
      (∀ k : String, k ≠ data.inquiryId → s'.inquiries_.find k = s.inquiries_.find k) ∧
      s'.listeners_ = s.listeners_ ∧
      calls = s.listeners_.map (fun l => (l, data.SetState InquiryState.DONE))) ∧
    (data.state = InquiryState.RECEIVED →
      s.OnMessage fuel data =
        InquiryConnector.Publish (InquiryService.OnMessage (fuel - 1))
          ⟨s.inquiries_.assign data.inquiryId data, s.listeners_⟩ data ∧
      InquiryConnector.Publish (InquiryService.OnMessage (fuel - 1))
          ⟨s.inquiries_.assign data.inquiryId data, s.listeners_⟩ data =
        InquiryService.OnMessage (fuel - 1)
          ⟨s.inquiries_.assign data.inquiryId data, s.listeners_⟩
          (data.SetState InquiryState.QUOTED)) := by
  obtain ⟨n, rfl⟩ : ∃ n, fuel = n + 2 := ⟨fuel - 2, by omega⟩
  constructor
  · refine ⟨_, _, OnMessage_cycle n s data hstate, ?_, rfl, rfl, ?_, rfl, rfl⟩
    · simp [UMap.find_assign]
    · intro k hk
      simp [UMap.find_assign, Ne.symm hk]
  · intro hrec
    constructor
    · simp [InquiryService.OnMessage, hrec]
    · simp [InquiryConnector.Publish, InquiryConnector.Subscribe, hrec]

/-- Witness for C11: the sample inquiry in state RECEIVED on a service with two
listeners. -/
theorem OnMessage_received_or_quoted_done_witness :
    (2 ≤ 2) ∧
    ((sampleInquiry InquiryState.RECEIVED).state = InquiryState.RECEIVED ∨
      (sampleInquiry InquiryState.RECEIVED).state = InquiryState.QUOTED) ∧
    (((InquiryService.new.AddListener 1).AddListener 2).OnMessage 2
      (sampleInquiry InquiryState.RECEIVED)).map (fun r => (r.1.storedState "INQ1", r.2.2)) =
      some (some InquiryState.DONE,
        [(1, sampleInquiry InquiryState.DONE), (2, sampleInquiry InquiryState.DONE)]) :=
  ⟨le_refl 2, Or.inl rfl, by
    obtain ⟨⟨s', calls, hrun, hfind, -, -, -, -, hcalls⟩, -⟩ :=
      OnMessage_received_or_quoted_done ((InquiryService.new.AddListener 1).AddListener 2)
        (sampleInquiry InquiryState.RECEIVED) 2 (le_refl 2) (Or.inl rfl)
    rw [hrun]
    simp only [Option.map_some', InquiryService.storedState]
    have hid : (sampleInquiry InquiryState.RECEIVED).inquiryId = "INQ1" := rfl
    rw [hid] at hfind
    rw [hfind, hcalls]
    rfl⟩


/-- C12: for every stored inquiry id, `RejectInquiry` returns, sets the stored state
to REJECTED, keeps the other fields of that inquiry, keeps every other stored
inquiry and the listeners, and calls no listener. -/
theorem RejectInquiry_sets_rejected (s : InquiryService) (inquiryId : String) (inq : Inquiry)
    (h : s.inquiries_.find inquiryId = some inq) :
    ∃ s' : InquiryService,
      s.RejectInquiry inquiryId = some (s', []) ∧
      s'.inquiries_.find inquiryId =
        some ⟨inq.inquiryId, inq.product, inq.side, inq.quantity, inq.price,
          InquiryState.REJECTED⟩ ∧
      (∀ k : String, k ≠ inquiryId → s'.inquiries_.find k = s.inquiries_.find k) ∧
      s'.listeners_ = s.listeners_ := by
  refine ⟨⟨s.inquiries_.assign inquiryId (inq.SetState InquiryState.REJECTED), s.listeners_⟩,
    by simp [InquiryService.RejectInquiry, h], ?_, ?_, rfl⟩
  · simp [UMap.find_assign, Inquiry.SetState]
  · intro k hk
    simp [UMap.find_assign, Ne.symm hk]

/-- Witness for C12: rejecting the stored sample inquiry (state DONE after its quote
cycle) on a service with one listener. -/
theorem RejectInquiry_sets_rejected_witness :
    (InquiryService.mk [("INQ1", sampleInquiry InquiryState.DONE)] [1]).inquiries_.find "INQ1" =
      some (sampleInquiry InquiryState.DONE) ∧
    ∃ s' : InquiryService,
      (InquiryService.mk [("INQ1", sampleInquiry InquiryState.DONE)] [1]).RejectInquiry "INQ1" =
        some (s', []) ∧
      s'.inquiries_.find "INQ1" = some (sampleInquiry InquiryState.REJECTED) ∧
      (∀ k : String, k ≠ "INQ1" → s'.inquiries_.find k =
        (InquiryService.mk [("INQ1", sampleInquiry InquiryState.DONE)] [1]).inquiries_.find k) ∧
      s'.listeners_ = [1] :=
  ⟨rfl, RejectInquiry_sets_rejected
    (InquiryService.mk [("INQ1", sampleInquiry InquiryState.DONE)] [1]) "INQ1"
    (sampleInquiry InquiryState.DONE) rfl⟩

/-- Counterexample to C13: the sample inquiry is stored and rejected, so the state
stored under "INQ1" is REJECTED; delivering an inquiry with the same id in state
QUOTED to `OnMessage` replaces it, and the stored state becomes DONE. -/
theorem OnMessage_leaves_rejected :
    rejectedService.map (fun s => s.storedState "INQ1") = some (some InquiryState.REJECTED) ∧
    (rejectedService.bind (fun s => s.OnMessage 2 (sampleInquiry InquiryState.QUOTED))).map
      (fun r => r.1.storedState "INQ1") = some (some InquiryState.DONE) := by
  decide

/-- C13 as amended: once the state stored under an id is DONE, REJECTED or
CUSTOMER_REJECTED, an `OnMessage` call changes it only when the delivered inquiry
carries the same inquiry id and is in state RECEIVED or QUOTED, and then the stored
state becomes DONE; every other `OnMessage` call leaves the stored state as it is. -/
theorem OnMessage_terminal_states (s : InquiryService) (inquiryId : String)
    (st : InquiryState) (data : Inquiry) (fuel : Nat) (hfuel : 2 ≤ fuel)
    (hst : s.storedState inquiryId = some st)
    (_hterm : st = InquiryState.DONE ∨ st = InquiryState.REJECTED ∨
      st = InquiryState.CUSTOMER_REJECTED) :
    ∃ r : InquiryResult, s.OnMessage fuel data = some r ∧
      r.1.storedState inquiryId =
        some (if data.inquiryId = inquiryId ∧
            (data.state = InquiryState.RECEIVED ∨ data.state = InquiryState.QUOTED)
          then InquiryState.DONE else st) := by
  obtain ⟨n, rfl⟩ : ∃ n, fuel = n + 2 := ⟨fuel - 2, by omega⟩
  by_cases hq : data.state = InquiryState.RECEIVED ∨ data.state = InquiryState.QUOTED
  · refine ⟨_, OnMessage_cycle n s data hq, ?_⟩
    by_cases hid : data.inquiryId = inquiryId
    · simp [InquiryService.storedState, UMap.find_assign, hid, hq, Inquiry.SetState]
    · simpa [InquiryService.storedState, UMap.find_assign, hid] using hst
  · have h1 : data.state ≠ InquiryState.RECEIVED := fun h => hq (Or.inl h)
    have h2 : data.state ≠ InquiryState.QUOTED := fun h => hq (Or.inr h)
    refine ⟨_, OnMessage_terminal (n + 1) s data h1 h2, ?_⟩
    simp [hq, hst]

/-- Witness for C13 as amended: a stored REJECTED inquiry and a message for another
inquiry id. -/
theorem OnMessage_terminal_states_witness :
    (2 ≤ 2) ∧
    (InquiryService.mk [("INQ1", sampleInquiry InquiryState.REJECTED)] [1]).storedState "INQ1" =
      some InquiryState.REJECTED ∧
    ∃ r : InquiryResult,
      (InquiryService.mk [("INQ1", sampleInquiry InquiryState.REJECTED)] [1]).OnMessage 2
        ⟨"INQ2", FetchBond "BONDNO2", Side.SELL, 5, 99, InquiryState.RECEIVED⟩ = some r ∧
      r.1.storedState "INQ1" =
        some (if "INQ2" = "INQ1" ∧
            (InquiryState.RECEIVED = InquiryState.RECEIVED ∨
              InquiryState.RECEIVED = InquiryState.QUOTED)
          then InquiryState.DONE else InquiryState.REJECTED) :=
  ⟨le_refl 2, rfl, OnMessage_terminal_states
    (InquiryService.mk [("INQ1", sampleInquiry InquiryState.REJECTED)] [1]) "INQ1"
    InquiryState.REJECTED ⟨"INQ2", FetchBond "BONDNO2", Side.SELL, 5, 99, InquiryState.RECEIVED⟩
    2 (le_refl 2) rfl (Or.inr (Or.inl rfl))⟩

/-! ## Upsert and fanout -/

/-- C15: `MarketDataService::OnMessage(b)` is an upsert followed by ordered fanout.
Afterwards `GetData` of `b`'s product id returns `b`, whatever was stored there
before; the books of all other product ids and the listeners are unchanged; and
within the call `ProcessAdd` was invoked exactly once on each registered listener,
in registration order, with `b`. -/
theorem MarketData_OnMessage_upsert (s : MarketDataService) (b : OrderBook) :
    (s.OnMessage b).1.GetData b.product.GetProductId = some b ∧
    (∀ k : String, k ≠ b.product.GetProductId → (s.OnMessage b).1.GetData k = s.GetData k) ∧
    (s.OnMessage b).1.listeners_ = s.listeners_ ∧
    (s.OnMessage b).2 = s.listeners_.map (fun l => (l, b)) ∧
    (∀ l : ListenerId, (s.AddListener l).listeners_ = s.listeners_ ++ [l]) := by
  refine ⟨?_, ?_, rfl, rfl, fun l => rfl⟩
  · simp [MarketDataService.OnMessage, MarketDataService.GetData, UMap.find_assign]
  · intro k hk
    simp [MarketDataService.OnMessage, MarketDataService.GetData, UMap.find_assign, Ne.symm hk]

/-- Replacing an earlier book: after two books of the same product only the second
is returned, and both listeners saw each book once, in order. -/
theorem MarketData_OnMessage_replace_example :
    (((MarketDataService.new.AddListener 1).AddListener 2).OnMessage tiedBook).2 =
      [(1, tiedBook), (2, tiedBook)] ∧
    ((((MarketDataService.new.AddListener 1).AddListener 2).OnMessage tiedBook).1.OnMessage
      (quoteBook "BONDNO1" 99 100)).1.GetData "BONDNO1" = some (quoteBook "BONDNO1" 99 100) := by
  decide!

/-- C16 fails on the code: `PricingService::OnMessage` never writes `prices_`. For
every service and price the store is unchanged by the call, and on a fresh service
`GetData` of the price's product id finds no entry after `OnMessage`, while both
listeners were notified. -/
theorem PricingService_OnMessage_not_stored :
    (∀ (s : PricingService) (p : Price), (s.OnMessage p).1.prices_ = s.prices_) ∧
    ((PricingService.new.AddListener 1).AddListener 2).OnMessage
        (midPrice "BONDNO1" 100 (1 / 64)) =
      (⟨[], [1, 2]⟩, [(1, midPrice "BONDNO1" 100 (1 / 64)), (2, midPrice "BONDNO1" 100 (1 / 64))]) ∧
    ((((PricingService.new.AddListener 1).AddListener 2).OnMessage
        (midPrice "BONDNO1" 100 (1 / 64))).1.GetData "BONDNO1").map Prod.snd = none := by
  refine ⟨fun s p => rfl, ?_, ?_⟩
  · rfl
  · rfl


/-! ## Bond notation -/

theorem digitChar_isdigit (d : Nat) (h : d < 10) :
    isdigit (Nat.digitChar d) = true ∧ (Nat.digitChar d).toNat - 48 = d := by
  interval_cases d <;> decide

theorem isdigit_not_special (c : Char) (h : isdigit c = true) :
    isspace c = false ∧ c ≠ '-' ∧ c ≠ '+' := by
  refine ⟨?_, ?_, ?_⟩
  · simp only [isdigit, decide_eq_true_eq] at h
    have h48 : (48 : Nat) ≤ c.toNat := h.1
    simp only [isspace, Bool.or_eq_false_iff, decide_eq_false_iff_not]
    refine ⟨⟨⟨⟨⟨?_, ?_⟩, ?_⟩, ?_⟩, ?_⟩, ?_⟩ <;>
      (intro hc; rw [hc] at h48; revert h48; decide)
  · intro hc; rw [hc] at h; revert h; decide
  · intro hc; rw [hc] at h; revert h; decide

theorem toDigitsCore_isdigit (fuel : Nat) :
    ∀ (n : Nat) (acc : List Char), (∀ c ∈ acc, isdigit c = true) →
      ∀ c ∈ Nat.toDigitsCore 10 fuel n acc, isdigit c = true := by
  induction fuel with
  | zero => intro n acc hacc; simpa [Nat.toDigitsCore] using hacc
  | succ fuel ih =>
    intro n acc hacc
    have hd : isdigit (Nat.digitChar (n % 10)) = true :=
      (digitChar_isdigit (n % 10) (Nat.mod_lt _ (by decide))).1
    have hacc' : ∀ c ∈ Nat.digitChar (n % 10) :: acc, isdigit c = true := by
      intro c hc
      rcases List.mem_cons.1 hc with rfl | hc
      · exact hd
      · exact hacc c hc
    simp only [Nat.toDigitsCore]
    split
    · exact hacc'
    · exact ih _ _ hacc'

theorem toDigitsCore_ne_nil (fuel n : Nat) (acc : List Char) :
    Nat.toDigitsCore 10 (fuel + 1) n acc ≠ [] := by
  induction fuel generalizing n acc with
  | zero => simp [Nat.toDigitsCore]
  | succ fuel ih =>
    rw [Nat.toDigitsCore]
    split
    · simp
    · exact ih _ _

theorem digitsValue_toDigitsCore (fuel : Nat) :
    ∀ (n : Nat) (acc : List Char), n < fuel →
      digitsValue (Nat.toDigitsCore 10 fuel n acc) 0 = digitsValue acc n := by
  induction fuel with
  | zero => intro n acc h; omega
  | succ fuel ih =>
    intro n acc h
    obtain ⟨hd, hv⟩ := digitChar_isdigit (n % 10) (Nat.mod_lt _ (by decide))
    simp only [Nat.toDigitsCore]
    split
    · rename_i h0
      have hn : n % 10 = n := Nat.mod_eq_of_lt (by omega)
      rw [hn] at hd hv
      simp [digitsValue, hd, hv, hn]
    · rename_i h0
      rw [ih (n / 10) _ (by omega)]
      simp only [digitsValue, hd, hv, if_true]
      congr 1
      omega

theorem to_string_natCast (H : Nat) : to_string (H : Int) = Nat.toDigits 10 H := by
  simp [to_string]

theorem strtol_to_string (H : Nat) : strtol (to_string (H : Int)) = some (H : Int) := by
  rw [to_string_natCast]
  have hne : Nat.toDigits 10 H ≠ [] := toDigitsCore_ne_nil H H []
  have hall : ∀ c ∈ Nat.toDigits 10 H, isdigit c = true :=
    toDigitsCore_isdigit (H + 1) H [] (by simp)
  have hval : digitsValue (Nat.toDigits 10 H) 0 = H := by
    have := digitsValue_toDigitsCore (H + 1) H [] (by omega)
    simpa [Nat.toDigits, digitsValue] using this
  cases hds : Nat.toDigits 10 H with
  | nil => exact absurd hds hne
  | cons c cs =>
    rw [hds] at hall hval
    have hc : isdigit c = true := hall c (List.mem_cons_self _ _)
    obtain ⟨h1, h2, h3⟩ := isdigit_not_special c hc
    simp [strtol, stoiDigits, h1, h2, h3, hc, hval]

/-- A handle below 2^31 written in decimal is read back by `stoi`. -/
theorem stoi_to_string (H : Nat) (hH : H < 2 ^ 31) :
    stoi (to_string (H : Int)) = some (H : Int) := by
  have h1 : (-2 ^ 31 : Int) ≤ (H : Int) := by
    have : (0 : Int) ≤ (H : Int) := Int.ofNat_nonneg H
    omega
  have h2 : (H : Int) < 2 ^ 31 := by exact_mod_cast hH
  simp only [stoi, strtol_to_string]
  rw [if_pos ⟨h1, h2⟩]

theorem findChar_append (c : Char) (hs t : List Char) (h : ∀ d ∈ hs, d ≠ c) :
    findChar c (hs ++ c :: t) = some hs.length := by
  induction hs with
  | nil => simp [findChar]
  | cons d ds ih =>
    have hd : d ≠ c := h d (List.mem_cons_self _ _)
    have := ih (fun x hx => h x (List.mem_cons_of_mem _ hx))
    simp [findChar, hd, this]

theorem stoi_two_digits (x y : Nat) (hx : x < 10) (hy : y < 10) :
    stoi [Nat.digitChar x, Nat.digitChar y] = some ((10 * x + y : Nat) : Int) := by
  obtain ⟨hdx, hvx⟩ := digitChar_isdigit x hx
  obtain ⟨hdy, hvy⟩ := digitChar_isdigit y hy
  obtain ⟨h1, h2, h3⟩ := isdigit_not_special _ hdx
  have hs : strtol [Nat.digitChar x, Nat.digitChar y] = some ((10 * x + y : Nat) : Int) := by
    simp [strtol, stoiDigits, digitsValue, h1, h2, h3, hdx, hdy, hvx, hvy]
  have hr1 : (-2 ^ 31 : Int) ≤ ((10 * x + y : Nat) : Int) := by
    have : (0 : Int) ≤ ((10 * x + y : Nat) : Int) := Int.ofNat_nonneg _
    omega
  have hr2 : ((10 * x + y : Nat) : Int) < 2 ^ 31 := by
    have : 10 * x + y < 100 := by omega
    have : ((10 * x + y : Nat) : Int) < 100 := by exact_mod_cast this
    omega
  simp only [stoi, hs]
  rw [if_pos ⟨hr1, hr2⟩]

/-- A fraction `m / 2^j` with `|m| < 2^53` is a `double`. -/
theorem toDouble_div_pow (m : Int) (j : Nat) (hm : |m| < 2 ^ 53) (hj : j ≤ 1074) :
    toDouble ((m : ℚ) / 2 ^ j) = (m : ℚ) / 2 ^ j := by
  have h := toDouble_exact m (-(j : Int)) hm (by omega)
  rw [zpow_neg, zpow_natCast] at h
  rw [div_eq_mul_inv]
  exact h

/-- A fraction `m / 2^j` with `|m| < 2^24` is a `float`. -/
theorem toFloat_div_pow (m : Int) (j : Nat) (hm : |m| < 2 ^ 24) (hj : j ≤ 149) :
    toFloat ((m : ℚ) / 2 ^ j) = (m : ℚ) / 2 ^ j := by
  have h := toFloat_exact m (-(j : Int)) hm (by omega)
  rw [zpow_neg, zpow_natCast] at h
  rw [div_eq_mul_inv]
  exact h

/-- A value that is a `float` is a `double`. -/
theorem toDouble_natCast_div (n : Nat) (j : Nat) (hn : n < 2 ^ 53) (hj : j ≤ 1074) :
    toDouble ((n : ℚ) / 2 ^ j) = (n : ℚ) / 2 ^ j := by
  have := toDouble_div_pow (n : Int) j (by
    rw [abs_of_nonneg (Int.ofNat_nonneg n)]
    exact_mod_cast hn) hj
  simpa using this

theorem toFloat_natCast_div (n : Nat) (j : Nat) (hn : n < 2 ^ 24) (hj : j ≤ 149) :
    toFloat ((n : ℚ) / 2 ^ j) = (n : ℚ) / 2 ^ j := by
  have := toFloat_div_pow (n : Int) j (by
    rw [abs_of_nonneg (Int.ofNat_nonneg n)]
    exact_mod_cast hn) hj
  simpa using this

/-- The string `ConvertPrice` is given, cut at its parts: a handle below 2^31, `'-'`,
two digits and any tail; the character after the two digits (the terminator when the
tail is empty) decides the last term, and every sum is narrowed to `float`. -/
theorem ConvertPrice_handle_digits (H x y : Nat) (hH : H < 2 ^ 31) (hx : x < 10) (hy : y < 10)
    (tail : List Char) :
    ConvertPrice (to_string (H : Int) ++ '-' :: Nat.digitChar x :: Nat.digitChar y :: tail) =
      some (if tail.headD (Char.ofNat 0) = '+' then
          toFloat (toDouble (toFloat (toDouble (toFloat (H : ℚ) +
            toDouble (((10 * x + y : Nat) : ℚ) / 32))) + toDouble (1 / 64)))
        else
          toFloat (toDouble (toFloat (toDouble (toFloat (H : ℚ) +
            toDouble (((10 * x + y : Nat) : ℚ) / 32))) +
              toDouble (((((tail.headD (Char.ofNat 0)).toNat : Int) - 48 : Int) : ℚ) / 256)))) := by
  have hall : ∀ c ∈ to_string (H : Int), c ≠ '-' := by
    intro c hc
    rw [to_string_natCast] at hc
    exact (isdigit_not_special c (toDigitsCore_isdigit (H + 1) H [] (by simp) c hc)).2.1
  have hfind := findChar_append '-' (to_string (H : Int))
    (Nat.digitChar x :: Nat.digitChar y :: tail) hall
  have hsub : substr (to_string (H : Int) ++ '-' :: Nat.digitChar x :: Nat.digitChar y :: tail)
      ((to_string (H : Int)).length + 1) 2 = some [Nat.digitChar x, Nat.digitChar y] := by
    have hdrop : List.drop ((to_string (H : Int)).length + 1)
        (to_string (H : Int) ++ '-' :: Nat.digitChar x :: Nat.digitChar y :: tail) =
        Nat.digitChar x :: Nat.digitChar y :: tail := by
      rw [List.drop_append_eq_append_drop]
      simp
    simp [substr, hdrop]
  have hat : charAt (to_string (H : Int) ++ '-' :: Nat.digitChar x :: Nat.digitChar y :: tail)
      ((to_string (H : Int)).length + 3) = some (tail.headD (Char.ofNat 0)) := by
    have hidx : (to_string (H : Int) ++ '-' :: Nat.digitChar x :: Nat.digitChar y :: tail)[
        (to_string (H : Int)).length + 3]? = tail[0]? := by
      rw [List.getElem?_append_right (by omega)]
      simp
    cases tail with
    | nil => simp [charAt, hidx]
    | cons t ts => simp [charAt, hidx]
  simp only [ConvertPrice, hfind, ConvertPriceAt, List.take_left', stoi_to_string H hH, hsub,
    stoi_two_digits x y hx hy, hat, Option.bind_eq_bind, Option.some_bind, Option.pure_def]
  split <;> simp

/-- The sum of the handle and the 32nds is kept by both roundings when it is a `float`. -/
theorem handle_32nds_exact (H k : Nat) (hb : 32 * H + k < 2 ^ 24) :
    toFloat (toDouble (toFloat (H : ℚ) + toDouble ((k : ℚ) / 32))) = (H : ℚ) + (k : ℚ) / 32 := by
  have e1 : toFloat (H : ℚ) = (H : ℚ) := by
    have := toFloat_natCast_div H 0 (by omega) (by norm_num)
    simpa using this
  have e2 : toDouble ((k : ℚ) / 32) = (k : ℚ) / 32 := by
    have := toDouble_natCast_div k 5 (by omega) (by norm_num)
    norm_num at this
    exact this
  have e3 : (H : ℚ) + (k : ℚ) / 32 = ((32 * H + k : Nat) : ℚ) / 2 ^ 5 := by
    push_cast
    ring
  rw [e1, e2, e3, toDouble_natCast_div _ 5 (by omega) (by norm_num),
    toFloat_natCast_div _ 5 hb (by norm_num)]

/-- Adding a count `z` of 256ths is kept by both roundings when the sum is a `float`. -/
theorem add_256ths_exact (H k z : Nat) (hb : 256 * H + 8 * k + z < 2 ^ 24) :
    toFloat (toDouble ((H : ℚ) + (k : ℚ) / 32 + toDouble ((z : ℚ) / 256))) =
      (H : ℚ) + (k : ℚ) / 32 + (z : ℚ) / 256 := by
  have e2 : toDouble ((z : ℚ) / 256) = (z : ℚ) / 256 := by
    have := toDouble_natCast_div z 8 (by omega) (by norm_num)
    norm_num at this
    exact this
  have e3 : (H : ℚ) + (k : ℚ) / 32 + (z : ℚ) / 256 =
      ((256 * H + 8 * k + z : Nat) : ℚ) / 2 ^ 8 := by
    push_cast
    ring
  rw [e2, e3, toDouble_natCast_div _ 8 (by omega) (by norm_num),
    toFloat_natCast_div _ 8 hb (by norm_num)]

/-- Adding the 1/64 of a final `'+'` is kept by both roundings when the sum is a
`float`. -/
theorem add_64th_exact (H k : Nat) (hb : 64 * H + 2 * k + 1 < 2 ^ 24) :
    toFloat (toDouble ((H : ℚ) + (k : ℚ) / 32 + toDouble (1 / 64))) =
      (H : ℚ) + (k : ℚ) / 32 + 1 / 64 := by
  have e2 : toDouble ((1 : ℚ) / 64) = 1 / 64 := by
    have := toDouble_natCast_div 1 6 (by norm_num) (by norm_num)
    norm_num at this
    exact this
  have e3 : (H : ℚ) + (k : ℚ) / 32 + 1 / 64 = ((64 * H + 2 * k + 1 : Nat) : ℚ) / 2 ^ 6 := by
    push_cast
    ring
  rw [e2, e3, toDouble_natCast_div _ 6 (by omega) (by norm_num),
    toFloat_natCast_div _ 6 hb (by norm_num)]

theorem truncToLong_eq_floor (q : ℚ) (h : 0 ≤ q) : truncToLong q = ⌊q⌋ := by
  rw [Rat.floor_def, truncToLong]
  exact Int.tdiv_eq_ediv (Rat.num_nonneg.2 h) (Int.ofNat_nonneg _)

theorem truncToLong_between (q : ℚ) (z : Int) (hz : 0 ≤ z) (h1 : (z : ℚ) ≤ q)
    (h2 : q < (z : ℚ) + 1) : truncToLong q = z := by
  have h0 : (0 : ℚ) ≤ q := le_trans (by exact_mod_cast hz) h1
  rw [truncToLong_eq_floor q h0]
  exact Int.floor_eq_iff.2 ⟨h1, h2⟩

/-- The conversion `int(x)` of a value between `z` and `z + 1` for an `int` `z ≥ 0`. -/
theorem truncToInt_between (q : ℚ) (z : Int) (hz : 0 ≤ z) (hz31 : z < 2 ^ 31)
    (h1 : (z : ℚ) ≤ q) (h2 : q < (z : ℚ) + 1) : truncToInt q = z := by
  unfold truncToInt
  rw [truncToLong_between q z hz h1 h2]
  have : (-2 ^ 31 : Int) ≤ z := by omega
  rw [if_pos ⟨this, hz31⟩]

theorem two_digits_text (k : Nat) (hk : k ≤ 31) :
    (if ((k : Nat) : Int) < 10 then ['0'] else []) ++ to_string (k : Int) =
      [Nat.digitChar (k / 10), Nat.digitChar (k % 10)] := by
  interval_cases k <;> decide

theorem eighths_text (z : Nat) (hz : z ≤ 7) :
    to_string (z : Int) = [Nat.digitChar z] ∧ Nat.digitChar z ≠ '+' ∧
      (((Nat.digitChar z).toNat : Int) - 48 : Int) = (z : Int) := by
  interval_cases z <;> decide

theorem toFloat_of_eq (q : ℚ) (n j : Nat) (h : q = (n : ℚ) / 2 ^ j) (hn : n < 2 ^ 24)
    (hj : j ≤ 149) : toFloat q = q := by
  rw [h]
  exact toFloat_natCast_div n j hn hj

theorem toDouble_of_eq (q : ℚ) (n j : Nat) (h : q = (n : ℚ) / 2 ^ j) (hn : n < 2 ^ 53)
    (hj : j ≤ 1074) : toDouble q = q := by
  rw [h]
  exact toDouble_natCast_div n j hn hj

/-- The text `ConvertPrice(float)` writes for a handle `H`, a count `k` of 32nds up to
31 and a count `z` of 256ths up to 7, when their sum is a `float`. -/
theorem ConvertPriceText_parts (H k z : Nat) (hk : k ≤ 31) (hz : z ≤ 7) (hH : H < 2 ^ 24)
    (hp : toFloat ((H : ℚ) + (k : ℚ) / 32 + (z : ℚ) / 256) =
      (H : ℚ) + (k : ℚ) / 32 + (z : ℚ) / 256) :
    ConvertPriceText ((H : ℚ) + (k : ℚ) / 32 + (z : ℚ) / 256) =
      to_string (H : Int) ++ '-' :: Nat.digitChar (k / 10) :: Nat.digitChar (k % 10) ::
        [if z = 4 then '+' else Nat.digitChar z] := by
  have hkq : (k : ℚ) ≤ 31 := by exact_mod_cast hk
  have hk0 : (0 : ℚ) ≤ (k : ℚ) := Nat.cast_nonneg k
  have hzq : (z : ℚ) ≤ 7 := by exact_mod_cast hz
  have hz0 : (0 : ℚ) ≤ (z : ℚ) := Nat.cast_nonneg z
  have h1 : truncToInt ((H : ℚ) + (k : ℚ) / 32 + (z : ℚ) / 256) = (H : Int) := by
    apply truncToInt_between _ _ (Int.ofNat_nonneg H)
    · have : (H : Int) < 2 ^ 24 := by exact_mod_cast hH
      omega
    · push_cast; linarith
    · push_cast; linarith
  have h2 : toFloat (((H : Int) : ℚ)) = (H : ℚ) := by
    have := toFloat_natCast_div H 0 hH (by norm_num)
    simpa using this
  have h3 : toFloat ((H : ℚ) + (k : ℚ) / 32 + (z : ℚ) / 256 - (H : ℚ)) =
      (k : ℚ) / 32 + (z : ℚ) / 256 := by
    have e : (H : ℚ) + (k : ℚ) / 32 + (z : ℚ) / 256 - (H : ℚ) =
        (k : ℚ) / 32 + (z : ℚ) / 256 := by ring
    rw [e]
    exact toFloat_of_eq _ (8 * k + z) 8 (by push_cast; ring) (by omega) (by norm_num)
  have h4 : toFloat (toDouble (((k : ℚ) / 32 + (z : ℚ) / 256) * 32)) =
      (k : ℚ) + (z : ℚ) / 8 := by
    have e : ((k : ℚ) / 32 + (z : ℚ) / 256) * 32 = (k : ℚ) + (z : ℚ) / 8 := by ring
    rw [e, toDouble_of_eq _ (8 * k + z) 3 (by push_cast; ring) (by omega) (by norm_num),
      toFloat_of_eq _ (8 * k + z) 3 (by push_cast; ring) (by omega) (by norm_num)]
  have h5 : truncToInt ((k : ℚ) + (z : ℚ) / 8) = (k : Int) := by
    apply truncToInt_between _ _ (Int.ofNat_nonneg k)
    · have : (k : Int) ≤ 31 := by exact_mod_cast hk
      omega
    · push_cast; linarith
    · push_cast; linarith
  have h6 : toFloat (((k : Int) : ℚ)) = (k : ℚ) := by
    have := toFloat_natCast_div k 0 (by omega) (by norm_num)
    simpa using this
  have h7 : toFloat ((k : ℚ) + (z : ℚ) / 8 - (k : ℚ)) = (z : ℚ) / 8 := by
    have e : (k : ℚ) + (z : ℚ) / 8 - (k : ℚ) = (z : ℚ) / 8 := by ring
    rw [e]
    exact toFloat_of_eq _ z 3 (by norm_num) (by omega) (by norm_num)
  have h8 : toFloat (toDouble ((z : ℚ) / 8 * 8)) = (z : ℚ) := by
    have e : (z : ℚ) / 8 * 8 = (z : ℚ) := by ring
    rw [e, toDouble_of_eq _ z 0 (by norm_num) (by omega) (by norm_num),
      toFloat_of_eq _ z 0 (by norm_num) (by omega) (by norm_num)]
  have h9 : truncToInt (z : ℚ) = (z : Int) := by
    apply truncToInt_between _ _ (Int.ofNat_nonneg z)
    · have : (z : Int) ≤ 7 := by exact_mod_cast hz
      omega
    · push_cast; exact le_refl _
    · push_cast; linarith
  have htxt := two_digits_text k hk
  obtain ⟨hzt, _, _⟩ := eighths_text z hz
  simp only [ConvertPriceText, hp, h1, h2, h3, h4, h5, h6, h7, h8, h9]
  have hshape : ∀ (pad last : List Char), pad ++ to_string (k : Int) =
      [Nat.digitChar (k / 10), Nat.digitChar (k % 10)] →
      (to_string (H : Int) ++ ['-'] ++ pad) ++ to_string (k : Int) ++ last =
        to_string (H : Int) ++
          '-' :: Nat.digitChar (k / 10) :: Nat.digitChar (k % 10) :: last := by
    intro pad last hpad
    rw [List.append_assoc (to_string (H : Int) ++ ['-']) pad, hpad]
    simp
  have hlast : (if (z : Int) = 4 then
        (if (k : Int) < 10 then to_string (H : Int) ++ ['-'] ++ ['0']
          else to_string (H : Int) ++ ['-']) ++ to_string (k : Int) ++ ['+']
      else
        (if (k : Int) < 10 then to_string (H : Int) ++ ['-'] ++ ['0']
          else to_string (H : Int) ++ ['-']) ++ to_string (k : Int) ++ to_string (z : Int)) =
      (if (k : Int) < 10 then to_string (H : Int) ++ ['-'] ++ ['0']
          else to_string (H : Int) ++ ['-']) ++ to_string (k : Int) ++
        [if z = 4 then '+' else Nat.digitChar z] := by
    by_cases h4 : z = 4
    · subst h4; simp
    · have h4' : ¬ (z : Int) = 4 := by exact_mod_cast h4
      simp [h4, h4', hzt]
  rw [hlast]
  by_cases h10 : ((k : Nat) : Int) < 10
  · simp only [h10, if_true] at htxt ⊢
    exact hshape ['0'] _ htxt
  · simp only [h10, if_false] at htxt ⊢
    have := hshape [] [if z = 4 then '+' else Nat.digitChar z] htxt
    simpa using this

/-- The text `ConvertPrice(float)` writes for a handle below 262144, a count `k` of
32nds up to 31 and one 64th. -/
theorem ConvertPriceText_plus (H k : Nat) (hk : k ≤ 31) (hH : H < 262144) :
    ConvertPriceText ((H : ℚ) + (k : ℚ) / 32 + 1 / 64) =
      to_string (H : Int) ++ '-' :: Nat.digitChar (k / 10) :: Nat.digitChar (k % 10) :: ['+'] := by
  have e : (H : ℚ) + (k : ℚ) / 32 + 1 / 64 = (H : ℚ) + (k : ℚ) / 32 + ((4 : Nat) : ℚ) / 256 := by
    push_cast
    ring
  rw [e]
  have hp : toFloat ((H : ℚ) + (k : ℚ) / 32 + ((4 : Nat) : ℚ) / 256) =
      (H : ℚ) + (k : ℚ) / 32 + ((4 : Nat) : ℚ) / 256 :=
    toFloat_of_eq _ (64 * H + 2 * k + 1) 6 (by push_cast; ring) (by omega) (by norm_num)
  have := ConvertPriceText_parts H k 4 hk (by decide) (by omega) hp
  simpa using this

/-- The three-character form with a final digit, for a value that is a `float`. -/
theorem ConvertPrice_digit_tail (H x y z : Nat) (hx : x < 10) (hy : y < 10) (hz : z < 10)
    (hb : 256 * H + 8 * (10 * x + y) + z < 2 ^ 24) :
    ConvertPrice (to_string (H : Int) ++
        '-' :: Nat.digitChar x :: Nat.digitChar y :: [Nat.digitChar z]) =
      some ((H : ℚ) + ((10 * x + y : Nat) : ℚ) / 32 + (z : ℚ) / 256) := by
  obtain ⟨hdz, hvz⟩ := digitChar_isdigit z hz
  have hzp : Nat.digitChar z ≠ '+' := (isdigit_not_special _ hdz).2.2
  have hz48 : 48 ≤ (Nat.digitChar z).toNat := by
    simp only [isdigit, decide_eq_true_eq] at hdz
    exact hdz.1
  have hzval : (((Nat.digitChar z).toNat : Int) - 48 : Int) = (z : Int) := by omega
  rw [ConvertPrice_handle_digits H x y (by omega) hx hy]
  simp only [List.headD_cons, hzp, if_false, hzval, Int.cast_natCast]
  rw [handle_32nds_exact H (10 * x + y) (by omega), add_256ths_exact H (10 * x + y) z hb]

/-- The three-character form with a final `'+'`, for a value that is a `float`. -/
theorem ConvertPrice_plus_tail (H x y : Nat) (hx : x < 10) (hy : y < 10)
    (hb : 64 * H + 2 * (10 * x + y) + 1 < 2 ^ 24) :
    ConvertPrice (to_string (H : Int) ++ '-' :: Nat.digitChar x :: Nat.digitChar y :: ['+']) =
      some ((H : ℚ) + ((10 * x + y : Nat) : ℚ) / 32 + 1 / 64) := by
  rw [ConvertPrice_handle_digits H x y (by omega) hx hy]
  simp only [List.headD_cons, if_true]
  rw [handle_32nds_exact H (10 * x + y) (by omega), add_64th_exact H (10 * x + y) hb]

/-- Counterexample to C17: the value is accumulated in a `float` and the handle is
read by `stoi`. "70000-001" parses to 70000, not to `70000 + 1/256`; "16777217-000"
parses to 16777216; "262144-16+" parses to `262144 + 1/2`; "99999999999-000" makes
`stoi` throw. -/
theorem ConvertPrice_handle_beyond_float :
    ConvertPrice "70000-001".toList = some 70000 ∧
    ConvertPrice "70000-001".toList ≠ some (70000 + 0 / 32 + 1 / 256) ∧
    ConvertPrice "16777217-000".toList = some 16777216 ∧
    ConvertPrice "262144-16+".toList = some (262144 + 16 / 32) ∧
    ConvertPrice "99999999999-000".toList = none := by
  decide!

/-- C17 as amended: `ConvertPrice` maps every three-character fractional form whose
value is a `float` exactly. For a handle `H` written in decimal, two digits `x`, `y`
and a final digit `z`, the text "H-xyz" parses to `H + xy/32 + z/256` when
`256 H + 8 xy + z < 2^24`, and "H-xy+" parses to `H + xy/32 + 1/64` when
`64 H + 2 xy + 1 < 2^24`. -/
theorem ConvertPrice_three_characters (H x y z : Nat) (hx : x < 10) (hy : y < 10)
    (hz : z < 10) :
    (256 * H + 8 * (10 * x + y) + z < 2 ^ 24 →
      ConvertPrice (to_string (H : Int) ++
          '-' :: Nat.digitChar x :: Nat.digitChar y :: [Nat.digitChar z]) =
        some ((H : ℚ) + ((10 * x + y : Nat) : ℚ) / 32 + (z : ℚ) / 256)) ∧
    (64 * H + 2 * (10 * x + y) + 1 < 2 ^ 24 →
      ConvertPrice (to_string (H : Int) ++
          '-' :: Nat.digitChar x :: Nat.digitChar y :: ['+']) =
        some ((H : ℚ) + ((10 * x + y : Nat) : ℚ) / 32 + 1 / 64)) :=
  ⟨ConvertPrice_digit_tail H x y z hx hy hz, ConvertPrice_plus_tail H x y hx hy⟩

/-- Witness for C17 as amended: "100-162" and "100-16+". -/
theorem ConvertPrice_three_characters_witness :
    (1 < 10) ∧ (6 < 10) ∧ (2 < 10) ∧
    (256 * 100 + 8 * (10 * 1 + 6) + 2 < 2 ^ 24) ∧ (64 * 100 + 2 * (10 * 1 + 6) + 1 < 2 ^ 24) ∧
    to_string (100 : Nat) ++ '-' :: Nat.digitChar 1 :: Nat.digitChar 6 :: [Nat.digitChar 2] =
      "100-162".toList ∧
    to_string (100 : Nat) ++ '-' :: Nat.digitChar 1 :: Nat.digitChar 6 :: ['+'] =
      "100-16+".toList ∧
    ConvertPrice "100-162".toList = some (100 + 16 / 32 + 2 / 256) ∧
    ConvertPrice "100-16+".toList = some (100 + 16 / 32 + 1 / 64) := by
  have h := ConvertPrice_three_characters 100 1 6 2 (by decide) (by decide) (by decide)
  have e1 : to_string ((100 : Nat) : Int) ++
      '-' :: Nat.digitChar 1 :: Nat.digitChar 6 :: [Nat.digitChar 2] = "100-162".toList := by
    decide
  have e2 : to_string ((100 : Nat) : Int) ++
      '-' :: Nat.digitChar 1 :: Nat.digitChar 6 :: ['+'] = "100-16+".toList := by
    decide
  rw [e1, e2] at h
  refine ⟨by decide, by decide, by decide, by norm_num, by norm_num, e1, e2, ?_, ?_⟩
  · rw [h.1 (by norm_num)]; norm_num
  · rw [h.2 (by norm_num)]; norm_num

/-- The two-digit form in general: the terminator is read as the final character,
so "H-xy" parses to `H + xy/32 - 48/256` (for a handle from 1 on whose 32nds are a
`float`). -/
theorem ConvertPrice_two_digits (H x y : Nat) (hx : x < 10) (hy : y < 10) (h1 : 1 ≤ H)
    (hb : 256 * H + 8 * (10 * x + y) < 2 ^ 24) :
    ConvertPrice (to_string (H : Int) ++ '-' :: [Nat.digitChar x, Nat.digitChar y]) =
      some ((H : ℚ) + ((10 * x + y : Nat) : ℚ) / 32 - 48 / 256) := by
  rw [ConvertPrice_handle_digits H x y (by omega) hx hy]
  have h0 : (Char.ofNat 0).toNat = 0 := by decide
  have hne : Char.ofNat 0 ≠ '+' := by decide
  simp only [List.headD_nil, hne, if_false, h0]
  rw [handle_32nds_exact H (10 * x + y) (by omega)]
  have e2 : toDouble ((((((0 : Nat) : Int) - 48 : Int)) : ℚ) / 256) = -48 / 256 := by
    have := toDouble_div_pow (-48) 8 (by norm_num) (by norm_num)
    norm_num at this ⊢
    exact this
  have e3 : (H : ℚ) + ((10 * x + y : Nat) : ℚ) / 32 + -48 / 256 =
      ((256 * H + 8 * (10 * x + y) - 48 : Nat) : ℚ) / 2 ^ 8 := by
    have : 48 ≤ 256 * H + 8 * (10 * x + y) := by omega
    rw [Nat.cast_sub this]
    push_cast
    ring
  rw [e2, e3, toDouble_natCast_div _ 8 (by omega) (by norm_num),
    toFloat_natCast_div _ 8 (by omega) (by norm_num)]
  congr 1
  rw [← e3]
  ring

/-- Counterexample to C18: the two-digit form has no character after the 32nds, and
`ConvertPrice` reads the string terminator there, adding `('\0' - '0') / 256`.
"100-16" parses to `100 + 16/32 - 48/256`, not to `100 + 16/32`, and "99-00" parses
to `99 - 48/256`, not to 99. -/
theorem ConvertPrice_two_digit_form :
    ConvertPrice "100-16".toList = some (100 + 16 / 32 - 48 / 256) ∧
    ConvertPrice "100-16".toList ≠ some (100 + 16 / 32) ∧
    ConvertPrice "99-00".toList = some (99 - 48 / 256) ∧
    ConvertPrice "99-00".toList ≠ some 99 := by
  decide!

/-- C18 as amended: `ConvertPrice` reads three characters after the `'-'`, as its
comment says ("100-xyz"), and maps the form whose third character is `0` to handle
plus 32nds: for a handle `H` written in decimal and two digits `x`, `y` with
`256 H + 8 xy < 2^24`, the text "H-xy0" parses to `H + xy/32`. -/
theorem ConvertPrice_zero_final (H x y : Nat) (hx : x < 10) (hy : y < 10)
    (hb : 256 * H + 8 * (10 * x + y) < 2 ^ 24) :
    ConvertPrice (to_string (H : Int) ++ '-' :: Nat.digitChar x :: Nat.digitChar y :: ['0']) =
      some ((H : ℚ) + ((10 * x + y : Nat) : ℚ) / 32) := by
  have h := ConvertPrice_digit_tail H x y 0 hx hy (by decide) (by omega)
  have e : Nat.digitChar 0 = '0' := by decide
  rw [e] at h
  rw [h]
  simp

/-- Witness for C18 as amended: "100-160" parses to `100 + 16/32`, and "99-000"
parses to 99. -/
theorem ConvertPrice_zero_final_witness :
    (1 < 10) ∧ (6 < 10) ∧ (256 * 100 + 8 * (10 * 1 + 6) < 2 ^ 24) ∧
    to_string ((100 : Nat) : Int) ++ '-' :: Nat.digitChar 1 :: Nat.digitChar 6 :: ['0'] =
      "100-160".toList ∧
    ConvertPrice "100-160".toList = some (100 + 16 / 32) ∧
    ConvertPrice "99-000".toList = some 99 := by
  have h := ConvertPrice_zero_final 100 1 6 (by decide) (by decide) (by norm_num)
  have e : to_string ((100 : Nat) : Int) ++
      '-' :: Nat.digitChar 1 :: Nat.digitChar 6 :: ['0'] = "100-160".toList := by
    decide
  rw [e] at h
  refine ⟨by decide, by decide, by norm_num, e, ?_, by decide!⟩
  rw [h]
  norm_num

/-- Counterexample to C19: "100-16" parses to 1605/16, which is written back as
"100-100". -/
theorem ConvertPrice_round_trip_two_digits :
    ConvertPrice "100-16".toList = some (1605 / 16) ∧
    ConvertPriceText (1605 / 16) = "100-100".toList ∧
    ConvertPriceText (1605 / 16) ≠ "100-16".toList := by
  decide!

/-- The bound on the handle in the round trip of the `'+'` form is needed: the value
of "262144-16+" is not a `float`; it parses to `262144 + 1/2`, which is written back
as "262144-160". -/
theorem ConvertPrice_round_trip_plus_bound :
    ConvertPrice "262144-16+".toList = some (262144 + 1 / 2) ∧
    ConvertPriceText (262144 + 1 / 2) = "262144-160".toList := by
  decide!

/-- C19 as amended: for every string made of a handle below 262144 in decimal, `'-'`,
a two-digit count of 32nds from 00 to 31 and a final `'+'`, parsing it with
`ConvertPrice` and writing the price back with `ConvertPrice` yields the string
again. -/
theorem ConvertPrice_round_trip_plus (H k : Nat) (hk : k ≤ 31) (hH : H < 262144) :
    ∃ p : ℚ,
      ConvertPrice (to_string (H : Int) ++
        '-' :: Nat.digitChar (k / 10) :: Nat.digitChar (k % 10) :: ['+']) = some p ∧
      ConvertPriceText p = to_string (H : Int) ++
        '-' :: Nat.digitChar (k / 10) :: Nat.digitChar (k % 10) :: ['+'] := by
  have hx : k / 10 < 10 := by omega
  have hy : k % 10 < 10 := Nat.mod_lt _ (by decide)
  have hkk : 10 * (k / 10) + k % 10 = k := by omega
  refine ⟨(H : ℚ) + (k : ℚ) / 32 + 1 / 64, ?_, ConvertPriceText_plus H k hk hH⟩
  rw [ConvertPrice_plus_tail H (k / 10) (k % 10) hx hy (by omega), hkk]

/-- Witness for C19 as amended: "99-31+" (and "100-16+" by evaluation). -/
theorem ConvertPrice_round_trip_plus_witness :
    (31 ≤ 31) ∧ (99 < 262144) ∧
    to_string ((99 : Nat) : Int) ++
      '-' :: Nat.digitChar (31 / 10) :: Nat.digitChar (31 % 10) :: ['+'] = "99-31+".toList ∧
    (∃ p : ℚ, ConvertPrice "99-31+".toList = some p ∧ ConvertPriceText p = "99-31+".toList) ∧
    (∃ p : ℚ, ConvertPrice "100-16+".toList = some p ∧
      ConvertPriceText p = "100-16+".toList) := by
  have e : to_string ((99 : Nat) : Int) ++
      '-' :: Nat.digitChar (31 / 10) :: Nat.digitChar (31 % 10) :: ['+'] = "99-31+".toList := by
    decide
  have h := ConvertPrice_round_trip_plus 99 31 (le_refl 31) (by norm_num)
  rw [e] at h
  exact ⟨le_refl 31, by norm_num, e, h, ⟨100 + 16 / 32 + 1 / 64, by decide!, by decide!⟩⟩

/-! ## Market data ingestion -/

/-- Counterexample to C20: the prices "99-00" and "99-08" of the twenty lines have no
third fractional character, so they are parsed as `99 - 48/256` and
`99 + 8/32 - 48/256`. `Subscribe` returns and publishes exactly one order book (one
`OnMessage`, one `ProcessAdd` on the single listener), for product "BONDNO1" with ten
bids and ten offers, but its best bid/offer is (1581/16, 100, BID) /
(1585/16, 100, OFFER), not (99, 100, BID) / (99 + 8/32, 100, OFFER). -/
theorem Subscribe_twenty_lines :
    (MarketDataConnector.Subscribe (MarketDataService.new.AddListener 1) twentyLines).map
      (fun r => r.2.1.map (fun b => (b.product.GetProductId, b.bidStack.length,
        b.offerStack.length))) = some [("BONDNO1", 10, 10)] ∧
    (MarketDataConnector.Subscribe (MarketDataService.new.AddListener 1) twentyLines).map
      (fun r => r.2.2.map Prod.fst) = some [1] ∧
    (MarketDataConnector.Subscribe (MarketDataService.new.AddListener 1) twentyLines).map
      (fun r => r.2.1.map OrderBook.GetBidOffer) =
      some [some ⟨⟨1581 / 16, 100, PricingSide.BID⟩, ⟨1585 / 16, 100, PricingSide.OFFER⟩⟩] ∧
    (MarketDataConnector.Subscribe (MarketDataService.new.AddListener 1) twentyLines).map
      (fun r => r.2.1.map OrderBook.GetBidOffer) ≠
      some [some ⟨⟨99, 100, PricingSide.BID⟩, ⟨99 + 8 / 32, 100, PricingSide.OFFER⟩⟩] := by
  decide!

/-- C20 as amended: with the prices written in the three-character form the parser
reads, "99-000" on the BID lines and "99-080" on the OFFER lines, the twenty lines for
"BONDNO1" (book depth 10, quantity 100) make `Subscribe` publish exactly one order book
(one `OnMessage`, one `ProcessAdd` on the single listener), for product "BONDNO1" with
ten bids and ten offers, whose best bid/offer is (99, 100, BID) paired with
(99 + 8/32, 100, OFFER). -/
theorem Subscribe_twenty_lines_three_characters :
    (MarketDataConnector.Subscribe (MarketDataService.new.AddListener 1)
      (List.replicate 10 [marketDataLine "BONDNO1" "99-000" "100" "BID",
        marketDataLine "BONDNO1" "99-080" "100" "OFFER"]).flatten).map
      (fun r => r.2.1.map (fun b => (b.product.GetProductId, b.bidStack.length,
        b.offerStack.length))) = some [("BONDNO1", 10, 10)] ∧
    (MarketDataConnector.Subscribe (MarketDataService.new.AddListener 1)
      (List.replicate 10 [marketDataLine "BONDNO1" "99-000" "100" "BID",
        marketDataLine "BONDNO1" "99-080" "100" "OFFER"]).flatten).map
      (fun r => r.2.2.map Prod.fst) = some [1] ∧
    (MarketDataConnector.Subscribe (MarketDataService.new.AddListener 1)
      (List.replicate 10 [marketDataLine "BONDNO1" "99-000" "100" "BID",
        marketDataLine "BONDNO1" "99-080" "100" "OFFER"]).flatten).map
      (fun r => r.2.1.map OrderBook.GetBidOffer) =
      some [some ⟨⟨99, 100, PricingSide.BID⟩, ⟨99 + 8 / 32, 100, PricingSide.OFFER⟩⟩] := by
  decide!

/-! ## Failing requests -/

theorem GetBidOfferOutcome_toOption (b : OrderBook) :
    b.GetBidOfferOutcome.toOption = b.GetBidOffer := by
  obtain ⟨product, bids, offers⟩ := b
  cases bids <;> cases offers <;> rfl

/-- Counterexample to C22: on a book with an empty bid stack (and on one with an empty
offer stack) `GetBidOffer` reads `stack[0]` unchecked; the outcome is undefined
behaviour, not a failure, and likewise through `GetBestBidOffer`. -/
theorem GetBidOffer_empty_stack_unchecked :
    (OrderBook.mk (FetchBond "BONDNO1") [] [⟨100, 1, PricingSide.OFFER⟩]).GetBidOfferOutcome =
      Outcome.undefined ∧
    (OrderBook.mk (FetchBond "BONDNO1") [] [⟨100, 1, PricingSide.OFFER⟩]).GetBidOfferOutcome ≠
      Outcome.throws ∧
    (OrderBook.mk (FetchBond "BONDNO1") [⟨99, 1, PricingSide.BID⟩] []).GetBidOfferOutcome ≠
      Outcome.throws ∧
    (MarketDataService.new.OnMessage
      (OrderBook.mk (FetchBond "BONDNO1") [] [⟨100, 1, PricingSide.OFFER⟩])).1.GetBestBidOfferOutcome
        "BONDNO1" ≠ Outcome.throws := by
  refine ⟨rfl, ?_, ?_, ?_⟩
  · intro h; cases h
  · intro h; cases h
  · intro h
    have : (MarketDataService.new.OnMessage
      (OrderBook.mk (FetchBond "BONDNO1") [] [⟨100, 1, PricingSide.OFFER⟩])).1.GetBestBidOfferOutcome
        "BONDNO1" = Outcome.undefined := by decide
    rw [this] at h
    cases h

/-- C22 as amended: for every book with both stacks non-empty `GetBidOffer` returns a
`BidOffer`, and so does `GetBestBidOffer` on a service storing the book; for every
book with an empty bid or offer stack the request has no defined result: the unchecked
read `stack[0]` is undefined behaviour and no failure is signalled. -/
theorem GetBidOffer_outcome (b : OrderBook) :
    ((b.bidStack ≠ [] ∧ b.offerStack ≠ []) ↔
      ∃ bo : BidOffer, b.GetBidOfferOutcome = Outcome.value bo ∧ b.GetBidOffer = some bo) ∧
    ((b.bidStack = [] ∨ b.offerStack = []) ↔
      b.GetBidOfferOutcome = Outcome.undefined ∧ b.GetBidOffer = none) ∧
    b.GetBidOfferOutcome ≠ Outcome.throws ∧
    (∀ (s : MarketDataService) (productId : String),
      s.order_books_.find productId = some b →
        s.GetBestBidOfferOutcome productId = b.GetBidOfferOutcome ∧
        s.GetBestBidOffer productId = b.GetBidOffer) := by
  obtain ⟨product, bids, offers⟩ := b
  refine ⟨?_, ?_, ?_, ?_⟩
  · cases bids <;> cases offers <;>
      simp [OrderBook.GetBidOfferOutcome, OrderBook.GetBidOffer]
  · cases bids <;> cases offers <;>
      simp [OrderBook.GetBidOfferOutcome, OrderBook.GetBidOffer]
  · cases bids <;> cases offers <;> simp [OrderBook.GetBidOfferOutcome]
  · intro s productId h
    simp [MarketDataService.GetBestBidOfferOutcome, MarketDataService.GetBestBidOffer, h]

/-- C23: `GetData` of `MarketDataService`, `ExecutionService` and
`TradeBookingService` is `at` on the store: for a key that is not stored it throws and
leaves the service as it was (no entry is created), and for a stored key it returns
the stored value and leaves the service as it was. -/
theorem GetData_at (key : String) :
    (∀ s : MarketDataService,
      (s.GetDataCall key).1.order_books_ = s.order_books_ ∧
      (s.order_books_.find key = none → (s.GetDataCall key).2 = Outcome.throws) ∧
      (∀ v, s.order_books_.find key = some v → (s.GetDataCall key).2 = Outcome.value v) ∧
      ((s.GetDataCall key).2).toOption = s.GetData key) ∧
    (∀ s : ExecutionService,
      (s.GetData key).1 = s ∧
      (s.execution_orders_.find key = none → (s.GetData key).2 = Outcome.throws) ∧
      (∀ v, s.execution_orders_.find key = some v → (s.GetData key).2 = Outcome.value v)) ∧
    (∀ s : TradeBookingService,
      (s.GetData key).1 = s ∧
      (s.trades_.find key = none → (s.GetData key).2 = Outcome.throws) ∧
      (∀ v, s.trades_.find key = some v → (s.GetData key).2 = Outcome.value v)) := by
  refine ⟨fun s => ⟨rfl, ?_, ?_, ?_⟩, fun s => ⟨rfl, ?_, ?_⟩, fun s => ⟨rfl, ?_, ?_⟩⟩
  · intro h; simp [MarketDataService.GetDataCall, UMap.atKey, h]
  · intro v h; simp [MarketDataService.GetDataCall, UMap.atKey, h]
  · cases h : s.order_books_.find key <;>
      simp [MarketDataService.GetDataCall, MarketDataService.GetData, UMap.atKey, h,
        Outcome.toOption]
  · intro h; simp [ExecutionService.GetData, UMap.atKey, h]
  · intro v h; simp [ExecutionService.GetData, UMap.atKey, h]
  · intro h; simp [TradeBookingService.GetData, UMap.atKey, h]
  · intro v h; simp [TradeBookingService.GetData, UMap.atKey, h]

/-- The three `GetData` on fresh services and after one `OnMessage`. -/
theorem GetData_at_example :
    (MarketDataService.new.GetDataCall "BONDNO1").2 = Outcome.throws ∧
    ((MarketDataService.new.OnMessage tiedBook).1.GetDataCall "BONDNO1").2 =
      Outcome.value tiedBook ∧
    (ExecutionService.new.GetData "BONDNO1") = (ExecutionService.new, Outcome.throws) ∧
    ((ExecutionService.new.OnMessage sampleOrder).1.GetData "BONDNO1").2 =
      Outcome.value sampleOrder ∧
    (TradeBookingService.new.GetData "T1") = (TradeBookingService.new, Outcome.throws) ∧
    ((TradeBookingService.new.OnMessage sampleTrade).1.GetData "T1").2 =
      Outcome.value sampleTrade := by
  decide!

/-- C24: in the book `AggregateDepth` produces for a stored product, every order of
the bid stack and every order of the offer stack has side BID, whatever the sides of
the original orders and the iteration order of the internal map. -/
theorem AggregateDepth_all_bid (ord : IterOrder) (s : MarketDataService) (productId : String)
    (b : OrderBook) (h : s.order_books_.find productId = some b) :
    ∃ (s' : MarketDataService) (r : OrderBook),
      s.AggregateDepth ord productId = some (s', r) ∧
      s'.GetData productId = some r ∧
      (∀ o ∈ r.bidStack, o.side = PricingSide.BID) ∧
      (∀ o ∈ r.offerStack, o.side = PricingSide.BID) := by
  refine ⟨_, _, AggregateDepth_eq ord s productId b h, ?_, ?_, ?_⟩
  · simp [MarketDataService.GetData, UMap.find_assign]
  · intro o ho
    have := ((AggregateStack_mem ord b.bidStack o).1 ho).2
    rw [this]
  · intro o ho
    have := ((AggregateStack_mem ord b.offerStack o).1 ho).2
    rw [this]

/-- Witness for C24: the tied book, whose offers carry side OFFER. -/
theorem AggregateDepth_all_bid_witness :
    tiedService.order_books_.find "BONDNO1" = some tiedBook ∧
    (∀ o ∈ tiedBook.offerStack, o.side = PricingSide.OFFER) ∧
    ∃ (s' : MarketDataService) (r : OrderBook),
      tiedService.AggregateDepth IterOrder.insertion "BONDNO1" = some (s', r) ∧
      s'.GetData "BONDNO1" = some r ∧
      (∀ o ∈ r.bidStack, o.side = PricingSide.BID) ∧
      (∀ o ∈ r.offerStack, o.side = PricingSide.BID) :=
  ⟨rfl, by simp [tiedBook],
    AggregateDepth_all_bid IterOrder.insertion tiedService "BONDNO1" tiedBook rfl⟩


/-! ## Inquiry frame conditions -/

/-- C26: for every inquiry in state DONE, REJECTED or CUSTOMER_REJECTED, `OnMessage`
returns and is a no-op: the service (store and listeners) is unchanged, so the inquiry
is neither inserted nor does it replace an entry with its id, the inquiry itself is
unchanged, and no listener is called. -/
theorem OnMessage_terminal_noop (s : InquiryService) (data : Inquiry) (fuel : Nat)
    (hfuel : 1 ≤ fuel)
    (hstate : data.state = InquiryState.DONE ∨ data.state = InquiryState.REJECTED ∨
      data.state = InquiryState.CUSTOMER_REJECTED) :
    s.OnMessage fuel data = some (s, data, []) := by
  obtain ⟨n, rfl⟩ : ∃ n, fuel = n + 1 := ⟨fuel - 1, by omega⟩
  apply OnMessage_terminal
  · rcases hstate with h | h | h <;> simp [h]
  · rcases hstate with h | h | h <;> simp [h]

/-- Witness for C26: a REJECTED message with the id of a stored DONE inquiry, and a
CUSTOMER_REJECTED message on an empty service. -/
theorem OnMessage_terminal_noop_witness :
    (1 ≤ 2) ∧
    ((sampleInquiry InquiryState.REJECTED).state = InquiryState.DONE ∨
      (sampleInquiry InquiryState.REJECTED).state = InquiryState.REJECTED ∨
      (sampleInquiry InquiryState.REJECTED).state = InquiryState.CUSTOMER_REJECTED) ∧
    (InquiryService.mk [("INQ1", sampleInquiry InquiryState.DONE)] [1]).OnMessage 2
      (sampleInquiry InquiryState.REJECTED) =
      some (InquiryService.mk [("INQ1", sampleInquiry InquiryState.DONE)] [1],
        sampleInquiry InquiryState.REJECTED, []) :=
  ⟨by decide, Or.inr (Or.inl rfl),
    OnMessage_terminal_noop (InquiryService.mk [("INQ1", sampleInquiry InquiryState.DONE)] [1])
      (sampleInquiry InquiryState.REJECTED) 2 (by decide) (Or.inr (Or.inl rfl))⟩

/-- C29: the quote cycle changes nothing but the state. For every inquiry `q` in
state RECEIVED, `OnMessage(q)` returns; the inquiry stored under `q`'s id and the
inquiry delivered to each listener have `q`'s inquiry id, product, side, quantity and
price, and state DONE. -/
theorem OnMessage_cycle_keeps_fields (s : InquiryService) (q : Inquiry) (fuel : Nat)
    (hfuel : 2 ≤ fuel) (hstate : q.state = InquiryState.RECEIVED) :
    ∃ (s' : InquiryService) (q' : Inquiry) (calls : List (ListenerId × Inquiry)),
      s.OnMessage fuel q = some (s', q', calls) ∧
      s'.inquiries_.find q.inquiryId =
        some ⟨q.inquiryId, q.product, q.side, q.quantity, q.price, InquiryState.DONE⟩ ∧
      calls.map Prod.fst = s.listeners_ ∧
      (∀ c ∈ calls, c.2.inquiryId = q.inquiryId ∧ c.2.product = q.product ∧
        c.2.side = q.side ∧ c.2.quantity = q.quantity ∧ c.2.price = q.price ∧
        c.2.state = InquiryState.DONE) := by
  obtain ⟨n, rfl⟩ : ∃ n, fuel = n + 2 := ⟨fuel - 2, by omega⟩
  refine ⟨_, _, _, OnMessage_cycle n s q (Or.inl hstate), ?_, fanout_listeners _ _, ?_⟩
  · simp [UMap.find_assign, Inquiry.SetState]
  · intro c hc
    rw [mem_fanout _ _ c hc]
    simp [Inquiry.SetState]

/-- Witness for C29: the sample inquiry (price 100) on a service with two listeners. -/
theorem OnMessage_cycle_keeps_fields_witness :
    (2 ≤ 2) ∧ (sampleInquiry InquiryState.RECEIVED).state = InquiryState.RECEIVED ∧
    ∃ (s' : InquiryService) (q' : Inquiry) (calls : List (ListenerId × Inquiry)),
      (InquiryService.mk [] [1, 2]).OnMessage 2 (sampleInquiry InquiryState.RECEIVED) =
        some (s', q', calls) ∧
      s'.inquiries_.find "INQ1" =
        some ⟨"INQ1", FetchBond "BONDNO1", Side.BUY, 1000000, 100, InquiryState.DONE⟩ ∧
      calls.map Prod.fst = [1, 2] ∧
      (∀ c ∈ calls, c.2.inquiryId = "INQ1" ∧ c.2.product = FetchBond "BONDNO1" ∧
        c.2.side = Side.BUY ∧ c.2.quantity = 1000000 ∧ c.2.price = 100 ∧
        c.2.state = InquiryState.DONE) :=
  ⟨by decide, rfl,
    OnMessage_cycle_keeps_fields (InquiryService.mk [] [1, 2])
      (sampleInquiry InquiryState.RECEIVED) 2 (by decide) rfl⟩

/-! ## Reference tables -/

/-- C27: the two reference tables agree. `FetchCusip` maps the maturities 2, 3, 5,
7, 10, 20, 30 to "BONDNO1" .. "BONDNO7", and for each of them `FetchBond` of that
identifier is the bond `FetchBond` of the maturity returns: same product id, ticker
"US" + maturity + "Y" and maturity date. -/
theorem reference_tables_consistent :
    [2, 3, 5, 7, 10, 20, 30].map FetchCusip =
      ["BONDNO1", "BONDNO2", "BONDNO3", "BONDNO4", "BONDNO5", "BONDNO6", "BONDNO7"] ∧
    [2, 3, 5, 7, 10, 20, 30].map (fun m => FetchBond (FetchCusip m)) =
      [2, 3, 5, 7, 10, 20, 30].map FetchBondByMaturity ∧
    [2, 3, 5, 7, 10, 20, 30].map (fun m => (FetchBondByMaturity m).ticker) =
      ["US2Y", "US3Y", "US5Y", "US7Y", "US10Y", "US20Y", "US30Y"] ∧
    [2, 3, 5, 7, 10, 20, 30].map (fun m => ((FetchBond (FetchCusip m)).productId,
        (FetchBond (FetchCusip m)).ticker, (FetchBond (FetchCusip m)).maturityDate)) =
      [2, 3, 5, 7, 10, 20, 30].map (fun m => ((FetchBondByMaturity m).productId,
        (FetchBondByMaturity m).ticker, (FetchBondByMaturity m).maturityDate)) := by
  decide!


/-! ## Pricing to streaming -/

/-- C30: for every price line whose second and third entries parse to the bid price
`b` and the offer price `o`, `PricingConnector::Subscribe` passes to `OnMessage` (and
so to every listener) a `Price` with mid `(b + o) / 2` and spread `o - b`, and the
stream `AlgoPublishPrice` stores and sends for that price has bid price `b` and offer
price `o` (exact arithmetic). -/
theorem pricing_to_streaming_round_trip (svc : PricingService) (s : AlgoStreamingService)
    (line pid e1 e2 : List Char) (b o : ℚ)
    (h0 : (getlineSplit ',' line [])[0]? = some pid)
    (h1 : (getlineSplit ',' line [])[1]? = some e1)
    (h2 : (getlineSplit ',' line [])[2]? = some e2)
    (hb : ConvertPrice e1 = some b) (ho : ConvertPrice e2 = some o) :
    ∃ price : Price,
      PricingConnector.Subscribe svc [line] =
        some (svc, [price], svc.listeners_.map (fun l => (l, price))) ∧
      price.product = FetchBond (String.mk pid) ∧
      price.mid = (b + o) / 2 ∧ price.bidOfferSpread = o - b ∧
      ∃ st : AlgoStream,
        (s.AlgoPublishPrice price).2 = s.listeners_.map (fun l => (l, st)) ∧
        (s.AlgoPublishPrice price).1.algo_streams_.find (String.mk pid) = some st ∧
        st.price_stream_.bidOrder.price = b ∧ st.price_stream_.offerOrder.price = o := by
  refine ⟨⟨FetchBond (String.mk pid), (b + o) / 2, o - b⟩, ?_, rfl, rfl, rfl, _,
    congrArg Prod.snd (AlgoPublishPrice_eq s _), ?_, ?_, ?_⟩
  · simp [PricingConnector.Subscribe, PricingConnector.step, h0, h1, h2, hb, ho,
      PricingService.OnMessage, fanout]
  · simp [AlgoPublishPrice_eq, UMap.find_assign, FetchBond, Bond.GetProductId]
  · simp only [AlgoStream.new]; ring
  · simp only [AlgoStream.new]; ring

/-- Witness for C30: the line "BONDNO1,99-160,99-170". -/
theorem pricing_to_streaming_round_trip_witness :
    (getlineSplit ',' "BONDNO1,99-160,99-170".toList [])[0]? = some "BONDNO1".toList ∧
    (getlineSplit ',' "BONDNO1,99-160,99-170".toList [])[1]? = some "99-160".toList ∧
    (getlineSplit ',' "BONDNO1,99-160,99-170".toList [])[2]? = some "99-170".toList ∧
    ConvertPrice "99-160".toList = some (99 + 16 / 32) ∧
    ConvertPrice "99-170".toList = some (99 + 17 / 32) ∧
    ∃ price : Price,
      PricingConnector.Subscribe (PricingService.new.AddListener 1)
          ["BONDNO1,99-160,99-170".toList] =
        some (PricingService.new.AddListener 1, [price],
          (PricingService.new.AddListener 1).listeners_.map (fun l => (l, price))) ∧
      price.product = FetchBond (String.mk "BONDNO1".toList) ∧
      price.mid = ((99 + 16 / 32) + (99 + 17 / 32)) / 2 ∧
      price.bidOfferSpread = (99 + 17 / 32) - (99 + 16 / 32) ∧
      ∃ st : AlgoStream,
        ((AlgoStreamingService.fresh [7]).AlgoPublishPrice price).2 =
          (AlgoStreamingService.fresh [7]).listeners_.map (fun l => (l, st)) ∧
        ((AlgoStreamingService.fresh [7]).AlgoPublishPrice price).1.algo_streams_.find
          (String.mk "BONDNO1".toList) = some st ∧
        st.price_stream_.bidOrder.price = 99 + 16 / 32 ∧
        st.price_stream_.offerOrder.price = 99 + 17 / 32 :=
  ⟨by decide, by decide, by decide, by decide!, by decide!,
    pricing_to_streaming_round_trip (PricingService.new.AddListener 1)
      (AlgoStreamingService.fresh [7]) "BONDNO1,99-160,99-170".toList "BONDNO1".toList
      "99-160".toList "99-170".toList (99 + 16 / 32) (99 + 17 / 32)
      (by decide) (by decide) (by decide) (by decide!) (by decide!)⟩

/-! ## GUI throttle -/

theorem UMap.mem_assign {K V : Type} [DecidableEq K] (m : UMap K V) (k : K) (v : V)
    (e : K × V) (h : e ∈ UMap.assign m k v) : e.2 = v ∨ e ∈ m := by
  induction m with
  | nil =>
    simp only [UMap.assign, List.mem_singleton] at h
    left; rw [h]
  | cons a m ih =>
    obtain ⟨a1, a2⟩ := a
    by_cases hak : a1 = k
    · simp only [UMap.assign, hak, if_true, List.mem_cons] at h
      rcases h with h | h
      · left; rw [h]
      · right; exact List.mem_cons_of_mem _ h
    · simp only [UMap.assign, hak, if_false, List.mem_cons] at h
      rcases h with h | h
      · right; rw [h]; exact List.mem_cons_self _ _
      · rcases ih h with h' | h'
        · left; exact h'
        · right; exact List.mem_cons_of_mem _ h'

theorem UMap.mem_of_find {K V : Type} [DecidableEq K] (m : UMap K V) (k : K) (v : V)
    (h : UMap.find m k = some v) : ∃ e ∈ m, e.2 = v := by
  induction m with
  | nil => simp [UMap.find] at h
  | cons a m ih =>
    obtain ⟨a1, a2⟩ := a
    by_cases hak : a1 = k
    · simp only [UMap.find, hak, if_true, Option.some.injEq] at h
      exact ⟨(a1, a2), List.mem_cons_self _ _, h⟩
    · simp only [UMap.find, hak, if_false] at h
      obtain ⟨e, he, hv⟩ := ih h
      exact ⟨e, List.mem_cons_of_mem _ he, hv⟩

theorem run_invariant (calls : List InquiryCall) :
    ∀ (s s' : InquiryService) (trace : List (ListenerId × Inquiry)),
      (∀ e ∈ s.inquiries_, e.2.state = InquiryState.DONE ∨ e.2.state = InquiryState.REJECTED) →
      s.run calls = some (s', trace) →
      (∀ e ∈ s'.inquiries_, e.2.state = InquiryState.DONE ∨
        e.2.state = InquiryState.REJECTED) ∧
      (∀ c ∈ trace, c.2.state = InquiryState.DONE) := by
  induction calls with
  | nil =>
    intro s s' trace hinv hrun
    simp only [InquiryService.run, Option.some.injEq, Prod.mk.injEq] at hrun
    obtain ⟨rfl, rfl⟩ := hrun
    exact ⟨hinv, by intro c hc; cases hc⟩
  | cons call rest ih =>
    intro s s' trace hinv hrun
    cases call with
    | onMessage data =>
      by_cases hq : data.state = InquiryState.RECEIVED ∨ data.state = InquiryState.QUOTED
      · have hstep := OnMessage_cycle 0 s data hq
        simp only [InquiryService.run, hstep] at hrun
        cases hrest : InquiryService.run
            ⟨s.inquiries_.assign data.inquiryId (data.SetState InquiryState.DONE),
              s.listeners_⟩ rest with
        | none => simp [hrest] at hrun
        | some r' =>
          simp only [hrest, Option.some.injEq, Prod.mk.injEq] at hrun
          obtain ⟨rfl, rfl⟩ := hrun
          have hinv' : ∀ e ∈ UMap.assign s.inquiries_ data.inquiryId
              (data.SetState InquiryState.DONE),
              e.2.state = InquiryState.DONE ∨ e.2.state = InquiryState.REJECTED := by
            intro e he
            rcases UMap.mem_assign _ _ _ e he with h | h
            · left; rw [h]; rfl
            · exact hinv e h
          obtain ⟨h1, h2⟩ := ih _ r'.1 r'.2 hinv' hrest
          refine ⟨h1, ?_⟩
          intro c hc
          rcases List.mem_append.1 hc with hc | hc
          · rw [mem_fanout _ _ c hc]; rfl
          · exact h2 c hc
      · have h1 : data.state ≠ InquiryState.RECEIVED := fun h => hq (Or.inl h)
        have h2 : data.state ≠ InquiryState.QUOTED := fun h => hq (Or.inr h)
        have hstep := OnMessage_terminal 1 s data h1 h2
        simp only [InquiryService.run, hstep] at hrun
        cases hrest : InquiryService.run s rest with
        | none => simp [hrest] at hrun
        | some r' =>
          simp only [hrest, Option.some.injEq, Prod.mk.injEq] at hrun
          obtain ⟨rfl, rfl⟩ := hrun
          obtain ⟨h3, h4⟩ := ih _ r'.1 r'.2 hinv hrest
          exact ⟨h3, by simpa using h4⟩
    | rejectInquiry inquiryId =>
      cases hfind : s.inquiries_.find inquiryId with
      | none => simp [InquiryService.run, InquiryService.RejectInquiry, hfind] at hrun
      | some inq =>
        simp only [InquiryService.run, InquiryService.RejectInquiry, hfind] at hrun
        cases hrest : InquiryService.run
            ⟨s.inquiries_.assign inquiryId (inq.SetState InquiryState.REJECTED),
              s.listeners_⟩ rest with
        | none => simp [hrest] at hrun
        | some r' =>
          simp only [hrest, Option.some.injEq, Prod.mk.injEq] at hrun
          obtain ⟨rfl, rfl⟩ := hrun
          have hinv' : ∀ e ∈ UMap.assign s.inquiries_ inquiryId
              (inq.SetState InquiryState.REJECTED),
              e.2.state = InquiryState.DONE ∨ e.2.state = InquiryState.REJECTED := by
            intro e he
            rcases UMap.mem_assign _ _ _ e he with h | h
            · right; rw [h]; rfl
            · exact hinv e h
          obtain ⟨h1, h2⟩ := ih _ r'.1 r'.2 hinv' hrest
          exact ⟨h1, by simpa using h2⟩

/-- A sequence made of `OnMessage` calls only always returns: `OnMessage` has a result
for every inquiry, with room for its one nested call. -/
theorem run_onMessage_defined (datas : List Inquiry) :
    ∀ s : InquiryService, ∃ r, s.run (datas.map InquiryCall.onMessage) = some r := by
  induction datas with
  | nil => intro s; exact ⟨_, rfl⟩
  | cons d ds ih =>
    intro s
    by_cases hq : d.state = InquiryState.RECEIVED ∨ d.state = InquiryState.QUOTED
    · obtain ⟨r, hr⟩ := ih ⟨s.inquiries_.assign d.inquiryId (d.SetState InquiryState.DONE),
        s.listeners_⟩
      refine ⟨(r.1, fanout s.listeners_ (d.SetState InquiryState.DONE) ++ r.2), ?_⟩
      simp only [List.map_cons, InquiryService.run, OnMessage_cycle 0 s d hq, hr]
    · have h1 : d.state ≠ InquiryState.RECEIVED := fun h => hq (Or.inl h)
      have h2 : d.state ≠ InquiryState.QUOTED := fun h => hq (Or.inr h)
      obtain ⟨r, hr⟩ := ih s
      refine ⟨(r.1, [] ++ r.2), ?_⟩
      simp only [List.map_cons, InquiryService.run, OnMessage_terminal 1 s d h1 h2, hr]

/-- C28: starting from an empty `InquiryService` (with any listeners), after any
finite sequence of `OnMessage` calls, with inquiries in arbitrary states, and
`RejectInquiry` calls, every stored inquiry has state DONE or REJECTED, and every
`ProcessAdd` call made along the way carried an inquiry in state DONE. -/
theorem inquiry_store_invariant (ls : List ListenerId) (calls : List InquiryCall)
    (s' : InquiryService) (trace : List (ListenerId × Inquiry))
    (hrun : (InquiryService.mk [] ls).run calls = some (s', trace)) :
    (∀ e ∈ s'.inquiries_, e.2.state = InquiryState.DONE ∨ e.2.state = InquiryState.REJECTED) ∧
    (∀ c ∈ trace, c.2.state = InquiryState.DONE) :=
  run_invariant calls (InquiryService.mk [] ls) s' trace (by intro e he; cases he) hrun

/-- Witness for C28: the five sample calls leave "INQ1" REJECTED and "INQ2" DONE and
notify the listener twice, each time with a DONE inquiry. -/
theorem inquiry_store_invariant_witness :
    (InquiryService.mk [] [1]).run sampleCalls =
      some (⟨[("INQ1", sampleInquiry InquiryState.REJECTED),
          ("INQ2", ⟨"INQ2", FetchBond "BONDNO2", Side.SELL, 5, 99, InquiryState.DONE⟩)], [1]⟩,
        [(1, sampleInquiry InquiryState.DONE),
          (1, ⟨"INQ2", FetchBond "BONDNO2", Side.SELL, 5, 99, InquiryState.DONE⟩)]) ∧
    (∀ e ∈ [("INQ1", sampleInquiry InquiryState.REJECTED),
        ("INQ2", (⟨"INQ2", FetchBond "BONDNO2", Side.SELL, 5, 99, InquiryState.DONE⟩ : Inquiry))],
      e.2.state = InquiryState.DONE ∨ e.2.state = InquiryState.REJECTED) ∧
    (∀ c ∈ [((1 : ListenerId), sampleInquiry InquiryState.DONE),
        (1, ⟨"INQ2", FetchBond "BONDNO2", Side.SELL, 5, 99, InquiryState.DONE⟩)],
      c.2.state = InquiryState.DONE) :=
  have hrun : (InquiryService.mk [] [1]).run sampleCalls =
      some (⟨[("INQ1", sampleInquiry InquiryState.REJECTED),
          ("INQ2", ⟨"INQ2", FetchBond "BONDNO2", Side.SELL, 5, 99, InquiryState.DONE⟩)], [1]⟩,
        [(1, sampleInquiry InquiryState.DONE),
          (1, ⟨"INQ2", FetchBond "BONDNO2", Side.SELL, 5, 99, InquiryState.DONE⟩)]) := by
    decide!
  ⟨hrun, inquiry_store_invariant [1] sampleCalls _ _ hrun⟩


/-! ## Grouping of market data lines -/

theorem step_eq_parseLine (read_lines : Int) (st : SubscribeState) (line : List Char) :
    MarketDataConnector.step read_lines st line =
      match MarketDataConnector.parseLine line with
      | none => none
      | some po =>
        if (((st.order_count + 1) % 4294967296 : Nat) : Int) = read_lines % 4294967296 then
          some ⟨(st.service_.OnMessage ⟨FetchBond (String.mk po.1),
              if po.2.side = PricingSide.BID then st.bid_stack ++ [po.2] else st.bid_stack,
              if po.2.side = PricingSide.BID then st.offer_stack
                else st.offer_stack ++ [po.2]⟩).1, [], [], 0,
            st.published ++ [⟨FetchBond (String.mk po.1),
              if po.2.side = PricingSide.BID then st.bid_stack ++ [po.2] else st.bid_stack,
              if po.2.side = PricingSide.BID then st.offer_stack
                else st.offer_stack ++ [po.2]⟩],
            st.calls ++ (st.service_.OnMessage ⟨FetchBond (String.mk po.1),
              if po.2.side = PricingSide.BID then st.bid_stack ++ [po.2] else st.bid_stack,
              if po.2.side = PricingSide.BID then st.offer_stack
                else st.offer_stack ++ [po.2]⟩).2⟩
        else
          some ⟨st.service_,
            if po.2.side = PricingSide.BID then st.bid_stack ++ [po.2] else st.bid_stack,
            if po.2.side = PricingSide.BID then st.offer_stack else st.offer_stack ++ [po.2],
            (st.order_count + 1) % 4294967296, st.published, st.calls⟩ := by
  unfold MarketDataConnector.step MarketDataConnector.parseLine
  cases h0 : (getlineSplit ',' line [])[0]? with
  | none => simp [h0]
  | some pid =>
    cases h1 : (getlineSplit ',' line [])[1]? with
    | none => simp [h0, h1]
    | some e1 =>
      cases hp : ConvertPrice e1 with
      | none => simp [h0, h1, hp]
      | some price =>
        cases h2 : (getlineSplit ',' line [])[2]? with
        | none => simp [h0, h1, h2, hp]
        | some e2 =>
          cases hq : stol e2 with
          | none => simp [h0, h1, h2, hp, hq]
          | some quantity =>
            cases h3 : (getlineSplit ',' line [])[3]? with
            | none => simp [h0, h1, h2, h3, hp, hq]
            | some e3 =>
              by_cases hside : e3 = "BID".toList
              · simp [h0, h1, h2, h3, hp, hq, hside]
              · have hside' : ¬ e3 = ['B', 'I', 'D'] := hside
                simp [h0, h1, h2, h3, hp, hq, hside']

theorem loop_append (read_lines : Int) (a b : List (List Char)) :
    ∀ st : SubscribeState,
      MarketDataConnector.loop read_lines (a ++ b) st =
        (MarketDataConnector.loop read_lines a st).bind (MarketDataConnector.loop read_lines b) := by
  induction a with
  | nil => intro st; simp [MarketDataConnector.loop]
  | cons l a ih =>
    intro st
    cases h : MarketDataConnector.step read_lines st l with
    | none => simp [MarketDataConnector.loop, h]
    | some st' => simp [MarketDataConnector.loop, h, ih]

theorem loop_accumulate (ls : List (List Char)) :
    ∀ st : SubscribeState, (∀ l ∈ ls, (MarketDataConnector.parseLine l).isSome) →
      st.order_count + ls.length < 20 →
      MarketDataConnector.loop 20 ls st =
        some ⟨st.service_,
          st.bid_stack ++ ((ls.filterMap MarketDataConnector.parseLine).map Prod.snd).filter
            (fun o => o.side = PricingSide.BID),
          st.offer_stack ++ ((ls.filterMap MarketDataConnector.parseLine).map Prod.snd).filter
            (fun o => ¬ o.side = PricingSide.BID),
          st.order_count + ls.length, st.published, st.calls⟩ := by
  induction ls with
  | nil => intro st _ _; simp [MarketDataConnector.loop]
  | cons l ls ih =>
    intro st hwf hlen
    have hl := hwf l (List.mem_cons_self _ _)
    obtain ⟨po, hpo⟩ := Option.isSome_iff_exists.1 hl
    simp only [List.length_cons] at hlen
    have hmod : (st.order_count + 1) % 4294967296 = st.order_count + 1 := by omega
    have hne : ¬ (((st.order_count + 1 : Nat) : Int) = 20 % 4294967296) := by omega
    have hstep := step_eq_parseLine 20 st l
    simp only [hpo, hmod, hne, if_false] at hstep
    simp only [MarketDataConnector.loop, hstep]
    rw [ih _ (fun x hx => hwf x (List.mem_cons_of_mem _ hx)) (by simp only; omega)]
    by_cases hside : po.2.side = PricingSide.BID
    · simp [hpo, hside, List.filter_cons, Nat.add_assoc, Nat.add_comm 1]
    · simp [hpo, hside, List.filter_cons, Nat.add_assoc, Nat.add_comm 1]

theorem loop_flush (chunk : List (List Char)) (svc : MarketDataService)
    (published : List OrderBook) (calls : List (ListenerId × OrderBook))
    (hwf : ∀ l ∈ chunk, (MarketDataConnector.parseLine l).isSome)
    (hlen : chunk.length = 20) :
    MarketDataConnector.loop 20 chunk ⟨svc, [], [], 0, published, calls⟩ =
      some ⟨(svc.OnMessage (MarketDataConnector.bookOf chunk)).1, [], [], 0,
        published ++ [MarketDataConnector.bookOf chunk],
        calls ++ (svc.OnMessage (MarketDataConnector.bookOf chunk)).2⟩ := by
  have hne : chunk ≠ [] := by intro h; rw [h] at hlen; cases hlen
  obtain ⟨init, line, rfl⟩ : ∃ init line, chunk = init ++ [line] :=
    ⟨chunk.dropLast, chunk.getLast hne, (List.dropLast_append_getLast hne).symm⟩
  have hinit : init.length = 19 := by simpa using hlen
  have hl := hwf line (by simp)
  obtain ⟨po, hpo⟩ := Option.isSome_iff_exists.1 hl
  rw [loop_append, loop_accumulate init _ (fun x hx => hwf x (by simp [hx]))
    (by simp only; omega)]
  have hstep := step_eq_parseLine 20
    ⟨svc, [] ++ ((init.filterMap MarketDataConnector.parseLine).map Prod.snd).filter
        (fun o => o.side = PricingSide.BID),
      [] ++ ((init.filterMap MarketDataConnector.parseLine).map Prod.snd).filter
        (fun o => ¬ o.side = PricingSide.BID), 0 + init.length, published, calls⟩ line
  have hcount : (((0 + init.length + 1) % 4294967296 : Nat) : Int) = 20 % 4294967296 := by
    rw [hinit]; decide
  simp only [hpo, hcount, if_true] at hstep
  simp only [Option.some_bind, MarketDataConnector.loop, hstep]
  have hbook : MarketDataConnector.bookOf (init ++ [line]) =
      ⟨FetchBond (String.mk po.1),
        if po.2.side = PricingSide.BID then
          ([] ++ ((init.filterMap MarketDataConnector.parseLine).map Prod.snd).filter
            (fun o => o.side = PricingSide.BID)) ++ [po.2]
        else [] ++ ((init.filterMap MarketDataConnector.parseLine).map Prod.snd).filter
            (fun o => o.side = PricingSide.BID),
        if po.2.side = PricingSide.BID then
          [] ++ ((init.filterMap MarketDataConnector.parseLine).map Prod.snd).filter
            (fun o => ¬ o.side = PricingSide.BID)
        else ([] ++ ((init.filterMap MarketDataConnector.parseLine).map Prod.snd).filter
            (fun o => ¬ o.side = PricingSide.BID)) ++ [po.2]⟩ := by
    by_cases hside : po.2.side = PricingSide.BID
    · simp [MarketDataConnector.bookOf, List.filterMap_append, hpo, hside, List.filter_append]
    · simp [MarketDataConnector.bookOf, List.filterMap_append, hpo, hside, List.filter_append]
  rw [← hbook]

theorem loop_groups (k : Nat) :
    ∀ (lines : List (List Char)) (svc : MarketDataService) (published : List OrderBook)
      (calls : List (ListenerId × OrderBook)),
      lines.length / 20 = k →
      (∀ l ∈ lines, (MarketDataConnector.parseLine l).isSome) →
      ∃ st : SubscribeState,
        MarketDataConnector.loop 20 lines ⟨svc, [], [], 0, published, calls⟩ = some st ∧
        st.service_.listeners_ = svc.listeners_ ∧
        st.published = published ++ (List.range k).map
          (fun i => MarketDataConnector.bookOf ((lines.drop (20 * i)).take 20)) ∧
        st.calls = calls ++ ((List.range k).map
          (fun i => MarketDataConnector.bookOf ((lines.drop (20 * i)).take 20))).flatMap
            (fun b => svc.listeners_.map (fun l => (l, b))) := by
  induction k with
  | zero =>
    intro lines svc published calls hk hwf
    have hlt : lines.length < 20 := by omega
    exact ⟨_, loop_accumulate lines _ hwf (by simp only; omega), rfl, by simp, by simp⟩
  | succ k ih =>
    intro lines svc published calls hk hwf
    have hge : 20 ≤ lines.length := by omega
    have hsplit : lines = lines.take 20 ++ lines.drop 20 := (List.take_append_drop 20 lines).symm
    have htake : (lines.take 20).length = 20 := by simp [List.length_take]; omega
    have hwf1 : ∀ l ∈ lines.take 20, (MarketDataConnector.parseLine l).isSome :=
      fun l hl => hwf l (List.mem_of_mem_take hl)
    have hwf2 : ∀ l ∈ lines.drop 20, (MarketDataConnector.parseLine l).isSome :=
      fun l hl => hwf l (List.mem_of_mem_drop hl)
    have hk2 : (lines.drop 20).length / 20 = k := by
      simp only [List.length_drop]; omega
    obtain ⟨st, hrun, hls, hpub, hcalls⟩ := ih (lines.drop 20)
      (svc.OnMessage (MarketDataConnector.bookOf (lines.take 20))).1
      (published ++ [MarketDataConnector.bookOf (lines.take 20)])
      (calls ++ (svc.OnMessage (MarketDataConnector.bookOf (lines.take 20))).2) hk2 hwf2
    refine ⟨st, ?_, ?_, ?_, ?_⟩
    · conv_lhs => rw [hsplit]
      rw [loop_append, loop_flush _ svc published calls hwf1 htake]
      exact hrun
    · rw [hls]; rfl
    · rw [hpub, List.range_succ_eq_map]
      simp [List.drop_drop, Nat.mul_succ, Function.comp_def, Nat.add_comm]
    · rw [hcalls, List.range_succ_eq_map]
      simp [List.drop_drop, Nat.mul_succ, Function.comp_def, Nat.add_comm,
        MarketDataService.OnMessage, fanout, List.flatMap_cons]

/-- C21: for every input of `n` lines that all parse, on a service of book depth 10,
`MarketDataConnector::Subscribe` returns and passes exactly `n / 20` order books to
`OnMessage` (each sent once to every listener, in order). The `i`-th book is built
from the lines `20 * i .. 20 * i + 19` only: its bid stack holds the orders of that
group's lines whose side entry is "BID", in input order, and its offer stack the
orders of the group's other lines, in input order. A trailing group of fewer than 20
lines gives no book. -/
theorem Subscribe_groups_of_twenty (svc : MarketDataService) (lines : List (List Char))
    (hdepth : svc.book_depth_ = 10)
    (hwf : ∀ l ∈ lines, (MarketDataConnector.parseLine l).isSome) :
    ∃ (svc' : MarketDataService) (books : List OrderBook)
      (calls : List (ListenerId × OrderBook)),
      MarketDataConnector.Subscribe svc lines = some (svc', books, calls) ∧
      books.length = lines.length / 20 ∧
      (∀ i : Nat, i < lines.length / 20 →
        ∃ b : OrderBook, books[i]? = some b ∧
          b = MarketDataConnector.bookOf ((lines.drop (20 * i)).take 20) ∧
          b.bidStack =
            ((((lines.drop (20 * i)).take 20).filterMap MarketDataConnector.parseLine).map
              Prod.snd).filter (fun o => o.side = PricingSide.BID) ∧
          b.offerStack =
            ((((lines.drop (20 * i)).take 20).filterMap MarketDataConnector.parseLine).map
              Prod.snd).filter (fun o => ¬ o.side = PricingSide.BID)) ∧
      calls = books.flatMap (fun b => svc.listeners_.map (fun l => (l, b))) := by
  obtain ⟨st, hrun, -, hpub, hcalls⟩ := loop_groups (lines.length / 20) lines svc [] [] rfl hwf
  have hrl : svc.book_depth_ * 2 = 20 := by rw [hdepth]; rfl
  refine ⟨st.service_, st.published, st.calls, ?_, ?_, ?_, ?_⟩
  · simp [MarketDataConnector.Subscribe, hrl, hrun]
  · simp [hpub]
  · intro i hi
    refine ⟨MarketDataConnector.bookOf ((lines.drop (20 * i)).take 20), ?_, rfl, rfl, rfl⟩
    simp [hpub, List.getElem?_map, List.getElem?_range hi]
  · rw [hcalls, hpub]
    simp

/-- Witness for C21: 23 lines (the twenty sample lines and three more) give one book,
built from the first twenty. -/
theorem Subscribe_groups_of_twenty_witness :
    MarketDataService.new.book_depth_ = 10 ∧
    (∀ l ∈ twentyLines ++ List.replicate 3 (marketDataLine "BONDNO2" "98-000" "5" "BID"),
      (MarketDataConnector.parseLine l).isSome) ∧
    (twentyLines ++ List.replicate 3 (marketDataLine "BONDNO2" "98-000" "5" "BID")).length = 23 ∧
    ∃ (svc' : MarketDataService) (books : List OrderBook)
      (calls : List (ListenerId × OrderBook)),
      MarketDataConnector.Subscribe MarketDataService.new
        (twentyLines ++ List.replicate 3 (marketDataLine "BONDNO2" "98-000" "5" "BID")) =
        some (svc', books, calls) ∧
      books.length = 1 :=
  have hwf : ∀ l ∈ twentyLines ++ List.replicate 3 (marketDataLine "BONDNO2" "98-000" "5" "BID"),
      (MarketDataConnector.parseLine l).isSome := by decide!
  have h := Subscribe_groups_of_twenty MarketDataService.new
    (twentyLines ++ List.replicate 3 (marketDataLine "BONDNO2" "98-000" "5" "BID")) rfl hwf
  ⟨rfl, hwf, by decide, by
    obtain ⟨svc', books, calls, hrun, hlen, -, -⟩ := h
    exact ⟨svc', books, calls, hrun, by rw [hlen]; decide⟩⟩

/-! ## Top of book under aggregation -/

theorem scanHighest_best (rest : List Order) (b0 : Order) :
    (scanHighest rest (b0, b0.price)).1 ∈ b0 :: rest ∧
      ∀ x ∈ b0 :: rest, x.price ≤ (scanHighest rest (b0, b0.price)).1.price := by
  obtain ⟨m1, m2, heq, hm1, hm2⟩ := scanHighest_split rest [] [] b0
    (by intro x hx; cases hx) (by intro x hx; cases hx)
  have heq' : b0 :: rest = m1 ++ (scanHighest rest (b0, b0.price)).1 :: m2 := by simpa using heq
  constructor
  · rw [heq']; simp
  · intro x hx
    rw [heq'] at hx
    rcases List.mem_append.1 hx with h | h
    · exact le_of_lt (hm1 x h)
    · rcases List.mem_cons.1 h with h | h
      · rw [h]
      · exact hm2 x h

theorem scanLowest_best (rest : List Order) (o0 : Order) :
    (scanLowest rest (o0, o0.price)).1 ∈ o0 :: rest ∧
      ∀ x ∈ o0 :: rest, (scanLowest rest (o0, o0.price)).1.price ≤ x.price := by
  obtain ⟨m1, m2, heq, hm1, hm2⟩ := scanLowest_split rest [] [] o0
    (by intro x hx; cases hx) (by intro x hx; cases hx)
  have heq' : o0 :: rest = m1 ++ (scanLowest rest (o0, o0.price)).1 :: m2 := by simpa using heq
  constructor
  · rw [heq']; simp
  · intro x hx
    rw [heq'] at hx
    rcases List.mem_append.1 hx with h | h
    · exact le_of_lt (hm1 x h)
    · rcases List.mem_cons.1 h with h | h
      · rw [h]
      · exact hm2 x h

/-- The aggregation of a non-empty stack is non-empty. -/
theorem AggregateStack_ne_nil (ord : IterOrder) (stack : List Order) (h : stack ≠ []) :
    AggregateStack ord stack ≠ [] := by
  cases stack with
  | nil => exact absurd rfl h
  | cons o rest =>
    intro hnil
    obtain ⟨v, hv, _⟩ := levelQuantity_none (o :: rest) o.price
      ⟨o, List.mem_cons_self _ _, rfl⟩
    have hmem : (⟨o.price, v, PricingSide.BID⟩ : Order) ∈ AggregateStack ord (o :: rest) :=
      (AggregateStack_mem ord (o :: rest) _).2 ⟨hv, rfl⟩
    rw [hnil] at hmem
    cases hmem

/-- An order of extreme price of the aggregated stack against one of the original stack:
the prices agree when both are maximal, and the quantity is the total at that price
when the total is a `long`. -/
theorem AggregateStack_highest (ord : IterOrder) (stack : List Order) (a r : Order)
    (ha : a ∈ AggregateStack ord stack) (hamax : ∀ x ∈ AggregateStack ord stack, x.price ≤ a.price)
    (hr : r ∈ stack) (hrmax : ∀ x ∈ stack, x.price ≤ r.price) :
    a.price = r.price ∧
      (InLong (quantityAt stack r.price) → a.quantity = quantityAt stack r.price) := by
  obtain ⟨hlq, _⟩ := (AggregateStack_mem ord stack a).1 ha
  obtain ⟨o, ho, hop⟩ := (levelQuantity_isSome stack a.price).1 ⟨_, hlq⟩
  have h1 : a.price ≤ r.price := hop ▸ hrmax o ho
  obtain ⟨v, hv, hin⟩ := levelQuantity_none stack r.price ⟨r, hr, rfl⟩
  have hmem : (⟨r.price, v, PricingSide.BID⟩ : Order) ∈ AggregateStack ord stack :=
    (AggregateStack_mem ord stack _).2 ⟨hv, rfl⟩
  have h2 : r.price ≤ a.price := hamax ⟨r.price, v, PricingSide.BID⟩ hmem
  have hp : a.price = r.price := le_antisymm h1 h2
  refine ⟨hp, fun hI => ?_⟩
  rw [hp, hv] at hlq
  rw [← Option.some.inj hlq]
  exact hin hI

theorem AggregateStack_lowest (ord : IterOrder) (stack : List Order) (a r : Order)
    (ha : a ∈ AggregateStack ord stack) (hamin : ∀ x ∈ AggregateStack ord stack, a.price ≤ x.price)
    (hr : r ∈ stack) (hrmin : ∀ x ∈ stack, r.price ≤ x.price) :
    a.price = r.price ∧
      (InLong (quantityAt stack r.price) → a.quantity = quantityAt stack r.price) := by
  obtain ⟨hlq, _⟩ := (AggregateStack_mem ord stack a).1 ha
  obtain ⟨o, ho, hop⟩ := (levelQuantity_isSome stack a.price).1 ⟨_, hlq⟩
  have h1 : r.price ≤ a.price := hop ▸ hrmin o ho
  obtain ⟨v, hv, hin⟩ := levelQuantity_none stack r.price ⟨r, hr, rfl⟩
  have hmem : (⟨r.price, v, PricingSide.BID⟩ : Order) ∈ AggregateStack ord stack :=
    (AggregateStack_mem ord stack _).2 ⟨hv, rfl⟩
  have h2 : a.price ≤ r.price := hamin ⟨r.price, v, PricingSide.BID⟩ hmem
  have hp : a.price = r.price := le_antisymm h2 h1
  refine ⟨hp, fun hI => ?_⟩
  rw [hp, hv] at hlq
  rw [← Option.some.inj hlq]
  exact hin hI

/-- The best bid and offer of a book with non-empty stacks, with their extremal property. -/
theorem GetBidOffer_extremal (b : OrderBook) (hbid : b.bidStack ≠ []) (hoffer : b.offerStack ≠ []) :
    ∃ bo : BidOffer, b.GetBidOffer = some bo ∧
      bo.bidOrder ∈ b.bidStack ∧ (∀ x ∈ b.bidStack, x.price ≤ bo.bidOrder.price) ∧
      bo.offerOrder ∈ b.offerStack ∧ (∀ x ∈ b.offerStack, bo.offerOrder.price ≤ x.price) := by
  obtain ⟨product, bids, offers⟩ := b
  cases bids with
  | nil => exact absurd rfl hbid
  | cons b0 bs =>
    cases offers with
    | nil => exact absurd rfl hoffer
    | cons o0 os =>
      exact ⟨⟨(scanHighest bs (b0, b0.price)).1, (scanLowest os (o0, o0.price)).1⟩, rfl,
        (scanHighest_best bs b0).1, (scanHighest_best bs b0).2,
        (scanLowest_best os o0).1, (scanLowest_best os o0).2⟩

/-- Counterexample to C31: the quantities are `long` and the sum wraps. In the book
with two bids of 2^62 at the price 100 the total at the best bid price is 2^63, and
the best bid after `AggregateDepth` has the quantity -2^63. -/
theorem AggregateDepth_top_of_book_wraps :
    ((MarketDataService.new.OnMessage overflowBook).1.AggregateDepth IterOrder.insertion
        "BONDNO1").map (fun x => x.2.GetBidOffer) =
      some (some ⟨⟨100, -2 ^ 63, PricingSide.BID⟩, ⟨101, 1, PricingSide.BID⟩⟩) ∧
    (MarketDataService.new.OnMessage overflowBook).1.GetBestBidOffer "BONDNO1" =
      some ⟨⟨100, 2 ^ 62, PricingSide.BID⟩, ⟨101, 1, PricingSide.OFFER⟩⟩ ∧
    quantityAt overflowBook.bidStack 100 = 2 ^ 63 ∧
    (-2 ^ 63 : Int) ≠ quantityAt overflowBook.bidStack 100 := by
  decide!

/-- C31 as amended: for every stored book with both stacks non-empty, `AggregateDepth`
succeeds and `GetBestBidOffer` returns a best bid and offer both before and after it;
the two best prices are the same before and after, and afterwards the quantity of the
best bid (offer) is the total quantity of the original bid (offer) orders at that best
price whenever that total lies in the range of `long`. This holds for every iteration
order of the internal map. -/
theorem AggregateDepth_top_of_book (ord : IterOrder) (s : MarketDataService)
    (productId : String) (b : OrderBook) (h : s.order_books_.find productId = some b)
    (hbid : b.bidStack ≠ []) (hoffer : b.offerStack ≠ []) :
    ∃ (s' : MarketDataService) (r : OrderBook) (before after : BidOffer),
      s.GetBestBidOffer productId = some before ∧
      s.AggregateDepth ord productId = some (s', r) ∧
      s'.GetBestBidOffer productId = some after ∧
      r.GetBidOffer = some after ∧
      after.bidOrder.price = before.bidOrder.price ∧
      after.offerOrder.price = before.offerOrder.price ∧
      (InLong (quantityAt b.bidStack before.bidOrder.price) →
        after.bidOrder.quantity = quantityAt b.bidStack before.bidOrder.price) ∧
      (InLong (quantityAt b.offerStack before.offerOrder.price) →
        after.offerOrder.quantity = quantityAt b.offerStack before.offerOrder.price) := by
  obtain ⟨before, hbefore, hb1, hb2, ho1, ho2⟩ := GetBidOffer_extremal b hbid hoffer
  obtain ⟨after, hafter, ha1, ha2, hao1, hao2⟩ := GetBidOffer_extremal
    (OrderBook.mk b.product (AggregateStack ord b.bidStack) (AggregateStack ord b.offerStack))
    (AggregateStack_ne_nil ord _ hbid) (AggregateStack_ne_nil ord _ hoffer)
  obtain ⟨hbp, hbq⟩ := AggregateStack_highest ord b.bidStack _ _ ha1 ha2 hb1 hb2
  obtain ⟨hop, hoq⟩ := AggregateStack_lowest ord b.offerStack _ _ hao1 hao2 ho1 ho2
  refine ⟨_, _, before, after, ?_, AggregateDepth_eq ord s productId b h, ?_, hafter,
    hbp, hop, hbq, hoq⟩
  · simp [MarketDataService.GetBestBidOffer, h, hbefore]
  · simp [MarketDataService.GetBestBidOffer, UMap.find_assign, hafter]

/-- Witness for C31 as amended: the tied book stored under "BONDNO1", map iterated in
reverse. -/
theorem AggregateDepth_top_of_book_witness :
    tiedService.order_books_.find "BONDNO1" = some tiedBook ∧
    tiedBook.bidStack ≠ [] ∧ tiedBook.offerStack ≠ [] ∧
    ∃ (s' : MarketDataService) (r : OrderBook) (before after : BidOffer),
      tiedService.GetBestBidOffer "BONDNO1" = some before ∧
      tiedService.AggregateDepth IterOrder.reversed "BONDNO1" = some (s', r) ∧
      s'.GetBestBidOffer "BONDNO1" = some after ∧
      r.GetBidOffer = some after ∧
      after.bidOrder.price = before.bidOrder.price ∧
      after.offerOrder.price = before.offerOrder.price ∧
      (InLong (quantityAt tiedBook.bidStack before.bidOrder.price) →
        after.bidOrder.quantity = quantityAt tiedBook.bidStack before.bidOrder.price) ∧
      (InLong (quantityAt tiedBook.offerStack before.offerOrder.price) →
        after.offerOrder.quantity = quantityAt tiedBook.offerStack before.offerOrder.price) :=
  have hfind : tiedService.order_books_.find "BONDNO1" = some tiedBook := by
    simp [tiedService, MarketDataService.new, MarketDataService.OnMessage, UMap.assign,
      UMap.find, tiedBook, Bond.GetProductId]
  ⟨hfind, by simp [tiedBook], by simp [tiedBook],
    AggregateDepth_top_of_book IterOrder.reversed tiedService "BONDNO1" tiedBook hfind
      (by simp [tiedBook]) (by simp [tiedBook])⟩

/-- On the tied book the top of book after aggregation is 100 for 500 against 201/2 for 5. -/
theorem AggregateDepth_top_of_book_example :
    (tiedService.AggregateDepth IterOrder.reversed "BONDNO1").map (fun x => x.2.GetBidOffer) =
      some (some ⟨⟨100, 500, PricingSide.BID⟩, ⟨201 / 2, 5, PricingSide.BID⟩⟩) ∧
    InLong (quantityAt tiedBook.bidStack 100) ∧ quantityAt tiedBook.bidStack 100 = 500 ∧
    InLong (quantityAt tiedBook.offerStack (201 / 2)) ∧
    quantityAt tiedBook.offerStack (201 / 2) = 5 := by
  unfold InLong
  decide!

/-! ## Frame of the execution engine -/

/-- C37: `AlgoExecute` never writes the keyed store. For every order book with
non-empty stacks the call returns, and the map `algo_execution_orders_` (the one
`GetData` reads and `OnMessage` writes), the listeners and the threshold are the same
before and after; a qualifying call (the `double` difference of the best prices is at
most the threshold) sends the order to the listeners and advances the counter by one, a
non-qualifying call makes no call and leaves the counter, hence the whole service,
unchanged. -/
theorem AlgoExecute_keeps_store (s : AlgoExecutionService) (book : OrderBook) (market : Market)
    (hbid : book.bidStack ≠ []) (hoffer : book.offerStack ≠ []) :
    ∃ (bo : BidOffer) (s' : AlgoExecutionService) (calls : List (ListenerId × AlgoExecutionOrder)),
      book.GetBidOffer = some bo ∧
      s.AlgoExecute book market = some (s', calls) ∧
      s'.algo_execution_orders_ = s.algo_execution_orders_ ∧
      s'.listeners_ = s.listeners_ ∧ s'.spread_ = s.spread_ ∧
      (toDouble (bo.offerOrder.price - bo.bidOrder.price) ≤ s.spread_ →
        s'.execution_count_ = s.execution_count_ + 1 ∧ calls.map Prod.fst = s.listeners_) ∧
      (s.spread_ < toDouble (bo.offerOrder.price - bo.bidOrder.price) →
        s'.execution_count_ = s.execution_count_ ∧ calls = [] ∧ s' = s) := by
  obtain ⟨bo, hbo⟩ := GetBidOffer_isSome book hbid hoffer
  by_cases hq : toDouble (bo.offerOrder.price - bo.bidOrder.price) ≤ s.spread_
  · refine ⟨bo, _, _, hbo, AlgoExecute_cross s book market bo hbo hq, rfl, rfl, rfl, ?_, ?_⟩
    · intro _
      exact ⟨rfl, fanout_listeners _ _⟩
    · intro hwide
      exact absurd hq (not_le.2 hwide)
  · refine ⟨bo, s, [], hbo, AlgoExecute_wide s book market bo hbo (not_le.1 hq), rfl, rfl, rfl,
      ?_, ?_⟩
    · intro hq'
      exact absurd hq' hq
    · intro _
      exact ⟨rfl, rfl, rfl⟩

/-- Witness for C37: a service that stores an order, called with a qualifying book. -/
theorem AlgoExecute_keeps_store_witness :
    (quoteBook "BONDNO2" 100 (100 + 1 / 128)).bidStack ≠ [] ∧
    (quoteBook "BONDNO2" 100 (100 + 1 / 128)).offerStack ≠ [] ∧
    storedAlgoService.algo_execution_orders_ ≠ [] ∧
    ∃ (bo : BidOffer) (s' : AlgoExecutionService) (calls : List (ListenerId × AlgoExecutionOrder)),
      (quoteBook "BONDNO2" 100 (100 + 1 / 128)).GetBidOffer = some bo ∧
      storedAlgoService.AlgoExecute (quoteBook "BONDNO2" 100 (100 + 1 / 128)) Market.CME =
        some (s', calls) ∧
      s'.algo_execution_orders_ = storedAlgoService.algo_execution_orders_ ∧
      s'.listeners_ = storedAlgoService.listeners_ ∧ s'.spread_ = storedAlgoService.spread_ ∧
      (toDouble (bo.offerOrder.price - bo.bidOrder.price) ≤ storedAlgoService.spread_ →
        s'.execution_count_ = storedAlgoService.execution_count_ + 1 ∧
          calls.map Prod.fst = storedAlgoService.listeners_) ∧
      (storedAlgoService.spread_ < toDouble (bo.offerOrder.price - bo.bidOrder.price) →
        s'.execution_count_ = storedAlgoService.execution_count_ ∧ calls = [] ∧
          s' = storedAlgoService) :=
  ⟨by simp [quoteBook], by simp [quoteBook], by decide!,
    AlgoExecute_keeps_store storedAlgoService (quoteBook "BONDNO2" 100 (100 + 1 / 128))
      Market.CME (by simp [quoteBook]) (by simp [quoteBook])⟩

/-- After a qualifying call for "BONDNO2" the store still holds the one order of
"BONDNO1" and nothing for "BONDNO2", the counter went from 1 to 2 and both listeners
were called; `OnMessage` with the same order is what stores it. -/
theorem AlgoExecute_keeps_store_example :
    (storedAlgoService.AlgoExecute (quoteBook "BONDNO2" 100 (100 + 1 / 128)) Market.CME).map
        (fun r => (r.1.algo_execution_orders_.map Prod.fst, r.1.execution_count_,
          r.2.map Prod.fst)) = some (["BONDNO1"], 2, [1, 2]) ∧
    (storedAlgoService.OnMessage
        (AlgoExecutionOrder.new (quoteBook "BONDNO2" 100 101).product PricingSide.OFFER ""
          OrderType.MARKET 101 2000000 0 "" false Market.CME)).1.algo_execution_orders_.map
        Prod.fst = ["BONDNO1", "BONDNO2"] := by
  constructor <;> decide!

/-! ## Default entries of the inquiry store -/

/-- Default construction of a `Bond` has no defined outcome. -/
theorem Bond_default_undefined : Bond.default = Outcome.undefined := rfl

/-- Reading `inquiries_[key]` for an absent key has no defined outcome, whatever the
store holds under other keys. -/
theorem inquiry_index_absent (s : InquiryService) (key : String)
    (h : s.inquiries_.find key = none) :
    UMap.index s.inquiries_ key Inquiry.default = Outcome.undefined := by
  simp [UMap.index, h, Inquiry.default, Bond.default, stringOfPointer]

/-- For a stored key the two definitions of `RejectInquiry` agree, and `GetData`
returns the stored inquiry and leaves the service as it is. -/
theorem RejectInquiryOutcome_stored (s : InquiryService) (key : String) (inq : Inquiry)
    (h : s.inquiries_.find key = some inq) :
    (s.RejectInquiryOutcome key).toOption = (s.RejectInquiry key).map Prod.fst ∧
    s.GetData key = Outcome.value (s, inq) := by
  simp [InquiryService.RejectInquiryOutcome, InquiryService.RejectInquiry, InquiryService.GetData,
    UMap.index, h, Outcome.toOption]

/-- C36: on a service that never stored the id "INQ2" (a fresh one, and one that
stores "INQ1"), `RejectInquiry` and `GetData` have no defined outcome: `inquiries_[id]`
default-constructs an `Inquiry<Bond>`, whose `Bond()` builds the product id from a
null pointer. No value is returned and no service with a new entry results; on the
stored id "INQ1" both calls return. -/
theorem RejectInquiry_absent_id :
    InquiryService.new.RejectInquiryOutcome "INQ2" = Outcome.undefined ∧
    InquiryService.new.GetData "INQ2" = Outcome.undefined ∧
    doneService.RejectInquiryOutcome "INQ2" = Outcome.undefined ∧
    doneService.GetData "INQ2" = Outcome.undefined ∧
    (∀ s' : InquiryService, doneService.RejectInquiryOutcome "INQ2" ≠ Outcome.value s') ∧
    (∀ r : InquiryService × Inquiry, doneService.GetData "INQ2" ≠ Outcome.value r) ∧
    InquiryService.new.RejectInquiry "INQ2" = none ∧
    doneService.RejectInquiryOutcome "INQ1" =
      Outcome.value ⟨[("INQ1", sampleInquiry InquiryState.REJECTED)], [1]⟩ ∧
    doneService.GetData "INQ1" = Outcome.value (doneService, sampleInquiry InquiryState.DONE) := by
  have h1 : doneService.RejectInquiryOutcome "INQ2" = Outcome.undefined := by decide!
  have h2 : doneService.GetData "INQ2" = Outcome.undefined := by decide!
  refine ⟨by decide!, by decide!, h1, h2, ?_, ?_, by decide!, by decide!, by decide!⟩
  · intro s' h
    rw [h1] at h
    cases h
  · intro r h
    rw [h2] at h
    cases h

/-! ## Trade booking from executions -/

/-- The four orders are booked to TRSY2, TRSY3, TRSY1, TRSY2 in turn, each trade being
sent twice to the listener 5, with quantities 1000000, 2500000, 3000000 and 4000000
and sides SELL, BUY, SELL, BUY. -/
theorem ProcessAdd_books_trade_example :
    (ExecutionToTradeBookingListener.run ExecutionToTradeBookingListener.new
        (TradeBookingService.new.AddListener 5) fourOrders).2.2.map
      (fun calls => calls.map (fun c => (c.1, c.2.tradeId, c.2.book))) =
      [[(5, "O1", "TRSY2"), (5, "O1", "TRSY2")], [(5, "O2", "TRSY3"), (5, "O2", "TRSY3")],
       [(5, "O3", "TRSY1"), (5, "O3", "TRSY1")], [(5, "O4", "TRSY2"), (5, "O4", "TRSY2")]] ∧
    (ExecutionToTradeBookingListener.run ExecutionToTradeBookingListener.new
        (TradeBookingService.new.AddListener 5) fourOrders).2.2.map
      (fun calls => calls.map (fun c => (c.2.quantity, c.2.side))) =
      [[(1000000, Side.SELL), (1000000, Side.SELL)], [(2500000, Side.BUY), (2500000, Side.BUY)],
       [(3000000, Side.SELL), (3000000, Side.SELL)],
       [(4000000, Side.BUY), (4000000, Side.BUY)]] := by
  constructor <;> decide!

/-! ## Position accumulation -/

theorem UMap.find_try_emplace {K V : Type} [DecidableEq K] (m : UMap K V) (k k' : K) (v : V) :
    UMap.find (UMap.try_emplace m k v) k' =
      if k = k' then some ((UMap.find m k).getD v) else UMap.find m k' := by
  unfold UMap.try_emplace
  cases h : UMap.find m k with
  | none =>
    simp only [UMap.find_assign, Option.getD_none]
  | some w =>
    by_cases hk : k = k'
    · subst hk
      simp [h]
    · simp [hk]

theorem UMap.nodup_keys_try_emplace {K V : Type} [DecidableEq K] (m : UMap K V) (k : K) (v : V)
    (h : (m.map Prod.fst).Nodup) : ((UMap.try_emplace m k v).map Prod.fst).Nodup := by
  unfold UMap.try_emplace
  cases hf : UMap.find m k with
  | none => exact UMap.nodup_keys_assign m k v h
  | some w => exact h

/-- With unique keys, an entry of the map is what `find` returns for its key. -/
theorem UMap.find_of_mem {K V : Type} [DecidableEq K] (m : UMap K V)
    (h : (m.map Prod.fst).Nodup) (e : K × V) (he : e ∈ m) : UMap.find m e.1 = some e.2 := by
  induction m with
  | nil => cases he
  | cons a m ih =>
    obtain ⟨a1, a2⟩ := a
    have h' : a1 ∉ m.map Prod.fst ∧ (m.map Prod.fst).Nodup := List.nodup_cons.1 h
    rcases List.mem_cons.1 he with he | he
    · subst he
      simp [UMap.find]
    · have hne : a1 ≠ e.1 := by
        intro heq
        apply h'.1
        rw [heq]
        exact List.mem_map.2 ⟨e, he, rfl⟩
      simp only [UMap.find, hne, if_false]
      exact ih h'.2 he

/-- The loop `res += pos` on `long`: up to wrapping it adds the stored values. -/
theorem sumLoop_wrap (m : UMap String Int) (a : Int) :
    wrapLong (m.foldl (fun res e => wrapLong (res + e.2)) a) =
      wrapLong (a + (m.map Prod.snd).sum) := by
  induction m generalizing a with
  | nil => simp
  | cons e m ih =>
    simp only [List.foldl_cons, List.map_cons, List.sum_cons]
    rw [ih (wrapLong (a + e.2)), wrapLong_add_left]
    congr 1
    ring

theorem sumLoop_inLong (m : UMap String Int) (a : Int) (ha : InLong a) :
    InLong (m.foldl (fun res e => wrapLong (res + e.2)) a) := by
  induction m generalizing a with
  | nil => exact ha
  | cons e m ih =>
    simp only [List.foldl_cons]
    exact ih _ (wrapLong_inLong _)

theorem sumLoop_eq_sum (m : UMap String Int) :
    m.foldl (fun res e => wrapLong (res + e.2)) 0 = wrapLong ((m.map Prod.snd).sum) := by
  have h0 : InLong 0 := by
    unfold InLong
    constructor <;> norm_num
  rw [← wrapLong_of_inLong _ (sumLoop_inLong m 0 h0), sumLoop_wrap, zero_add]

theorem sum_assign (m : UMap String Int) (k : String) (v : Int) :
    ((UMap.assign m k v).map Prod.snd).sum =
      (m.map Prod.snd).sum - (UMap.find m k).getD 0 + v := by
  induction m with
  | nil => simp [UMap.assign, UMap.find]
  | cons e m ih =>
    obtain ⟨a, b⟩ := e
    by_cases hak : a = k
    · simp only [UMap.assign, UMap.find, hak, if_true, List.map_cons, List.sum_cons,
        Option.getD_some]
      ring
    · simp only [UMap.assign, UMap.find, hak, if_false, List.map_cons, List.sum_cons]
      rw [ih]
      ring

theorem sum_try_emplace (m : UMap String Int) (k : String) :
    ((UMap.try_emplace m k 0).map Prod.snd).sum = (m.map Prod.snd).sum := by
  unfold UMap.try_emplace
  cases h : UMap.find m k with
  | none => simp [sum_assign, h]
  | some w => rfl

/-- The map of a position after `AddPosition`, in one step. -/
theorem AddPosition_positions (p : Position) (book : String) (q : Int) (side : Side) :
    (p.AddPosition book q side).positions =
      (p.positions.try_emplace book 0).assign book
        (wrapLong ((p.positions.find book).getD 0 + side.signed q)) ∧
    (p.AddPosition book q side).product = p.product := by
  have hcur : (UMap.find (UMap.try_emplace p.positions book 0) book).getD 0 =
      (UMap.find p.positions book).getD 0 := by
    rw [UMap.find_try_emplace]
    simp
  cases side with
  | BUY => simp [Position.AddPosition, Side.signed, hcur]
  | SELL => simp [Position.AddPosition, Side.signed, hcur, sub_eq_add_neg]

theorem AddPosition_find (p : Position) (book b : String) (q : Int) (side : Side) :
    ((p.AddPosition book q side).GetPosition b).2 =
      if book = b then wrapLong ((p.GetPosition b).2 + side.signed q)
      else (p.GetPosition b).2 := by
  have hget : ∀ (x : Position), (x.GetPosition b).2 = (x.positions.find b).getD 0 := by
    intro x
    unfold Position.GetPosition
    cases UMap.find x.positions b <;> rfl
  rw [hget, hget, (AddPosition_positions p book q side).1, UMap.find_assign]
  by_cases hb : book = b
  · subst hb
    simp
  · simp [hb, UMap.find_try_emplace]

theorem AddPosition_aggregate (p : Position) (book : String) (q : Int) (side : Side) :
    (p.AddPosition book q side).GetAggregatePosition =
      wrapLong (p.GetAggregatePosition + side.signed q) := by
  unfold Position.GetAggregatePosition
  rw [sumLoop_eq_sum, sumLoop_eq_sum, (AddPosition_positions p book q side).1, sum_assign,
    sum_try_emplace, UMap.find_try_emplace, wrapLong_add_right, wrapLong_add_left]
  simp only [if_true, Option.getD_some]
  congr 1
  ring

theorem AddPosition_nodup (p : Position) (book : String) (q : Int) (side : Side)
    (h : (p.positions.map Prod.fst).Nodup) :
    ((p.AddPosition book q side).positions.map Prod.fst).Nodup := by
  rw [(AddPosition_positions p book q side).1]
  exact UMap.nodup_keys_assign _ _ _ (UMap.nodup_keys_try_emplace _ _ _ h)

/-- `AddTrade` always returns: after `try_emplace` the key is stored. -/
theorem AddTrade_eq (s : PositionService) (trade : Trade) :
    s.AddTrade trade =
      some (⟨(s.positions_.try_emplace trade.product.GetProductId
              (Position.new trade.product)).assign trade.product.GetProductId
            (((s.positions_.find trade.product.GetProductId).getD
              (Position.new trade.product)).AddPosition trade.book trade.quantity trade.side),
          s.listeners_⟩,
        fanout s.listeners_
          (((s.positions_.find trade.product.GetProductId).getD
            (Position.new trade.product)).AddPosition trade.book trade.quantity trade.side)) := by
  simp [PositionService.AddTrade, UMap.find_try_emplace, UMap.find_assign]

/-- The stored position of each product after `AddTrade`. -/
theorem AddTrade_find (s : PositionService) (trade : Trade) (product_id : String) :
    ∃ r, s.AddTrade trade = some r ∧ r.1.listeners_ = s.listeners_ ∧
      r.1.positions_.find product_id =
        if trade.product.GetProductId = product_id then
          some (((s.positions_.find trade.product.GetProductId).getD
            (Position.new trade.product)).AddPosition trade.book trade.quantity trade.side)
        else s.positions_.find product_id := by
  refine ⟨_, AddTrade_eq s trade, rfl, ?_⟩
  simp only [UMap.find_assign, UMap.find_try_emplace]
  by_cases h : trade.product.GetProductId = product_id
  · simp [h]
  · simp [h]


theorem GetPosition_value (x : Position) (b : String) :
    (x.GetPosition b).2 = (x.positions.find b).getD 0 := by
  unfold Position.GetPosition
  cases UMap.find x.positions b <;> rfl

theorem tradedQuantity_cons (t : Trade) (rest : List Trade) (product_id : String) (side : Side) :
    tradedQuantity (t :: rest) product_id side =
      (if t.product.GetProductId = product_id ∧ t.side = side then t.quantity else 0) +
        tradedQuantity rest product_id side := by
  unfold tradedQuantity
  by_cases h : t.product.GetProductId = product_id ∧ t.side = side
  · simp [List.filter_cons, h]
  · simp [List.filter_cons, h]

theorem tradedQuantityIn_cons (t : Trade) (rest : List Trade) (product_id book : String)
    (side : Side) :
    tradedQuantityIn (t :: rest) product_id book side =
      (if t.book = book ∧ t.product.GetProductId = product_id ∧ t.side = side then t.quantity
        else 0) + tradedQuantityIn rest product_id book side := by
  unfold tradedQuantityIn
  by_cases hb : t.book = book
  · simp only [List.filter_cons, hb, decide_True, if_true, tradedQuantity_cons, true_and]
  · simp [List.filter_cons, hb]

/-- The signed quantity of a trade as its BUY part minus its SELL part. -/
theorem signed_split (side : Side) (q : Int) (c : Prop) [Decidable c] :
    (if c then side.signed q else 0) =
      (if c ∧ side = Side.BUY then q else 0) - (if c ∧ side = Side.SELL then q else 0) := by
  cases side <;> by_cases hc : c <;> simp [Side.signed, hc]

/-- What one `AddTrade` changes in the positions the service holds. -/
theorem AddTrade_step (s : PositionService) (trade : Trade) :
    ∃ r, s.AddTrade trade = some r ∧ r.1.listeners_ = s.listeners_ ∧
      ∀ product_id : String,
        (∀ book : String, r.1.positionOf product_id book =
          if trade.book = book ∧ trade.product.GetProductId = product_id then
            wrapLong (s.positionOf product_id book + trade.side.signed trade.quantity)
          else s.positionOf product_id book) ∧
        r.1.aggregateOf product_id =
          (if trade.product.GetProductId = product_id then
            wrapLong (s.aggregateOf product_id + trade.side.signed trade.quantity)
          else s.aggregateOf product_id) ∧
        ((r.1.positions_.find product_id).isSome ↔
          (s.positions_.find product_id).isSome ∨ trade.product.GetProductId = product_id) ∧
        ((∀ q, s.positions_.find product_id = some q → (q.positions.map Prod.fst).Nodup) →
          ∀ p, r.1.positions_.find product_id = some p → (p.positions.map Prod.fst).Nodup) := by
  refine ⟨_, AddTrade_eq s trade, rfl, ?_⟩
  intro product_id
  have hfind : UMap.find ((s.positions_.try_emplace trade.product.GetProductId
      (Position.new trade.product)).assign trade.product.GetProductId
        (((s.positions_.find trade.product.GetProductId).getD
          (Position.new trade.product)).AddPosition trade.book trade.quantity trade.side))
      product_id =
      if trade.product.GetProductId = product_id then
        some (((s.positions_.find trade.product.GetProductId).getD
          (Position.new trade.product)).AddPosition trade.book trade.quantity trade.side)
      else s.positions_.find product_id := by
    simp only [UMap.find_assign, UMap.find_try_emplace]
    by_cases h : trade.product.GetProductId = product_id
    · simp [h]
    · simp [h]
  by_cases hp : trade.product.GetProductId = product_id
  · subst hp
    simp only [if_true] at hfind
    refine ⟨?_, ?_, ?_, ?_⟩
    · intro book
      simp only [PositionService.positionOf, hfind, AddPosition_find, and_true]
      cases hs : UMap.find s.positions_ trade.product.GetProductId with
      | none => simp [Position.new, GetPosition_value, UMap.find]
      | some p0 => simp
    · simp only [PositionService.aggregateOf, hfind, AddPosition_aggregate, if_true]
      cases hs : UMap.find s.positions_ trade.product.GetProductId with
      | none => simp [Position.new, Position.GetAggregatePosition]
      | some p0 => simp
    · simp [hfind]
    · intro hq p hpfind
      rw [hfind] at hpfind
      cases hpfind
      apply AddPosition_nodup
      cases hs : UMap.find s.positions_ trade.product.GetProductId with
      | none => simp [Position.new]
      | some p0 => simpa using hq p0 hs
  · simp only [hp, if_false] at hfind
    refine ⟨?_, ?_, ?_, ?_⟩
    · intro book
      simp [PositionService.positionOf, hfind, hp]
    · simp [PositionService.aggregateOf, hfind, hp]
    · simp [hfind, hp]
    · intro hq p hpfind
      rw [hfind] at hpfind
      exact hq p hpfind

/-- The positions held after a run of `AddTrade` calls, from any state whose values
are `long` values. -/
theorem positions_run (trades : List Trade) :
    ∀ s : PositionService, ∃ s', PositionService.run s trades = some s' ∧
      s'.listeners_ = s.listeners_ ∧
      ∀ product_id : String,
        (∀ book : String, InLong (s.positionOf product_id book) →
          s'.positionOf product_id book = wrapLong (s.positionOf product_id book +
            (tradedQuantityIn trades product_id book Side.BUY -
              tradedQuantityIn trades product_id book Side.SELL))) ∧
        (InLong (s.aggregateOf product_id) →
          s'.aggregateOf product_id = wrapLong (s.aggregateOf product_id +
            (tradedQuantity trades product_id Side.BUY -
              tradedQuantity trades product_id Side.SELL))) ∧
        ((s'.positions_.find product_id).isSome ↔
          (s.positions_.find product_id).isSome ∨
            ∃ t ∈ trades, t.product.GetProductId = product_id) ∧
        ((∀ q, s.positions_.find product_id = some q → (q.positions.map Prod.fst).Nodup) →
          ∀ p, s'.positions_.find product_id = some p → (p.positions.map Prod.fst).Nodup) := by
  induction trades with
  | nil =>
    intro s
    refine ⟨s, rfl, rfl, ?_⟩
    intro product_id
    refine ⟨?_, ?_, by simp, fun h => h⟩
    · intro book hI
      simp [tradedQuantityIn, tradedQuantity, wrapLong_of_inLong _ hI]
    · intro hI
      simp [tradedQuantity, wrapLong_of_inLong _ hI]
  | cons t rest ih =>
    intro s
    obtain ⟨r, hr, hrl, hstep⟩ := AddTrade_step s t
    obtain ⟨s', hs', hsl, hrest⟩ := ih r.1
    refine ⟨s', by simp [PositionService.run, hr, hs'], by rw [hsl, hrl], ?_⟩
    intro product_id
    obtain ⟨h1, h2, h3, h4⟩ := hstep product_id
    obtain ⟨g1, g2, g3, g4⟩ := hrest product_id
    refine ⟨?_, ?_, ?_, ?_⟩
    · intro book hI
      have hr1 : r.1.positionOf product_id book = wrapLong (s.positionOf product_id book +
          (if t.book = book ∧ t.product.GetProductId = product_id then
            t.side.signed t.quantity else 0)) := by
        rw [h1 book]
        by_cases hc : t.book = book ∧ t.product.GetProductId = product_id
        · rw [if_pos hc, if_pos hc]
        · rw [if_neg hc, if_neg hc, add_zero, wrapLong_of_inLong _ hI]
      have hrI : InLong (r.1.positionOf product_id book) := hr1 ▸ wrapLong_inLong _
      rw [g1 book hrI, hr1, wrapLong_add_left, tradedQuantityIn_cons, tradedQuantityIn_cons,
        signed_split]
      simp only [and_assoc]
      apply congrArg wrapLong
      ring
    · intro hI
      have hr2 : r.1.aggregateOf product_id = wrapLong (s.aggregateOf product_id +
          (if t.product.GetProductId = product_id then t.side.signed t.quantity else 0)) := by
        rw [h2]
        by_cases hc : t.product.GetProductId = product_id
        · rw [if_pos hc, if_pos hc]
        · rw [if_neg hc, if_neg hc, add_zero, wrapLong_of_inLong _ hI]
      have hrI : InLong (r.1.aggregateOf product_id) := hr2 ▸ wrapLong_inLong _
      rw [g2 hrI, hr2, wrapLong_add_left, tradedQuantity_cons, tradedQuantity_cons,
        signed_split]
      apply congrArg wrapLong
      ring
    · rw [g3, h3]
      simp only [List.mem_cons, exists_eq_or_imp]
      clear h1 h2 g1 g2 h4 g4 hstep hrest ih
      tauto
    · intro hq
      exact g4 (h4 hq)

/-- With unique keys, the aggregate is the sum on `long` over the books of the
position in each book. -/
theorem sum_over_books (p : Position) (h : (p.positions.map Prod.fst).Nodup) :
    p.GetAggregatePosition =
      wrapLong ((p.positions.map Prod.fst).map (fun book => (p.GetPosition book).2)).sum := by
  unfold Position.GetAggregatePosition
  rw [sumLoop_eq_sum, List.map_map]
  congr 2
  apply List.map_congr_left
  intro e he
  simp [GetPosition_value, UMap.find_of_mem p.positions h e he]

/-- Counterexample to C35: the positions are `long` values and `+=` wraps. After two
BUY trades of 2^62 in "BONDNO1", both booked to TRSY1, the total quantity bought is
2^63, while the position in TRSY1 and the aggregate position are -2^63. -/
theorem AddTrade_accumulates_wraps :
    (PositionService.new.run
        [⟨FetchBond "BONDNO1", "T1", 100, "TRSY1", 2 ^ 62, Side.BUY⟩,
         ⟨FetchBond "BONDNO1", "T2", 100, "TRSY1", 2 ^ 62, Side.BUY⟩]).map
      (fun s => (s.positionOf "BONDNO1" "TRSY1", s.aggregateOf "BONDNO1")) =
      some (-2 ^ 63, -2 ^ 63) ∧
    tradedQuantityIn
        [⟨FetchBond "BONDNO1", "T1", 100, "TRSY1", 2 ^ 62, Side.BUY⟩,
         ⟨FetchBond "BONDNO1", "T2", 100, "TRSY1", 2 ^ 62, Side.BUY⟩]
        "BONDNO1" "TRSY1" Side.BUY -
      tradedQuantityIn
        [⟨FetchBond "BONDNO1", "T1", 100, "TRSY1", 2 ^ 62, Side.BUY⟩,
         ⟨FetchBond "BONDNO1", "T2", 100, "TRSY1", 2 ^ 62, Side.BUY⟩]
        "BONDNO1" "TRSY1" Side.SELL = 2 ^ 63 ∧
    (-2 ^ 63 : Int) ≠ 2 ^ 63 := by
  decide!

/-- C35 as amended: on a fresh `PositionService` (with any listeners) every sequence
of `AddTrade` calls returns, and afterwards, for every product and book, the position
is the total quantity of the product's BUY trades in that book minus that of its SELL
trades in that book, reduced to the range of `long` by wrapping, hence equal to it
whenever it lies in the range of `long`; likewise the aggregate position is the total
BUY quantity minus the total SELL quantity of the product, wrapped, and equal to it
whenever it lies in the range of `long`. A position object is stored exactly for the
products that were traded; its `GetPosition` and `GetAggregatePosition` return these
values, its books are distinct, and the aggregate is the wrapped sum over its books. -/
theorem AddTrade_accumulates (ls : List ListenerId) (trades : List Trade) :
    ∃ s' : PositionService, PositionService.run ⟨[], ls⟩ trades = some s' ∧
      ∀ product_id : String,
        (∀ book : String, s'.positionOf product_id book =
          wrapLong (tradedQuantityIn trades product_id book Side.BUY -
            tradedQuantityIn trades product_id book Side.SELL)) ∧
        (∀ book : String,
          InLong (tradedQuantityIn trades product_id book Side.BUY -
            tradedQuantityIn trades product_id book Side.SELL) →
          s'.positionOf product_id book =
            tradedQuantityIn trades product_id book Side.BUY -
              tradedQuantityIn trades product_id book Side.SELL) ∧
        s'.aggregateOf product_id =
          wrapLong (tradedQuantity trades product_id Side.BUY -
            tradedQuantity trades product_id Side.SELL) ∧
        (InLong (tradedQuantity trades product_id Side.BUY -
            tradedQuantity trades product_id Side.SELL) →
          s'.aggregateOf product_id =
            tradedQuantity trades product_id Side.BUY -
              tradedQuantity trades product_id Side.SELL) ∧
        ((∃ t ∈ trades, t.product.GetProductId = product_id) →
          ∃ p : Position, s'.positions_.find product_id = some p ∧
            (∀ book : String, (p.GetPosition book).2 = s'.positionOf product_id book) ∧
            p.GetAggregatePosition = s'.aggregateOf product_id ∧
            (p.positions.map Prod.fst).Nodup ∧
            p.GetAggregatePosition =
              wrapLong ((p.positions.map Prod.fst).map
                (fun book => (p.GetPosition book).2)).sum) ∧
        ((¬ ∃ t ∈ trades, t.product.GetProductId = product_id) →
          s'.positions_.find product_id = none) := by
  obtain ⟨s', hs', _, hinv⟩ := positions_run trades ⟨[], ls⟩
  refine ⟨s', hs', ?_⟩
  intro product_id
  obtain ⟨h1, h2, h3, h4⟩ := hinv product_id
  have h0 : InLong 0 := by
    unfold InLong
    constructor <;> norm_num
  have h1' : ∀ book : String, s'.positionOf product_id book =
      wrapLong (tradedQuantityIn trades product_id book Side.BUY -
        tradedQuantityIn trades product_id book Side.SELL) := by
    intro book
    have hz : PositionService.positionOf ⟨[], ls⟩ product_id book = 0 := by
      simp [PositionService.positionOf, UMap.find]
    have hI : InLong (PositionService.positionOf ⟨[], ls⟩ product_id book) := by
      rw [hz]
      exact h0
    rw [h1 book hI, hz, zero_add]
  have h2' : s'.aggregateOf product_id =
      wrapLong (tradedQuantity trades product_id Side.BUY -
        tradedQuantity trades product_id Side.SELL) := by
    have hz : PositionService.aggregateOf ⟨[], ls⟩ product_id = 0 := by
      simp [PositionService.aggregateOf, UMap.find]
    have hI : InLong (PositionService.aggregateOf ⟨[], ls⟩ product_id) := by
      rw [hz]
      exact h0
    rw [h2 hI, hz, zero_add]
  refine ⟨h1', ?_, h2', ?_, ?_, ?_⟩
  · intro book hI
    rw [h1' book, wrapLong_of_inLong _ hI]
  · intro hI
    rw [h2', wrapLong_of_inLong _ hI]
  · intro hex
    have hsome : (s'.positions_.find product_id).isSome := h3.2 (Or.inr hex)
    obtain ⟨p, hp⟩ := Option.isSome_iff_exists.1 hsome
    have hnd : (p.positions.map Prod.fst).Nodup :=
      h4 (by intro q hq; simp [UMap.find] at hq) p hp
    refine ⟨p, hp, ?_, ?_, hnd, sum_over_books p hnd⟩
    · intro book
      simp [PositionService.positionOf, hp]
    · simp [PositionService.aggregateOf, hp]
  · intro hnex
    have hnot : ¬ (s'.positions_.find product_id).isSome := by
      intro hsome
      rcases h3.1 hsome with h | h
      · simp [UMap.find] at h
      · exact hnex h
    simpa using hnot

/-- After the five trades "BONDNO1" holds -3000000 in TRSY1, -2000000 in TRSY2 and
5000000 in TRSY3, in aggregate 0, "BONDNO2" holds -3000000, and nothing is stored for
"BONDNO3". -/
theorem AddTrade_accumulates_example :
    (PositionService.new.run fiveTrades).map
        (fun s => ((s.positionOf "BONDNO1" "TRSY1", s.positionOf "BONDNO1" "TRSY2",
          s.positionOf "BONDNO1" "TRSY3"), s.aggregateOf "BONDNO1", s.aggregateOf "BONDNO2",
          s.positions_.map Prod.fst)) =
      some ((-3000000, -2000000, 5000000), 0, -3000000, ["BONDNO1", "BONDNO2"]) := by
  decide!

/-! ## Execution pipeline of main -/

/-- An update whose computed spread is above the threshold calls `AddTrade` not at all and
leaves every service but the market data store as it is. -/
theorem OnMessage_wide_no_AddTrade (p : Pipeline) (book : OrderBook) (bo : BidOffer)
    (hw : p.Wired) (hbo : book.GetBidOffer = some bo)
    (hq : p.algo_execution_service.spread_ <
      toDouble (bo.offerOrder.price - bo.bidOrder.price)) :
    p.OnMessage book =
      some ({ p with market_data_service := (p.market_data_service.OnMessage book).1 }, []) := by
  obtain ⟨hmd, hae, hes, htb, hps⟩ := hw
  have hfan : (p.market_data_service.OnMessage book).2 =
      [(algo_execution_in_listener, book)] := by
    simp [MarketDataService.OnMessage, hmd, fanout]
  rw [Pipeline.OnMessage]
  simp only [hfan]
  simp [Pipeline.deliverAll, Pipeline.deliverBook, MarketDataToAlgoExecutionListener.ProcessAdd,
    AlgoExecute_wide p.algo_execution_service book Market.BROKERTEC bo hbo hq]

/-- Two updates of "BONDNO1" at a spread of 1/128 through the services of `main`: the
first sells 1000000 four times (twice to TRSY2, twice to TRSY3), the second buys
2000000 four times (twice to TRSY1, twice to TRSY2); the aggregate position is
-4000000 and then 4000000. -/
theorem OnMessage_four_AddTrade_example :
    (Pipeline.main.OnMessage (quoteBook "BONDNO1" 100 (100 + 1 / 128))).map
        (fun r => (r.2.map (fun t => (t.book, t.quantity, t.side)),
          r.1.position_service.aggregateOf "BONDNO1")) =
      some ([("TRSY2", 1000000, Side.SELL), ("TRSY2", 1000000, Side.SELL),
        ("TRSY3", 1000000, Side.SELL), ("TRSY3", 1000000, Side.SELL)], -4000000) ∧
    ((Pipeline.main.OnMessage (quoteBook "BONDNO1" 100 (100 + 1 / 128))).bind
        (fun r => r.1.OnMessage (quoteBook "BONDNO1" 100 (100 + 1 / 128)))).map
        (fun r => (r.2.map (fun t => (t.book, t.quantity, t.side)),
          r.1.position_service.aggregateOf "BONDNO1")) =
      some ([("TRSY1", 2000000, Side.BUY), ("TRSY1", 2000000, Side.BUY),
        ("TRSY2", 2000000, Side.BUY), ("TRSY2", 2000000, Side.BUY)], 4000000) := by
  constructor <;> decide!

/-! ## Round trip of prices -/

/-- A multiple `m/256` split into handle, 32nds and 256ths. -/
theorem price_parts (m : Nat) :
    (m : ℚ) / 256 = ((m / 256 : Nat) : ℚ) + ((m % 256 / 8 : Nat) : ℚ) / 32 +
      ((m % 8 : Nat) : ℚ) / 256 ∧ m % 256 / 8 ≤ 31 ∧ m % 8 ≤ 7 := by
  refine ⟨?_, by omega, by omega⟩
  have hm : m = 256 * (m / 256) + 8 * (m % 256 / 8) + m % 8 := by omega
  have hmq : (m : ℚ) = 256 * ((m / 256 : Nat) : ℚ) + 8 * ((m % 256 / 8 : Nat) : ℚ) +
      ((m % 8 : Nat) : ℚ) := by exact_mod_cast hm
  rw [hmq]
  ring

/-- Counterexample to C32: the price is narrowed to the `float` parameter. The
multiple `16777217/256 = 65536 + 1/256` of 1/256 is written as "65536-000", which
parses back to 65536. -/
theorem ConvertPrice_round_trip_narrowed :
    ConvertPriceText (16777217 / 256) = "65536-000".toList ∧
    ConvertPrice (ConvertPriceText (16777217 / 256)) = some 65536 ∧
    ConvertPrice (ConvertPriceText (16777217 / 256)) ≠ some (16777217 / 256) := by
  decide!

/-- C32 as amended: for every non-negative multiple `m/256` of 1/256 below 65536
(`m < 2^24`, so that the price is a `float`), `ConvertPrice(float)` writes the handle
`m / 256` in decimal, `'-'`, the two decimal digits of the count of 32nds, and one
final character, `'+'` when the remaining count of 256ths is 4 and its digit (0 to 7)
otherwise; `ConvertPrice(string)` parses that text back to `m/256`. -/
theorem ConvertPrice_round_trip_multiples (m : Nat) (hm : m < 2 ^ 24) :
    ConvertPriceText ((m : ℚ) / 256) =
      to_string ((m / 256 : Nat) : Int) ++
        '-' :: Nat.digitChar (m % 256 / 8 / 10) :: Nat.digitChar (m % 256 / 8 % 10) ::
          [if m % 8 = 4 then '+' else Nat.digitChar (m % 8)] ∧
    m % 256 / 8 / 10 < 10 ∧ m % 256 / 8 % 10 < 10 ∧ m % 8 ≤ 7 ∧
    ConvertPrice (ConvertPriceText ((m : ℚ) / 256)) = some ((m : ℚ) / 256) := by
  obtain ⟨hparts, hk, hz⟩ := price_parts m
  have hx : m % 256 / 8 / 10 < 10 := by omega
  have hy : m % 256 / 8 % 10 < 10 := by omega
  have hfloat : toFloat ((m : ℚ) / 256) = (m : ℚ) / 256 := by
    have := toFloat_natCast_div m 8 hm (by norm_num)
    norm_num at this ⊢
    exact this
  have htext : ConvertPriceText ((m : ℚ) / 256) =
      to_string ((m / 256 : Nat) : Int) ++
        '-' :: Nat.digitChar (m % 256 / 8 / 10) :: Nat.digitChar (m % 256 / 8 % 10) ::
          [if m % 8 = 4 then '+' else Nat.digitChar (m % 8)] := by
    rw [hparts]
    exact ConvertPriceText_parts (m / 256) (m % 256 / 8) (m % 8) hk hz (by omega)
      (by rw [← hparts]; exact hfloat)
  refine ⟨htext, hx, hy, hz, ?_⟩
  rw [htext]
  have hk10 : 10 * (m % 256 / 8 / 10) + m % 256 / 8 % 10 = m % 256 / 8 := by omega
  by_cases h4 : m % 8 = 4
  · have hq : ((m % 8 : Nat) : ℚ) = 4 := by exact_mod_cast h4
    rw [if_pos h4, ConvertPrice_plus_tail (m / 256) _ _ hx hy (by omega), hk10, hparts, hq]
    norm_num
  · rw [if_neg h4, ConvertPrice_digit_tail (m / 256) _ _ (m % 8) hx hy (by omega) (by omega),
      hk10, hparts]

/-- Witness for C32 as amended: 100 + 3/256, written "100-003". -/
theorem ConvertPrice_round_trip_multiples_witness :
    (25603 < 2 ^ 24) ∧
    ConvertPriceText (((25603 : Nat) : ℚ) / 256) =
      to_string ((25603 / 256 : Nat) : Int) ++
        '-' :: Nat.digitChar (25603 % 256 / 8 / 10) :: Nat.digitChar (25603 % 256 / 8 % 10) ::
          [if 25603 % 8 = 4 then '+' else Nat.digitChar (25603 % 8)] ∧
    25603 % 256 / 8 / 10 < 10 ∧ 25603 % 256 / 8 % 10 < 10 ∧ 25603 % 8 ≤ 7 ∧
    ConvertPrice (ConvertPriceText (((25603 : Nat) : ℚ) / 256)) =
      some (((25603 : Nat) : ℚ) / 256) :=
  ⟨by norm_num, ConvertPrice_round_trip_multiples 25603 (by norm_num)⟩

/-- The texts of 100, 100 + 3/256, 100 + 1/64 and 99 + 255/256, each parsed back. -/
theorem ConvertPrice_round_trip_multiples_example :
    ConvertPriceText (25600 / 256) = "100-000".toList ∧
    ConvertPriceText (25603 / 256) = "100-003".toList ∧
    ConvertPriceText (25604 / 256) = "100-00+".toList ∧
    ConvertPriceText (25599 / 256) = "99-317".toList ∧
    ConvertPrice "100-00+".toList = some (25604 / 256) ∧
    ConvertPrice "99-317".toList = some (25599 / 256) := by
  refine ⟨?_, ?_, ?_, ?_, ?_, ?_⟩ <;> decide!

end MTH9815
